import Mathlib

/-!
# owl-lich: waveshaper family, ADAA wrapper and Dattorro stereo reverb

A shallow embedding of `src/C++/Nonlinearity.hpp` and
`src/C++/DattoroStereoReverb.hpp`.

Conventions of the embedding
* A C++ `float`/`double` value is an element of an ordered field `α`; the
  closed-form results are stated over `ℝ`.  Definitions that use only field
  operations, `abs` and comparisons are generic in `α` (and so run over `ℚ`);
  the variants built on `sqrt`, `tanh`, `atan`, `sin`, `cos`, `log`, `exp`
  live over `ℝ`.
* The `<cmath>` constants `M_PI`, `M_PI_2`, `M_2_PI`, `M_LN2` are the exact
  reals `π`, `π/2`, `2/π`, `ln 2`.
* A float division whose divisor is zero has no real value (it is `inf`/`NaN`
  in C++); `checkedDiv` returns `none` there.
* `HardClip::getSample`, the two members of `ThirdOrderPolynomial` used by the
  waveshaper and `antialiasedClipN1` are embedded a second time with the result
  of every `float` operation passed through a rounding function (the
  definitions named `...Rounded`).  With `id` this is the exact embedding; with
  `roundBinary32` it is IEEE 754 binary32 arithmetic, round to nearest, ties to
  even.
-/

namespace OwlLich

/-! ## Nonlinearity.hpp : the catalog -/

section Catalog

variable {α : Type} [LinearOrderedField α]

/-- The static member `Nonlinearity::signum`. -/
def signum (x : α) : α :=
  if x > 0 then 1 else (if x < 0 then -1 else 0)

/-- The capability a waveshaper template is instantiated with (the template
parameter `Function`): a sample function and its first antiderivative. -/
structure Nonlinearity (α : Type) where
  getSample : α → α
  getAntiderivative1 : α → α

namespace HardClip

def getSample (x : α) : α :=
  0.5 * (|x + 1.0| - |x - 1.0|)

def getAntiderivative1 (x : α) : α :=
  let a := x + 1.0
  let b := x - 1.0
  0.25 * (|a| * a - |b| * b - 2.0)

def getAntiderivative2 (x : α) : α :=
  let a := x + 1.0
  let b := x - 1.0
  (|a| * a * a - |b| * b * b - 6.0 * x) / 12

end HardClip

namespace CubicSaturator

def getSample (x : α) : α :=
  if |x| ≥ 1 then signum x else x * (3 - x * x) / 2

def getAntiderivative1 (x : α) : α :=
  let a := |x|
  if a ≥ 1 then a - 3 / 8
  else
    let a := x * x
    3 * a / 4 - a * a / 8

def getAntiderivative2 (x : α) : α :=
  let a := |x|
  if a ≥ 1 then a * x / 2 - x * 3 / 8 + signum x / 10
  else
    let a := x * x
    a * x / 4 - a * a * x / 40

end CubicSaturator

namespace SecondOrderPolynomial

def getSample (x : α) : α :=
  if |x| > 1 then signum x else x * (2 - |x|)

def getAntiderivative1 (x : α) : α :=
  let xabs := |x|
  if xabs > 1 then xabs - 1 / 3 else x * x * (1 - xabs / 3)

def getAntiderivative2 (x : α) : α :=
  let xabs := |x|
  if xabs > 1 then x * xabs / 2 - x / 3 + signum x / 12
  else x * x * x * (1 / 3 - xabs / 12)

end SecondOrderPolynomial

namespace ThirdOrderPolynomial

def getSample (x : α) : α :=
  if |x| ≥ 1.5 then signum x else x - x * x * x * 4 / 27

def getAntiderivative1 (x : α) : α :=
  let a := |x|
  if a ≥ 1.5 then a - 9 / 16
  else
    let b := x * x
    b / 2 - b * b / 27

def getAntiderivative2 (x : α) : α :=
  let a := |x|
  if a ≥ 1.5 then a * x / 2 - x * 9 / 16 + signum x * 36 / 160
  else
    let b := a * a
    b * x / 6 - b * b * x / 135

end ThirdOrderPolynomial

namespace FourthOrderPolynomial

def getSample (x : α) : α :=
  if |x| ≥ 1 then signum x
  else x * x * x * (4 - |x|) - x * |x| * 6 + x * 4

def getAntiderivative1 (x : α) : α :=
  let a := |x|
  if a ≥ 1 then a - 0.2
  else
    let b := x * x
    let c := b * b
    (-a) * c / 5 + c + b * 2 * (1 - a)

/-- The member `getAntiderivative2`.  In the `else` branch the operand `1 / 5` has
two `int` literals: it is the integer quotient of C++, converted to `float` for
the addition. -/
def getAntiderivative2 (x : α) : α :=
  let a := |x|
  if a ≥ 1 then x * a / 2 - x / 5 + signum x / 30
  else
    let b := a * a
    b * b * x * ((-a) / 30 + (((1 : Int) / 5 : Int) : α)) + x * b * ((-a) / 2 + 2 / 3)

end FourthOrderPolynomial

end Catalog

/-! ### Variants over the reals -/

/-- The `cmath` constant `M_PI`. -/
noncomputable def M_PI : ℝ := Real.pi

/-- The `cmath` constant `M_PI_2`, that is `π/2`. -/
noncomputable def M_PI_2 : ℝ := Real.pi / 2

/-- The `cmath` constant `M_2_PI`, that is `2/π`. -/
noncomputable def M_2_PI : ℝ := 2 / Real.pi

/-- The `cmath` constant `M_LN2`, that is `ln 2`. -/
noncomputable def M_LN2 : ℝ := Real.log 2

/-- Modelled from the spec: `fast_logf` is declared in `basicmaths.h`, which is
not part of the sources; it is read as the exact natural logarithm. -/
noncomputable def fast_logf (x : ℝ) : ℝ := Real.log x

/-- Modelled from the spec: `fast_expf` is declared in `basicmaths.h`, which is
not part of the sources; it is read as the exact exponential. -/
noncomputable def fast_expf (x : ℝ) : ℝ := Real.exp x

namespace AlgebraicSaturator

noncomputable def getSample (x : ℝ) : ℝ :=
  x / Real.sqrt (1 + x * x)

noncomputable def getAntiderivative1 (x : ℝ) : ℝ :=
  Real.sqrt (1 + x * x) - 1

end AlgebraicSaturator

namespace TanhSaturator

noncomputable def getSample (x : ℝ) : ℝ :=
  Real.tanh x

noncomputable def getAntiderivative1 (x : ℝ) : ℝ :=
  fast_logf ((fast_expf x + fast_expf (-x)) * 0.5)

end TanhSaturator

namespace ArctanSaturator

noncomputable def getSample (x : ℝ) : ℝ :=
  Real.arctan x / M_PI

noncomputable def getAntiderivative1 (x : ℝ) : ℝ :=
  (2 * x * Real.arctan x - fast_logf |x * x + 1|) / (2 * M_PI)

end ArctanSaturator

namespace SineSaturator

noncomputable def getSample (x : ℝ) : ℝ :=
  if |x| ≥ 1 then signum x else Real.sin (x * M_PI_2)

noncomputable def getAntiderivative1 (x : ℝ) : ℝ :=
  if |x| ≥ 1 then |x| - 1 + M_2_PI
  else M_2_PI - M_2_PI * Real.cos (x * M_PI_2)

end SineSaturator

namespace QuadraticSineSaturator

noncomputable def getSample (x : ℝ) : ℝ :=
  if |x| ≥ 1 then signum x
  else
    let a := Real.sin (M_PI_2 * x)
    |a| * a

noncomputable def getAntiderivative1 (x : ℝ) : ℝ :=
  if |x| ≥ 1 then |x| - 0.5
  else signum x * 0.5 * (x - Real.sin (M_PI * x) / M_PI)

end QuadraticSineSaturator

namespace CubicSineSaturator

noncomputable def getSample (x : ℝ) : ℝ :=
  if |x| ≥ 1 then signum x
  else
    let a := Real.sin (M_PI_2 * x)
    a * a * a

noncomputable def getAntiderivative1 (x : ℝ) : ℝ :=
  if |x| ≥ 1 then |x| + -1 + 4 * M_PI / 3
  else
    let a := Real.cos (M_PI_2 * x)
    M_2_PI / 3 * (a * a * a - a * 3 + 2)

end CubicSineSaturator

namespace ReciprocalSaturator

noncomputable def getSample (x : ℝ) : ℝ :=
  if |x| > 0.5 then signum x - 0.25 / x else x

noncomputable def getAntiderivative1 (x : ℝ) : ℝ :=
  let xabs := |x|
  if xabs > 0.5 then xabs - 0.25 * fast_logf xabs - 0.5 - M_LN2 / 4 + 0.125
  else x * x / 2

end ReciprocalSaturator

/-- The twelve classes derived from `Nonlinearity`. -/
inductive Variant
  | HardClip
  | CubicSaturator
  | SecondOrderPolynomial
  | ThirdOrderPolynomial
  | FourthOrderPolynomial
  | AlgebraicSaturator
  | TanhSaturator
  | ArctanSaturator
  | SineSaturator
  | QuadraticSineSaturator
  | CubicSineSaturator
  | ReciprocalSaturator
  deriving DecidableEq, Repr

/-- The member `Function::getSample` of each variant. -/
noncomputable def Variant.getSample : Variant → ℝ → ℝ
  | .HardClip => OwlLich.HardClip.getSample
  | .CubicSaturator => OwlLich.CubicSaturator.getSample
  | .SecondOrderPolynomial => OwlLich.SecondOrderPolynomial.getSample
  | .ThirdOrderPolynomial => OwlLich.ThirdOrderPolynomial.getSample
  | .FourthOrderPolynomial => OwlLich.FourthOrderPolynomial.getSample
  | .AlgebraicSaturator => OwlLich.AlgebraicSaturator.getSample
  | .TanhSaturator => OwlLich.TanhSaturator.getSample
  | .ArctanSaturator => OwlLich.ArctanSaturator.getSample
  | .SineSaturator => OwlLich.SineSaturator.getSample
  | .QuadraticSineSaturator => OwlLich.QuadraticSineSaturator.getSample
  | .CubicSineSaturator => OwlLich.CubicSineSaturator.getSample
  | .ReciprocalSaturator => OwlLich.ReciprocalSaturator.getSample

/-- The member `Function::getAntiderivative1` of each variant. -/
noncomputable def Variant.getAntiderivative1 : Variant → ℝ → ℝ
  | .HardClip => OwlLich.HardClip.getAntiderivative1
  | .CubicSaturator => OwlLich.CubicSaturator.getAntiderivative1
  | .SecondOrderPolynomial => OwlLich.SecondOrderPolynomial.getAntiderivative1
  | .ThirdOrderPolynomial => OwlLich.ThirdOrderPolynomial.getAntiderivative1
  | .FourthOrderPolynomial => OwlLich.FourthOrderPolynomial.getAntiderivative1
  | .AlgebraicSaturator => OwlLich.AlgebraicSaturator.getAntiderivative1
  | .TanhSaturator => OwlLich.TanhSaturator.getAntiderivative1
  | .ArctanSaturator => OwlLich.ArctanSaturator.getAntiderivative1
  | .SineSaturator => OwlLich.SineSaturator.getAntiderivative1
  | .QuadraticSineSaturator => OwlLich.QuadraticSineSaturator.getAntiderivative1
  | .CubicSineSaturator => OwlLich.CubicSineSaturator.getAntiderivative1
  | .ReciprocalSaturator => OwlLich.ReciprocalSaturator.getAntiderivative1

/-- The variant as a template argument. -/
noncomputable def Variant.toNonlinearity (v : Variant) : Nonlinearity ℝ :=
  { getSample := v.getSample, getAntiderivative1 := v.getAntiderivative1 }

/-! ## Nonlinearity.hpp : AntialiasedWaveshaperTemplate -/

section Waveshaper

variable {α : Type} [LinearOrderedField α]

/-- Float division; a zero divisor has no real quotient. -/
def checkedDiv (a b : α) : Option α :=
  if b = 0 then none else some (a / b)

/-- The data members `xn1, Fn, Fn1` of `AntialiasedWaveshaperTemplate`. -/
structure AntialiasedWaveshaperTemplate (α : Type) where
  xn1 : α
  Fn : α
  Fn1 : α

namespace AntialiasedWaveshaperTemplate

/-- The constant `static constexpr float thresh = 10.0e-2`. -/
def thresh : α := 10.0e-2

/-- The method `reset()`, also the state left by the constructor. -/
def reset : AntialiasedWaveshaperTemplate α :=
  { xn1 := 0, Fn := 0, Fn1 := 0 }

/-- The body of `antialiasedClipN1`, with the division operator `fdiv` of the
`else` branch as an argument.  Returns the sample `tmp` and the updated
members. -/
def antialiasedClipN1Core (fdiv : α → α → Option α) (f : Nonlinearity α)
    (s : AntialiasedWaveshaperTemplate α) (x : α) :
    Option (α × AntialiasedWaveshaperTemplate α) :=
  let Fn := f.getAntiderivative1 x
  let tmp : Option α :=
    if |x - s.xn1| < thresh then
      some (f.getSample (0.5 * (x + s.xn1)))
    else
      fdiv (Fn - s.Fn1) (x - s.xn1)
  tmp.map fun t => (t, { xn1 := x, Fn := Fn, Fn1 := Fn })

/-- The method `antialiasedClipN1(x)` with float division. -/
def antialiasedClipN1 (f : Nonlinearity α)
    (s : AntialiasedWaveshaperTemplate α) (x : α) :
    Option (α × AntialiasedWaveshaperTemplate α) :=
  antialiasedClipN1Core checkedDiv f s x

/-- The method `process(float input)`. -/
def process (f : Nonlinearity α)
    (s : AntialiasedWaveshaperTemplate α) (x : α) :
    Option (α × AntialiasedWaveshaperTemplate α) :=
  antialiasedClipN1 f s x

/-- The method `process(FloatArray input, FloatArray output)`: the loop calling
`antialiasedClipN1` on the input samples in order; the output block and the
members afterwards. -/
def processBlock (f : Nonlinearity α) :
    AntialiasedWaveshaperTemplate α → List α →
      Option (List α × AntialiasedWaveshaperTemplate α)
  | s, [] => some ([], s)
  | s, x :: xs =>
    match antialiasedClipN1 f s x with
    | none => none
    | some r =>
      match processBlock f r.2 xs with
      | none => none
      | some t => some (r.1 :: t.1, t.2)

end AntialiasedWaveshaperTemplate

end Waveshaper

/-! ## Binary32 arithmetic -/

/-- Rounding of a rational to the nearest integer, a tie going to the even one. -/
def roundHalfEven (m : ℚ) : ℤ :=
  let f : ℤ := ⌊m⌋
  if m - f < 1 / 2 then f
  else if 1 / 2 < m - f then f + 1
  else if f % 2 = 0 then f else f + 1

/-- The binary32 value nearest to a magnitude `q ≥ 0`: 24 significant bits,
round to nearest, ties to even. -/
def roundMagnitude (q : ℚ) : ℚ :=
  if q = 0 then 0
  else
    let ulp : ℚ := 2 ^ (Int.log 2 q - 23)
    (roundHalfEven (q / ulp) : ℚ) * ulp

/-- The rounding of an exact result to `float` (IEEE 754 binary32, round to
nearest, ties to even).  Exponent range is not bounded: overflow to infinity and
the subnormal range are left out. -/
def roundBinary32 (q : ℚ) : ℚ :=
  if q < 0 then -roundMagnitude (-q) else roundMagnitude q

section Rounded
variable {α : Type} [LinearOrderedField α]

/-- The member `HardClip::getSample` with the result of every `float` operation
rounded by `fl`. -/
def HardClip.getSampleRounded (fl : α → α) (x : α) : α :=
  fl (0.5 * fl (|fl (x + 1.0)| - |fl (x - 1.0)|))

/-- The member `ThirdOrderPolynomial::getSample` with the result of every `float`
operation rounded by `fl`. -/
def ThirdOrderPolynomial.getSampleRounded (fl : α → α) (x : α) : α :=
  if |x| ≥ 1.5 then signum x else fl (x - fl (fl (fl (fl (x * x) * x) * 4) / 27))

/-- The member `ThirdOrderPolynomial::getAntiderivative1` with the result of
every `float` operation rounded by `fl`. -/
def ThirdOrderPolynomial.getAntiderivative1Rounded (fl : α → α) (x : α) : α :=
  let a := |x|
  if a ≥ 1.5 then fl (a - fl (9 / 16))
  else
    let b := fl (x * x)
    fl (fl (b / 2) - fl (fl (b * b) / 27))

/-- The class `ThirdOrderPolynomial` as a template argument, its `float`
operations rounded by `fl`. -/
def ThirdOrderPolynomial.rounded (fl : α → α) : Nonlinearity α :=
  { getSample := ThirdOrderPolynomial.getSampleRounded fl
    getAntiderivative1 := ThirdOrderPolynomial.getAntiderivative1Rounded fl }

namespace AntialiasedWaveshaperTemplate

/-- The method `antialiasedClipN1(x)` with the result of every `float` operation
and the constant `thresh` rounded by `fl`. -/
def antialiasedClipN1Rounded (fl : α → α) (f : Nonlinearity α)
    (s : AntialiasedWaveshaperTemplate α) (x : α) :
    Option (α × AntialiasedWaveshaperTemplate α) :=
  let Fn := f.getAntiderivative1 x
  let tmp : Option α :=
    if |fl (x - s.xn1)| < fl thresh then
      some (f.getSample (fl (0.5 * fl (x + s.xn1))))
    else
      (checkedDiv (fl (Fn - s.Fn1)) (fl (x - s.xn1))).map fl
  tmp.map fun t => (t, { xn1 := x, Fn := Fn, Fn1 := Fn })

/-- The method `process(FloatArray input, FloatArray output)` on
`antialiasedClipN1Rounded`. -/
def processBlockRounded (fl : α → α) (f : Nonlinearity α) :
    AntialiasedWaveshaperTemplate α → List α →
      Option (List α × AntialiasedWaveshaperTemplate α)
  | s, [] => some ([], s)
  | s, x :: xs =>
    match antialiasedClipN1Rounded fl f s x with
    | none => none
    | some r =>
      match processBlockRounded fl f r.2 xs with
      | none => none
      | some t => some (r.1 :: t.1, t.2)

end AntialiasedWaveshaperTemplate

end Rounded

/-! ## DattoroStereoReverb.hpp

The classes `InterpolatingCircularFloatBuffer` and `SineOscillator` come from
`OpenWareLibrary.h`, which is not part of the sources; they are modelled from
the specification (sections 3, 4.1 and 4.2).  The input and output blocks are
taken as values: the output block is a fresh list, or the input buffer itself
processed in place. -/

section Reverb

variable {α : Type} [LinearOrderedField α] [FloorRing α]

/-- Modelled from the spec: the delay buffer class
`InterpolatingCircularFloatBuffer<LINEAR_INTERPOLATION>` is missing from the
sources.  A DelayLine is a sample storage of fixed capacity with a write
cursor. -/
structure DelayLine (α : Type) where
  data : List α
  writeIndex : Nat

namespace DelayLine

/-- Modelled from the spec: `create(capacity)` is missing from the sources; it
gives a zero-filled buffer of `capacity` samples. -/
def create (capacity : Nat) : DelayLine α :=
  { data := List.replicate capacity 0, writeIndex := 0 }

/-- Modelled from the spec: `getSize()` is missing from the sources; it is the
capacity. -/
def getSize (d : DelayLine α) : Nat := d.data.length

/-- Modelled from the spec: `getWriteIndex()` is missing from the sources; it is
the write cursor. -/
def getWriteIndex (d : DelayLine α) : Nat := d.writeIndex

/-- Modelled from the spec: `write(x)` is missing from the sources; it stores
`x` at the cursor and advances the cursor by 1 mod capacity. -/
def write (d : DelayLine α) (x : α) : DelayLine α :=
  { data := d.data.set d.writeIndex x, writeIndex := (d.writeIndex + 1) % d.getSize }

/-- Modelled from the spec: `writeAt(index, x)` is missing from the sources; it
stores `x` at an explicit absolute index mod capacity and does not move the
cursor. -/
def writeAt (d : DelayLine α) (index : Nat) (x : α) : DelayLine α :=
  { data := d.data.set (index % d.getSize) x, writeIndex := d.writeIndex }

/-- Modelled from the spec: `read()` is missing from the sources; it returns the
full-length delay tap, the oldest stored sample, which sits at the cursor. -/
def read (d : DelayLine α) : α := d.data.getD d.writeIndex 0

/-- Modelled from the spec: `readAt(fractionalIndex)` is missing from the
sources; it interpolates linearly between the two integer-indexed samples
bracketing `fractionalIndex mod capacity`. -/
def readAt (d : DelayLine α) (index : α) : α :=
  let idx : Int := ⌊index⌋
  let low := d.data.getD (idx % (d.getSize : Int)).toNat 0
  let high := d.data.getD ((idx + 1) % (d.getSize : Int)).toNat 0
  let frac := index - (idx : α)
  low + (high - low) * frac

/-- Modelled from the spec: `clear()` is missing from the sources; it zeroes all
storage and resets the cursor to 0, the capacity unchanged. -/
def clear (d : DelayLine α) : DelayLine α :=
  { data := List.replicate d.getSize 0, writeIndex := 0 }

end DelayLine

/-- Modelled from the spec: the class `SineOscillator` is missing from the
sources.  An oscillator is a phase accumulator with a frequency and a sample
rate. -/
structure Oscillator (α : Type) where
  sr : α
  freq : α
  phase : α

namespace Oscillator

/-- Modelled from the spec: `LFO::create(sr)` is missing from the sources. -/
def create (sr : α) : Oscillator α :=
  { sr := sr, freq := 0, phase := 0 }

/-- Modelled from the spec: `setFrequency(f)` is missing from the sources. -/
def setFrequency (o : Oscillator α) (f : α) : Oscillator α :=
  { o with freq := f }

/-- Modelled from the spec: `generate()` is missing from the sources; it returns
the next value of the waveform and advances the phase by the frequency relative
to the sample rate.  The waveform `wave` (a sine of the phase, periodic, with
values in `[-1, 1]`) is an argument. -/
def generate (wave : α → α) (o : Oscillator α) : α × Oscillator α :=
  (wave o.phase, { o with phase := o.phase + o.freq / o.sr })

end Oscillator

/-- The C function `fmodf`: the remainder of `x / y` with the quotient truncated
towards zero. -/
def fmodf (x y : α) : α :=
  let q := x / y
  let t : Int := if 0 ≤ q then ⌊q⌋ else ⌈q⌉
  x - y * (t : α)

/-- Addition of two `size_t` values of `w` bits. -/
def sizeAdd (w a b : Nat) : Nat := (a + b) % 2 ^ w

/-- Subtraction of two `size_t` values of `w` bits. -/
def sizeSub (w a b : Nat) : Nat := (a % 2 ^ w + (2 ^ w - b % 2 ^ w)) % 2 ^ w

/-- What an instantiation of the class template fixes: the width of `size_t`,
the template parameter `with_smear`, the template parameter `Processor` (`none`
for the empty class `bypass`, otherwise its `process(float)` acting on a state
of type `P`), and the waveform of the oscillators. -/
structure Instantiation (α P : Type) where
  sizeBits : Nat
  with_smear : Bool
  processor : Option (P → α → α × P)
  wave : α → α

/-- The data members of `DattorroStereoReverb` (the scratch array `tmp`, which no
member function reads or writes, is left out). -/
structure DattorroStereoReverb (α P : Type) where
  delays : Fin 14 → DelayLine α
  lfo1 : Oscillator α
  lfo2 : Oscillator α
  amount : α
  decay : α
  diffusion : α
  damping : α
  lp1_state : α
  lp2_state : α
  hp1_state : α
  hp2_state : α
  hpf_amount : α
  lfo_offset1 : Nat
  lfo_offset2 : Nat
  lfo_amount1 : Nat
  lfo_amount2 : Nat
  processors : P × P

/-- The local variables of `process` that live across loop iterations. -/
structure Offsets where
  lfo1_read_offset : Nat
  lfo1_write_offset : Nat
  lfo2_read_offset : Nat
  lfo1_read_offset_alt : Nat
  lfo1_write_offset_alt : Nat

/-- One iteration of the loop of `process`: the two output samples, the values
of `acc` handed to `delays[10]->write` and `delays[13]->write`, and the state
after the iteration. -/
structure StepResult (α P : Type) where
  left_out : α
  right_out : α
  left_acc : α
  right_acc : α
  engine : DattorroStereoReverb α P
  offsets : Offsets

/-- What a call of `process` yields: the output block, the values written to the
two tank delays sample by sample, and the engine afterwards. -/
structure ProcessResult (α P : Type) where
  output : List (α × α)
  written : List (α × α)
  engine : DattorroStereoReverb α P

namespace DattorroStereoReverb

variable {P : Type}

/-- The constructor, on the delay lines and oscillators made by `create`.  The
constructor does not initialise `lfo_offset1` and `lfo_offset2`; their values
are the arguments `offset1`, `offset2`. -/
def create (sr : α) (delay_lengths : Fin 14 → Nat) (processors : P × P)
    (offset1 offset2 : Nat) : DattorroStereoReverb α P :=
  { delays := fun i => DelayLine.create (delay_lengths i)
    lfo1 := (Oscillator.create sr).setFrequency 0.5
    lfo2 := (Oscillator.create sr).setFrequency 0.3
    amount := 0
    decay := 0
    diffusion := 0
    damping := 0
    lp1_state := 0
    lp2_state := 0
    hp1_state := 0
    hp2_state := 0
    hpf_amount := 0.05
    lfo_offset1 := offset1
    lfo_offset2 := offset2
    lfo_amount1 := 0
    lfo_amount2 := 0
    processors := processors }

def setAmount (e : DattorroStereoReverb α P) (amount : α) : DattorroStereoReverb α P :=
  { e with amount := amount }

def setDecay (e : DattorroStereoReverb α P) (decay : α) : DattorroStereoReverb α P :=
  { e with decay := decay }

def setDiffusion (e : DattorroStereoReverb α P) (diffusion : α) : DattorroStereoReverb α P :=
  { e with diffusion := diffusion }

def setDamping (e : DattorroStereoReverb α P) (damping : α) : DattorroStereoReverb α P :=
  { e with damping := damping }

/-- The method `clear()`: a loop calling `clear()` on each of the delays. -/
def clear (e : DattorroStereoReverb α P) : DattorroStereoReverb α P :=
  { e with delays := fun i => (e.delays i).clear }

/-- The method `processLPF(state, value)`: the new `state` and the new `value`. -/
def processLPF (damping state value : α) : α × α :=
  let state := state + damping * (value - state)
  (state, state)

/-- The method `processHPF(state, value)`: the new `state` and the new `value`. -/
def processHPF (damping state value : α) : α × α :=
  let state := state + damping * (value - state)
  (state, state)

/-- The method `processAPF(delay, acc, kap)`: the delay after the write and the
new `acc`. -/
def processAPF (delay : DelayLine α) (acc kap : α) : DelayLine α × α :=
  let sample := delay.read
  let acc := acc + sample * kap
  let delay := delay.write acc
  let acc := acc * (-kap)
  let acc := acc + sample
  (delay, acc)

/-- The statement `processAPF(delays[i], acc, kap)` on the engine. -/
def applyAPF (e : DattorroStereoReverb α P) (i : Fin 14) (acc kap : α) :
    DattorroStereoReverb α P × α :=
  let r := processAPF (e.delays i) acc kap
  ({ e with delays := Function.update e.delays i r.1 }, r.2)

/-- The statement `acc = processors[k]->process(acc)`, compiled only when the
class `Processor` is not empty. -/
def applyProcessor (c : Instantiation α P) (p : P) (acc : α) : α × P :=
  match c.processor with
  | none => (acc, p)
  | some f => f p acc

/-- The offsets computed before the loop of `process`.  In the instantiation
without smear the two `_alt` variables and `lfo1_write_offset` stay
uninitialised and are never read; they are 0 here. -/
def initOffsets (c : Instantiation α P) (e : DattorroStereoReverb α P) : Offsets :=
  let w := c.sizeBits
  let lfo2_read_offset :=
    sizeSub w (sizeAdd w (e.delays 13).getWriteIndex (e.delays 13).getSize) e.lfo_offset2
  if c.with_smear then
    { lfo1_read_offset :=
        sizeSub w (sizeAdd w (e.delays 0).getWriteIndex (e.delays 0).getSize) e.lfo_offset1
      lfo1_read_offset_alt :=
        sizeSub w (sizeAdd w (e.delays 4).getWriteIndex (e.delays 4).getSize) e.lfo_offset1
      lfo1_write_offset := sizeAdd w (e.delays 0).getWriteIndex 100
      lfo1_write_offset_alt := sizeAdd w (e.delays 4).getWriteIndex 100
      lfo2_read_offset := lfo2_read_offset }
  else
    { lfo1_read_offset :=
        sizeSub w (sizeAdd w (e.delays 10).getWriteIndex (e.delays 10).getSize) e.lfo_offset1
      lfo1_read_offset_alt := 0
      lfo1_write_offset := 0
      lfo1_write_offset_alt := 0
      lfo2_read_offset := lfo2_read_offset }

/-- The block `if constexpr (with_smear) { ... }` at the head of the loop body. -/
def smearStep (c : Instantiation α P) (e : DattorroStereoReverb α P) (o : Offsets) :
    DattorroStereoReverb α P × Offsets :=
  let w := c.sizeBits
  let g := e.lfo1.generate c.wave
  let l : α := (g.1 + 1) * (e.lfo_amount1 : α)
  let d0 := e.delays 0
  let t := d0.readAt (fmodf ((o.lfo1_read_offset : α) - l) (d0.getSize : α))
  let d0 := d0.writeAt o.lfo1_write_offset t
  let d4 := e.delays 4
  let t := d4.readAt
    (fmodf ((o.lfo1_read_offset_alt : α) + l - (e.lfo_amount1 : α)) (d4.getSize : α))
  let d4 := d4.writeAt o.lfo1_write_offset_alt t
  ({ e with
      lfo1 := g.2
      delays := Function.update (Function.update e.delays 0 d0) 4 d4 },
   { o with
      lfo1_read_offset := sizeAdd w o.lfo1_read_offset 1
      lfo1_write_offset := sizeAdd w o.lfo1_write_offset 1
      lfo1_read_offset_alt := sizeAdd w o.lfo1_read_offset_alt 1
      lfo1_write_offset_alt := sizeAdd w o.lfo1_write_offset_alt 1 })

/-- The left channel of the loop body, from `float acc = *left_in` up to and
including `processHPF(hp1_state, acc)`: the value of `acc` and the state. -/
def leftAcc (c : Instantiation α P) (e : DattorroStereoReverb α P) (o : Offsets)
    (left_in : α) : α × DattorroStereoReverb α P × Offsets :=
  let kap := e.diffusion
  let krt := e.decay
  let acc := left_in
  let r := applyAPF e 0 acc kap
  let r := applyAPF r.1 1 r.2 kap
  let r := applyAPF r.1 2 r.2 kap
  let r := applyAPF r.1 3 r.2 kap
  let e := r.1
  let acc := r.2
  let g := e.lfo2.generate c.wave
  let e := { e with lfo2 := g.2 }
  let acc := acc +
    (e.delays 13).readAt ((g.1 + 1) * (e.lfo_amount2 : α) + (o.lfo2_read_offset : α)) * krt
  let o := { o with lfo2_read_offset := sizeAdd c.sizeBits o.lfo2_read_offset 1 }
  let f := processLPF e.damping e.lp1_state acc
  let e := { e with lp1_state := f.1 }
  let r := applyAPF e 8 f.2 (-kap)
  let r := applyAPF r.1 9 r.2 kap
  let e := r.1
  let p := applyProcessor c e.processors.1 r.2
  let e := { e with processors := (p.2, e.processors.2) }
  let f := processHPF e.damping e.hp1_state p.1
  let e := { e with hp1_state := f.1 }
  (f.2, e, o)

/-- The right channel of the loop body, from `acc = *right_in` up to and
including `processHPF(hp2_state, acc)`: the value of `acc` and the state. -/
def rightAcc (c : Instantiation α P) (e : DattorroStereoReverb α P) (o : Offsets)
    (right_in : α) : α × DattorroStereoReverb α P × Offsets :=
  let kap := e.diffusion
  let krt := e.decay
  let acc := right_in
  let r := applyAPF e 4 acc kap
  let r := applyAPF r.1 5 r.2 kap
  let r := applyAPF r.1 6 r.2 kap
  let r := applyAPF r.1 7 r.2 kap
  let e := r.1
  let acc := r.2
  let t : α × DattorroStereoReverb α P × Offsets :=
    if c.with_smear then
      (acc + (e.delays 10).read * krt, e, o)
    else
      let g := e.lfo1.generate c.wave
      (acc +
        (e.delays 10).readAt ((g.1 + 1) * (e.lfo_amount1 : α) + (o.lfo1_read_offset : α)) * krt,
       { e with lfo1 := g.2 },
       { o with lfo1_read_offset := sizeAdd c.sizeBits o.lfo1_read_offset 1 })
  let acc := t.1
  let e := t.2.1
  let o := t.2.2
  let f := processLPF e.damping e.lp2_state acc
  let e := { e with lp2_state := f.1 }
  let r := applyAPF e 11 f.2 kap
  let r := applyAPF r.1 12 r.2 (-kap)
  let e := r.1
  let p := applyProcessor c e.processors.2 r.2
  let e := { e with processors := (e.processors.1, p.2) }
  let f := processHPF e.damping e.hp2_state p.1
  let e := { e with hp2_state := f.1 }
  (f.2, e, o)

/-- The body of the loop `while (size--)` of `process` on one pair of input
samples. -/
def sampleStep (c : Instantiation α P) (e : DattorroStereoReverb α P) (o : Offsets)
    (x : α × α) : StepResult α P :=
  let s := if c.with_smear then smearStep c e o else (e, o)
  let l := leftAcc c s.1 s.2 x.1
  let e := l.2.1
  let e := { e with delays := Function.update e.delays 10 ((e.delays 10).write l.1) }
  let left_out := x.1 + (l.1 - x.1) * e.amount
  let r := rightAcc c e l.2.2 x.2
  let e := r.2.1
  let e := { e with delays := Function.update e.delays 13 ((e.delays 13).write r.1) }
  let right_out := x.2 + (r.1 - x.2) * e.amount
  { left_out := left_out, right_out := right_out, left_acc := l.1, right_acc := r.1,
    engine := e, offsets := r.2.2 }

/-- The loop `while (size--)` of `process` over the input block. -/
def processLoop (c : Instantiation α P) :
    DattorroStereoReverb α P → Offsets → List (α × α) → ProcessResult α P
  | e, _, [] => { output := [], written := [], engine := e }
  | e, o, x :: xs =>
    let s := sampleStep c e o x
    let r := processLoop c s.engine s.offsets xs
    { output := (s.left_out, s.right_out) :: r.output
      written := (s.left_acc, s.right_acc) :: r.written
      engine := r.engine }

/-- The method `process(input, output)` on a block of (left, right) samples. -/
def process (c : Instantiation α P) (e : DattorroStereoReverb α P)
    (input : List (α × α)) : ProcessResult α P :=
  processLoop c e (initOffsets c e) input

/-- The method `setModulation(offset1, amount1, offset2, amount2)`; the
arguments are `size_t` values and `/` on them is the integer division of C++. -/
def setModulation (e : DattorroStereoReverb α P) (offset1 amount1 offset2 amount2 : Nat) :
    DattorroStereoReverb α P :=
  { e with
    lfo_offset1 := offset1
    lfo_amount1 := amount1 / 2
    lfo_offset2 := offset2
    lfo_amount2 := amount2 / 2 }

/-- The loop `for (size_t i = 0; i < 4; i++) processAPF(delays[i], acc, kap)` of
the left channel. -/
def leftDiffuse (e : DattorroStereoReverb α P) (acc : α) : DattorroStereoReverb α P × α :=
  let kap := e.diffusion
  let r := applyAPF e 0 acc kap
  let r := applyAPF r.1 1 r.2 kap
  let r := applyAPF r.1 2 r.2 kap
  applyAPF r.1 3 r.2 kap

/-- The loop `for (size_t i = 4; i < 8; i++) processAPF(delays[i], acc, kap)` of
the right channel. -/
def rightDiffuse (e : DattorroStereoReverb α P) (acc : α) : DattorroStereoReverb α P × α :=
  let kap := e.diffusion
  let r := applyAPF e 4 acc kap
  let r := applyAPF r.1 5 r.2 kap
  let r := applyAPF r.1 6 r.2 kap
  applyAPF r.1 7 r.2 kap

/-- The value of the operand
`delays[13]->readAt((lfo2->generate() + 1) * lfo_amount2 + lfo2_read_offset++)`
of the left channel. -/
def leftTap (c : Instantiation α P) (e : DattorroStereoReverb α P) (o : Offsets) : α :=
  (e.delays 13).readAt
    (((e.lfo2.generate c.wave).1 + 1) * (e.lfo_amount2 : α) + (o.lfo2_read_offset : α))

/-- The value of the operand of the right channel that is multiplied by `krt`:
`delays[10]->read()` with smear, and
`delays[10]->readAt((lfo1->generate() + 1) * lfo_amount1 + lfo1_read_offset++)`
without. -/
def rightTap (c : Instantiation α P) (e : DattorroStereoReverb α P) (o : Offsets) : α :=
  if c.with_smear then (e.delays 10).read
  else
    (e.delays 10).readAt
      (((e.lfo1.generate c.wave).1 + 1) * (e.lfo_amount1 : α) + (o.lfo1_read_offset : α))

/-- Repeated calls `processAPF(delay, acc, kap)` on one delay, each with a fresh
input `acc` taken from the list: for every call the value handed to
`delay->write` and the value of `acc` on return, and the delay at the end. -/
def apfTrace (kap : α) : DelayLine α → List α → List (α × α) × DelayLine α
  | d, [] => ([], d)
  | d, x :: xs =>
    let r := processAPF d x kap
    let t := apfTrace kap r.1 xs
    ((x + d.read * kap, r.2) :: t.1, t.2)

end DattorroStereoReverb

/-- A freshly constructed engine that has been given its settings: `create`
followed by `setAmount`, `setDecay`, `setDiffusion`, `setDamping` and
`setModulation`. -/
def freshEngine {α : Type} [LinearOrderedField α] [FloorRing α] {P : Type} (sr : α)
    (delay_lengths : Fin 14 → Nat) (processors : P × P)
    (amount decay diffusion damping : α) (offset1 depth1 offset2 depth2 : Nat) :
    DattorroStereoReverb α P :=
  (((((DattorroStereoReverb.create sr delay_lengths processors 0 0).setAmount amount).setDecay
    decay).setDiffusion diffusion).setDamping damping).setModulation offset1 depth1 offset2 depth2

end Reverb

/-! ## FripperTronicsPatch.hpp

The looper component (`daisysp::Looper`, behind `LooperProcessor`) and the
framework calls `setButton` and `debugMessage` are outside the sources.  The
calls made on the looper and the calls of `setButton` are recorded in the order
in which they are made; `debugMessage` has no effect on the patch and is left
out. -/

/-- The enumeration `LooperState`. -/
inductive LooperState
  | ST_NONE
  | ST_RECORDING
  | ST_PLAYBACK
  | ST_OVERDUB
  deriving DecidableEq, Repr

/-- The button identifiers `buttonChanged` distinguishes; `OTHER` stands for
every identifier that falls to the `default` label. -/
inductive PatchButtonId
  | BUTTON_A
  | BUTTON_B
  | BUTTON_C
  | BUTTON_D
  | OTHER
  deriving DecidableEq, Repr

/-- The member functions of `LooperProcessor` that `buttonChanged` calls. -/
inductive LooperCall
  | trigRecord
  | clear
  | toggleReverse
  | toggleHalfSpeed
  | incMode
  deriving DecidableEq, Repr

/-- The data members of `FrippertronicsPatch` that `buttonChanged` reads or
writes, with the record of the calls made on `looper` and of the calls
`setButton(id, value, 0)`. -/
structure FrippertronicsPatch where
  state : LooperState
  is_record : Bool
  is_half_speed : Bool
  is_reverse : Bool
  led_mode : Bool
  rec_timer : Nat
  b2_timer : Nat
  delay_click : Nat
  delay_half : Nat
  looperCalls : List LooperCall
  setButtonCalls : List (PatchButtonId × Bool)
  deriving DecidableEq, Repr

namespace FrippertronicsPatch

/-- A call `looper->f()`. -/
def callLooper (p : FrippertronicsPatch) (f : LooperCall) : FrippertronicsPatch :=
  { p with looperCalls := p.looperCalls ++ [f] }

/-- A call `setButton(bid, value, 0)`. -/
def setButton (p : FrippertronicsPatch) (bid : PatchButtonId) (value : Bool) :
    FrippertronicsPatch :=
  { p with setButtonCalls := p.setButtonCalls ++ [(bid, value)] }

/-- The inner `switch (state)` of the `BUTTON_A` case. -/
def pressRecord (p : FrippertronicsPatch) : FrippertronicsPatch :=
  match p.state with
  | .ST_NONE => { p with is_record := true, state := .ST_RECORDING }
  | .ST_RECORDING =>
    let p := p.callLooper .trigRecord
    let p := p.callLooper .trigRecord
    { p with is_record := false, state := .ST_PLAYBACK }
  | .ST_OVERDUB => { p with is_record := false, state := .ST_PLAYBACK }
  | .ST_PLAYBACK => { p with is_record := true, state := .ST_OVERDUB }

/-- The method `buttonChanged(bid, value, samples)`. -/
def buttonChanged (p : FrippertronicsPatch) (bid : PatchButtonId) (value _samples : Nat) :
    FrippertronicsPatch :=
  match bid with
  | .BUTTON_A =>
    if value ≠ 0 then
      let p := p.callLooper .trigRecord
      let p := p.pressRecord
      { p with rec_timer := 0 }
    else if p.rec_timer > p.delay_click then
      let p := p.callLooper .clear
      { p with is_record := false, state := .ST_NONE }
    else p
  | .BUTTON_B =>
    if value ≠ 0 then { p with b2_timer := 0 }
    else if p.b2_timer < p.delay_half then
      let p := { p with is_reverse := !p.is_reverse }
      let p := p.setButton .BUTTON_B p.is_reverse
      p.callLooper .toggleReverse
    else
      let p := { p with is_half_speed := !p.is_half_speed }
      let p := p.setButton .BUTTON_B p.is_half_speed
      p.callLooper .toggleHalfSpeed
  | .BUTTON_C =>
    if value ≠ 0 then
      let p := { p with is_half_speed := !p.is_half_speed }
      let p := p.setButton .BUTTON_B p.is_half_speed
      p.callLooper .toggleHalfSpeed
    else p
  | .BUTTON_D =>
    if value ≠ 0 then p.callLooper .incMode else p
  | .OTHER => p

end FrippertronicsPatch

/-! ## A concrete engine -/

/-- The default instantiation `DattorroStereoReverb<>` (no smear, `bypass`
processor) on a 32-bit target, over the rationals, with a silent oscillator. -/
def exampleInstantiation : Instantiation ℚ Unit :=
  { sizeBits := 32, with_smear := false, processor := none, wave := fun _ => 0 }

/-- A freshly constructed engine with all fourteen delays of capacity 1, after
`setDiffusion(0.5)` and `setDamping(1)`. -/
def exampleEngine : DattorroStereoReverb ℚ Unit :=
  ((DattorroStereoReverb.create 48000 (fun _ => 1) ((), ()) 0 0).setDiffusion (1 / 2)).setDamping 1

/-- The engine `exampleEngine` after processing the one-sample block `[(1, 1)]`. -/
def exampleEngineAfterBlock : DattorroStereoReverb ℚ Unit :=
  (DattorroStereoReverb.process exampleInstantiation exampleEngine [(1, 1)]).engine

/-- A patch in the state the constructor leaves, at 1000 blocks a second. -/
def examplePatch : FrippertronicsPatch :=
  { state := .ST_NONE, is_record := false, is_half_speed := false, is_reverse := false,
    led_mode := false, rec_timer := 0, b2_timer := 0, delay_click := 500, delay_half := 400,
    looperCalls := [], setButtonCalls := [] }

/-- The patch `examplePatch` after a first press of `BUTTON_A`. -/
def exampleRecordingPatch : FrippertronicsPatch :=
  examplePatch.buttonChanged PatchButtonId.BUTTON_A 1 0

/-- The instantiation `DattorroStereoReverb<true>` (smear, `bypass` processor) on a
32-bit target, over the rationals, with a silent oscillator. -/
def exampleSmearInstantiation : Instantiation ℚ Unit :=
  { sizeBits := 32, with_smear := true, processor := none, wave := fun _ => 0 }

/-- The default instantiation with oscillators that return 1 at every phase. -/
def examplePeakInstantiation : Instantiation ℚ Unit :=
  { sizeBits := 32, with_smear := false, processor := none, wave := fun _ => 1 }

/-- Delay lengths with capacity 2 for the two tank delays 10 and 13 and capacity 1
for the other twelve. -/
def exampleTankLengths : Fin 14 → Nat := fun i => if i = 10 ∨ i = 13 then 2 else 1

/-- A freshly constructed engine with the lengths `exampleTankLengths`, after
`setAmount(1)`, `setDecay(1)`, `setDiffusion(0.5)`, `setDamping(1)` and
`setModulation(offset1, depth1, offset2, depth2)`. -/
def exampleTankEngine (offset1 depth1 offset2 depth2 : Nat) : DattorroStereoReverb ℚ Unit :=
  freshEngine 48000 exampleTankLengths ((), ()) 1 1 (1 / 2) 1 offset1 depth1 offset2 depth2

/-- The state after the first sample pair `(0, 1)` of a block, on the smear
instantiation and the engine `exampleTankEngine 0 0 offset2 0`. -/
def exampleSmearStep (offset2 : Nat) : StepResult ℚ Unit :=
  DattorroStereoReverb.sampleStep exampleSmearInstantiation (exampleTankEngine 0 0 offset2 0)
    (DattorroStereoReverb.initOffsets exampleSmearInstantiation (exampleTankEngine 0 0 offset2 0))
    (0, 1)

/-! ## Properties the results are stated with -/

/-- The sample function `f` saturates to the sign of its argument from the
threshold `T` on. -/
def SaturatesFrom (f : ℝ → ℝ) (T : ℝ) : Prop :=
  ∀ x : ℝ, (T ≤ |x| → f x = signum x) ∧ (T ≤ x → f x = 1) ∧ (x ≤ -T → f x = -1)

/-- The function `F` is a primitive of `f` on the whole line: `F` has derivative
`f x` at every `x`, and increments of `F` are integrals of `f`. -/
def IsPrimitiveOf (F f : ℝ → ℝ) : Prop :=
  (∀ x : ℝ, HasDerivAt F (f x) x) ∧
    ∀ a b : ℝ, a ≤ b → F b - F a = ∫ t in a..b, f t

/-- A delay line in a state its operations can produce: the cursor lies within
the storage (so the capacity is at least 1). -/
def DelayLine.WellFormed {α : Type} (d : DelayLine α) : Prop :=
  d.writeIndex < d.data.length

/-- The stored samples in the order in which `read()` will return them: from
the cursor to the end of the storage, then from the start up to the cursor. -/
def DelayLine.pending {α : Type} (d : DelayLine α) : List α :=
  d.data.drop d.writeIndex ++ d.data.take d.writeIndex

/-- The sum of the squares of a list of samples. -/
def energy {α : Type} [LinearOrderedField α] (xs : List α) : α :=
  (xs.map fun x => x * x).sum

/-- The value `x` passes through two allpass stages on the delays `d1`, `d2` with
the coefficients `k1`, `k2` in this order, which leaves the delays `d1'`, `d2'`
and the value `y`. -/
def TwoAllpassStages {α : Type} [LinearOrderedField α] (d1 d2 d1' d2' : DelayLine α)
    (x k1 k2 y : α) : Prop :=
  d1' = (DattorroStereoReverb.processAPF d1 x k1).1 ∧
  d2' = (DattorroStereoReverb.processAPF d2 (DattorroStereoReverb.processAPF d1 x k1).2 k2).1 ∧
  y = (DattorroStereoReverb.processAPF d2 (DattorroStereoReverb.processAPF d1 x k1).2 k2).2

/-- The coefficients, the modulation parameters and the capacities of the delays
of `e'` are those of `e`. -/
def SameSettings {α P : Type} (e e' : DattorroStereoReverb α P) : Prop :=
  e'.amount = e.amount ∧ e'.decay = e.decay ∧ e'.diffusion = e.diffusion ∧
  e'.damping = e.damping ∧ e'.hpf_amount = e.hpf_amount ∧
  e'.lfo_offset1 = e.lfo_offset1 ∧ e'.lfo_offset2 = e.lfo_offset2 ∧
  e'.lfo_amount1 = e.lfo_amount1 ∧ e'.lfo_amount2 = e.lfo_amount2 ∧
  ∀ i : Fin 14, (e'.delays i).getSize = (e.delays i).getSize

/-- The values written by the calls of a trace. -/
def writtenOf {α : Type} (t : List (α × α)) : List α := t.map Prod.fst

/-- The values returned by the calls of a trace. -/
def returnedOf {α : Type} (t : List (α × α)) : List α := t.map Prod.snd

/-- The states of the members `xn1, Fn, Fn1` that the constructor or `reset()`
followed by any number of calls of `process` can leave. -/
inductive AntialiasedWaveshaperTemplate.Reachable {α : Type} [LinearOrderedField α]
    (f : Nonlinearity α) : AntialiasedWaveshaperTemplate α → Prop
  | init : AntialiasedWaveshaperTemplate.Reachable f AntialiasedWaveshaperTemplate.reset
  | step (s s' : AntialiasedWaveshaperTemplate α) (x y : α) :
      AntialiasedWaveshaperTemplate.Reachable f s →
      AntialiasedWaveshaperTemplate.process f s x = some (y, s') →
      AntialiasedWaveshaperTemplate.Reachable f s'

/-- The operation `apply(state, value, coefficient)` of the specification's
one-pole filter, written from its words
`state += coefficient * (value - state); return state`: the updated state and the
returned value. -/
def specOnePoleApply {α : Type} [LinearOrderedField α] (state value coefficient : α) : α × α :=
  (state + coefficient * (value - state), state + coefficient * (value - state))

/-! ## Results -/

open Set Filter Topology

section
variable {α : Type} [LinearOrderedField α]

lemma thresh_eq : (AntialiasedWaveshaperTemplate.thresh : α) = 1 / 10 := by
  unfold AntialiasedWaveshaperTemplate.thresh; norm_num

lemma thresh_pos : (0 : α) < AntialiasedWaveshaperTemplate.thresh := by
  rw [thresh_eq]; norm_num

lemma divisor_ne_zero {x y : α} (h : ¬ |x - y| < AntialiasedWaveshaperTemplate.thresh) :
    x - y ≠ 0 := by
  intro h0
  apply h
  rw [h0, abs_zero]
  exact thresh_pos

lemma antialiasedClipN1_eq (f : Nonlinearity α) (s : AntialiasedWaveshaperTemplate α) (x : α) :
    AntialiasedWaveshaperTemplate.antialiasedClipN1 f s x =
      some (if |x - s.xn1| < 1 / 10 then f.getSample ((x + s.xn1) / 2)
            else (f.getAntiderivative1 x - s.Fn1) / (x - s.xn1),
            { xn1 := x, Fn := f.getAntiderivative1 x, Fn1 := f.getAntiderivative1 x }) := by
  unfold AntialiasedWaveshaperTemplate.antialiasedClipN1
    AntialiasedWaveshaperTemplate.antialiasedClipN1Core
  by_cases h : |x - s.xn1| < AntialiasedWaveshaperTemplate.thresh
  · have h' : |x - s.xn1| < 1 / 10 := by rw [← thresh_eq]; exact h
    have e : (0.5 : α) * (x + s.xn1) = (x + s.xn1) / 2 := by norm_num; ring
    simp only [h, h', if_true, Option.map_some', e]
  · have h' : ¬ |x - s.xn1| < 1 / 10 := by rw [← thresh_eq]; exact h
    have hd := divisor_ne_zero h
    simp only [h, h', if_false, checkedDiv, hd, Option.map_some']
end

/-- Two differentiable pieces that agree in value and slope at `c` glue to a
function differentiable at `c`. -/
lemma hasDerivAt_glue {f g h : ℝ → ℝ} {c d : ℝ} (a b : ℝ) (hac : a < c) (hcb : c < b)
    (hg : HasDerivAt g d c) (hh : HasDerivAt h d c)
    (hl : ∀ y, a < y → y ≤ c → f y = g y) (hr : ∀ y, c ≤ y → y < b → f y = h y) :
    HasDerivAt f d c := by
  have h1 : HasDerivWithinAt f d (Iic c) c := by
    refine hg.hasDerivWithinAt.congr_of_eventuallyEq ?_ (hl c hac le_rfl)
    have e1 : ∀ᶠ y in 𝓝[Iic c] c, a < y :=
      eventually_nhdsWithin_of_eventually_nhds (Ioi_mem_nhds hac)
    have e2 : ∀ᶠ y in 𝓝[Iic c] c, y ∈ Iic c := self_mem_nhdsWithin
    filter_upwards [e1, e2] with y hy1 hy2 using hl y hy1 hy2
  have h2 : HasDerivWithinAt f d (Ici c) c := by
    refine hh.hasDerivWithinAt.congr_of_eventuallyEq ?_ (hr c le_rfl hcb)
    have e1 : ∀ᶠ y in 𝓝[Ici c] c, y < b :=
      eventually_nhdsWithin_of_eventually_nhds (Iio_mem_nhds hcb)
    have e2 : ∀ᶠ y in 𝓝[Ici c] c, y ∈ Ici c := self_mem_nhdsWithin
    filter_upwards [e1, e2] with y hy1 hy2 using hr y hy2 hy1
  have h3 := h1.union h2
  rwa [Iic_union_Ici, hasDerivWithinAt_univ] at h3

/-- The map `y ↦ |y| * y` has derivative `2 * |x|` everywhere. -/
lemma hasDerivAt_abs_mul_self (x : ℝ) : HasDerivAt (fun y : ℝ => |y| * y) (2 * |x|) x := by
  have hpos : ∀ z : ℝ, HasDerivAt (fun y : ℝ => y * y) (2 * z) z := fun z => by
    have := (hasDerivAt_id z).mul (hasDerivAt_id z)
    simpa [two_mul] using this
  have hneg : ∀ z : ℝ, HasDerivAt (fun y : ℝ => -(y * y)) (-(2 * z)) z := fun z => (hpos z).neg
  rcases lt_trichotomy x 0 with hx | hx | hx
  · have e : 2 * |x| = -(2 * x) := by rw [abs_of_neg hx]; ring
    rw [e]
    refine hasDerivAt_glue (x - 1) 0 (by linarith) hx (hneg x) (hneg x) ?_ ?_
    · intro y _ hy
      have : y < 0 := lt_of_le_of_lt hy hx
      simp [abs_of_neg this]
    · intro y _ hy
      simp [abs_of_neg hy]
  · subst hx
    have h0 : HasDerivAt (fun y : ℝ => -(y * y)) (2 * |(0:ℝ)|) 0 := by simpa using hneg 0
    have h1 : HasDerivAt (fun y : ℝ => y * y) (2 * |(0:ℝ)|) 0 := by simpa using hpos 0
    refine hasDerivAt_glue (-1) 1 (by norm_num) (by norm_num) h0 h1 ?_ ?_
    · intro y _ hy
      simp [abs_of_nonpos hy]
    · intro y hy _
      simp [abs_of_nonneg hy]
  · have e : 2 * |x| = 2 * x := by rw [abs_of_pos hx]
    rw [e]
    refine hasDerivAt_glue 0 (x + 1) hx (by linarith) (hpos x) (hpos x) ?_ ?_
    · intro y hy _
      simp [abs_of_pos hy]
    · intro y hy _
      have : 0 < y := lt_of_lt_of_le hx hy
      simp [abs_of_pos this]

/-- A function given by `Go` where `T ≤ |x|` and by `Gi` where `|x| ≤ T`, the
pieces having the slopes prescribed by `S`, has derivative `S x` at every `x`. -/
lemma hasDerivAt_of_pieces {F S Gi Go : ℝ → ℝ} {T : ℝ} (hT : 0 < T)
    (hFo : ∀ x, T ≤ |x| → F x = Go x) (hFi : ∀ x, |x| ≤ T → F x = Gi x)
    (hGo : ∀ x, T ≤ |x| → HasDerivAt Go (S x) x)
    (hGi : ∀ x, |x| ≤ T → HasDerivAt Gi (S x) x) (x : ℝ) :
    HasDerivAt F (S x) x := by
  rcases lt_trichotomy |x| T with hx | hx | hx
  · -- strictly inside
    obtain ⟨h1, h2⟩ := abs_lt.mp hx
    refine hasDerivAt_glue (-T) T h1 h2 (hGi x hx.le) (hGi x hx.le) ?_ ?_
    · intro y hy1 hy2
      exact hFi y (abs_le.mpr ⟨hy1.le, by linarith⟩)
    · intro y hy1 hy2
      exact hFi y (abs_le.mpr ⟨by linarith, hy2.le⟩)
  · -- on a threshold
    rcases le_total 0 x with h0 | h0
    · rw [abs_of_nonneg h0] at hx
      subst hx
      have hax : |x| = x := abs_of_nonneg h0
      refine hasDerivAt_glue (-x) (x + 1) (by linarith) (by linarith)
        (hGi x hax.le) (hGo x hax.ge) ?_ ?_
      · intro y hy1 hy2
        exact hFi y (abs_le.mpr ⟨hy1.le, hy2⟩)
      · intro y hy1 hy2
        exact hFo y (le_trans hy1 (le_abs_self y))
    · rw [abs_of_nonpos h0] at hx
      have hax : |x| = T := by rw [abs_of_nonpos h0]; exact hx
      have hxT : x = -T := by linarith
      refine hasDerivAt_glue (x - 1) T (by linarith) (by linarith)
        (hGo x hax.ge) (hGi x hax.le) ?_ ?_
      · intro y hy1 hy2
        refine hFo y ?_
        have : T ≤ -y := by linarith
        exact le_trans this (neg_le_abs y)
      · intro y hy1 hy2
        exact hFi y (abs_le.mpr ⟨by linarith, hy2.le⟩)
  · -- strictly outside
    rcases le_total 0 x with h0 | h0
    · rw [abs_of_nonneg h0] at hx
      have hax : T ≤ |x| := by rw [abs_of_nonneg h0]; exact hx.le
      refine hasDerivAt_glue T (x + 1) hx (by linarith) (hGo x hax) (hGo x hax) ?_ ?_
      · intro y hy1 hy2
        exact hFo y (le_trans hy1.le (le_abs_self y))
      · intro y hy1 hy2
        exact hFo y (le_trans (by linarith) (le_abs_self y))
    · rw [abs_of_nonpos h0] at hx
      have hax : T ≤ |x| := by rw [abs_of_nonpos h0]; exact hx.le
      refine hasDerivAt_glue (x - 1) (-T) (by linarith) (by linarith) (hGo x hax) (hGo x hax) ?_ ?_
      · intro y hy1 hy2
        refine hFo y ?_
        have : T ≤ -y := by linarith
        exact le_trans this (neg_le_abs y)
      · intro y hy1 hy2
        refine hFo y ?_
        have : T ≤ -y := by linarith
        exact le_trans this (neg_le_abs y)

lemma signum_of_pos {x : ℝ} (h : 0 < x) : signum x = 1 := by
  simp [signum, h]

lemma signum_of_neg {x : ℝ} (h : x < 0) : signum x = -1 := by
  simp [signum, h, not_lt.mpr h.le]

/-- Beyond a positive threshold `signum x` is `1` or `-1` according to the side. -/
lemma signum_of_le_abs {T x : ℝ} (hT : 0 < T) (hx : T ≤ |x|) :
    (T ≤ x ∧ signum x = 1) ∨ (x ≤ -T ∧ signum x = -1) := by
  rcases le_abs'.mp hx with h | h
  · exact Or.inr ⟨h, signum_of_neg (by linarith)⟩
  · exact Or.inl ⟨h, signum_of_pos (by linarith)⟩

lemma eq_or_eq_neg_of_abs_le_of_le {T x : ℝ} (h1 : |x| ≤ T) (h2 : T ≤ |x|) :
    x = T ∨ x = -T :=
  eq_or_eq_neg_of_abs_eq (le_antisymm h1 h2)

/-- Outside a positive threshold `|y| - k` has slope `signum x`. -/
lemma hasDerivAt_abs_sub_const {T x : ℝ} (k : ℝ) (hT : 0 < T) (hx : T ≤ |x|) :
    HasDerivAt (fun y : ℝ => |y| - k) (signum x) x := by
  rcases signum_of_le_abs hT hx with ⟨h1, h2⟩ | ⟨h1, h2⟩
  · rw [h2]; exact (hasDerivAt_abs_pos (by linarith)).sub_const k
  · rw [h2]; exact (hasDerivAt_abs_neg (by linarith)).sub_const k

namespace CubicSaturator

lemma cubic_getSample_outside {x : ℝ} (hx : 1 ≤ |x|) : getSample x = signum x := by
  simp [getSample, hx]

lemma cubic_getSample_inside {x : ℝ} (hx : |x| ≤ 1) : getSample x = x * (3 - x ^ 2) / 2 := by
  unfold getSample
  split_ifs with h
  · rcases eq_or_eq_neg_of_abs_le_of_le hx h with rfl | rfl <;> norm_num [signum]
  · ring

lemma cubic_getAntiderivative1_outside {x : ℝ} (hx : 1 ≤ |x|) :
    getAntiderivative1 x = |x| - 3 / 8 := by
  simp [getAntiderivative1, hx]

lemma cubic_getAntiderivative1_inside {x : ℝ} (hx : |x| ≤ 1) :
    getAntiderivative1 x = 3 * x ^ 2 / 4 - x ^ 4 / 8 := by
  unfold getAntiderivative1
  simp only
  split_ifs with h
  · rcases eq_or_eq_neg_of_abs_le_of_le hx h with rfl | rfl <;> norm_num
  · ring

end CubicSaturator

namespace SecondOrderPolynomial

lemma secondOrder_getSample_outside {x : ℝ} (hx : 1 ≤ |x|) : getSample x = signum x := by
  unfold getSample
  split_ifs with h
  · rfl
  · rcases eq_or_eq_neg_of_abs_le_of_le (not_lt.mp h) hx with rfl | rfl <;> norm_num [signum]

lemma secondOrder_getSample_inside {x : ℝ} (hx : |x| ≤ 1) : getSample x = x * (2 - |x|) := by
  simp [getSample, not_lt.mpr hx]

lemma secondOrder_getAntiderivative1_outside {x : ℝ} (hx : 1 ≤ |x|) :
    getAntiderivative1 x = |x| - 1 / 3 := by
  unfold getAntiderivative1
  simp only
  split_ifs with h
  · rfl
  · rcases eq_or_eq_neg_of_abs_le_of_le (not_lt.mp h) hx with rfl | rfl <;> norm_num

lemma secondOrder_getAntiderivative1_inside {x : ℝ} (hx : |x| ≤ 1) :
    getAntiderivative1 x = x ^ 2 - |x| * x * x / 3 := by
  unfold getAntiderivative1
  simp only [gt_iff_lt, not_lt.mpr hx, if_false]
  ring

end SecondOrderPolynomial

namespace ThirdOrderPolynomial

lemma thirdOrder_getSample_outside {x : ℝ} (hx : 3 / 2 ≤ |x|) : getSample x = signum x := by
  have : (1.5 : ℝ) ≤ |x| := by norm_num; exact hx
  simp [getSample, this]

lemma thirdOrder_getSample_inside {x : ℝ} (hx : |x| ≤ 3 / 2) : getSample x = x - 4 * x ^ 3 / 27 := by
  unfold getSample
  split_ifs with h
  · have h' : (3 / 2 : ℝ) ≤ |x| := by norm_num at h; linarith
    rcases eq_or_eq_neg_of_abs_le_of_le hx h' with rfl | rfl <;> norm_num [signum]
  · ring

lemma thirdOrder_getAntiderivative1_outside {x : ℝ} (hx : 3 / 2 ≤ |x|) :
    getAntiderivative1 x = |x| - 9 / 16 := by
  have : (1.5 : ℝ) ≤ |x| := by norm_num; exact hx
  simp [getAntiderivative1, this]

lemma thirdOrder_getAntiderivative1_inside {x : ℝ} (hx : |x| ≤ 3 / 2) :
    getAntiderivative1 x = x ^ 2 / 2 - x ^ 4 / 27 := by
  unfold getAntiderivative1
  simp only
  split_ifs with h
  · have h' : (3 / 2 : ℝ) ≤ |x| := by norm_num at h; linarith
    rcases eq_or_eq_neg_of_abs_le_of_le hx h' with rfl | rfl <;>
      norm_num [abs_of_pos (show (0 : ℝ) < 3 / 2 by norm_num)]
  · ring

lemma thirdOrder_hasDerivAt_getAntiderivative1 (x : ℝ) :
    HasDerivAt getAntiderivative1 (getSample x) x := by
  have hT : (0 : ℝ) < 3 / 2 := by norm_num
  refine hasDerivAt_of_pieces hT
    (fun y hy => thirdOrder_getAntiderivative1_outside hy) (fun y hy => thirdOrder_getAntiderivative1_inside hy)
    ?_ ?_ x
  · intro y hy
    rw [thirdOrder_getSample_outside hy]
    exact hasDerivAt_abs_sub_const _ hT hy
  · intro y hy
    rw [thirdOrder_getSample_inside hy]
    have h := ((hasDerivAt_pow 2 y).div_const 2).sub ((hasDerivAt_pow 4 y).div_const 27)
    refine h.congr_deriv ?_
    norm_num

end ThirdOrderPolynomial

namespace FourthOrderPolynomial

lemma fourthOrder_getSample_outside {x : ℝ} (hx : 1 ≤ |x|) : getSample x = signum x := by
  simp [getSample, hx]

lemma fourthOrder_getSample_inside {x : ℝ} (hx : |x| ≤ 1) :
    getSample x = x ^ 3 * (4 - |x|) - x * |x| * 6 + x * 4 := by
  unfold getSample
  split_ifs with h
  · rcases eq_or_eq_neg_of_abs_le_of_le hx h with rfl | rfl <;> norm_num [signum]
  · ring

lemma fourthOrder_getAntiderivative1_outside {x : ℝ} (hx : 1 ≤ |x|) :
    getAntiderivative1 x = |x| - 1 / 5 := by
  simp [getAntiderivative1, hx]; norm_num

lemma fourthOrder_getAntiderivative1_inside {x : ℝ} (hx : |x| ≤ 1) :
    getAntiderivative1 x = x ^ 4 + 2 * x ^ 2 - |x| * x * x ^ 3 / 5 - 2 * (|x| * x * x) := by
  unfold getAntiderivative1
  simp only
  split_ifs with h
  · rcases eq_or_eq_neg_of_abs_le_of_le hx h with rfl | rfl <;> norm_num
  · ring

end FourthOrderPolynomial

namespace SineSaturator

lemma sine_getSample_outside {x : ℝ} (hx : 1 ≤ |x|) : getSample x = signum x := by
  unfold getSample
  simp [hx]

lemma sine_getSample_inside {x : ℝ} (hx : |x| ≤ 1) : getSample x = Real.sin (x * M_PI_2) := by
  unfold getSample M_PI_2
  split_ifs with h
  · rcases eq_or_eq_neg_of_abs_le_of_le hx h with rfl | rfl <;> simp [signum]
  · rfl

end SineSaturator

namespace ReciprocalSaturator

lemma half_le_abs {x : ℝ} : (0.5 : ℝ) < |x| ↔ 1 / 2 < |x| := by norm_num

lemma reciprocal_getSample_outside {x : ℝ} (hx : 1 / 2 ≤ |x|) : getSample x = signum x - 0.25 / x := by
  unfold getSample
  split_ifs with h
  · rfl
  · have h' : |x| ≤ 1 / 2 := by rw [gt_iff_lt, half_le_abs] at h; exact not_lt.mp h
    rcases eq_or_eq_neg_of_abs_le_of_le h' hx with rfl | rfl <;> norm_num [signum]

lemma reciprocal_getSample_inside {x : ℝ} (hx : |x| ≤ 1 / 2) : getSample x = x := by
  have : ¬ (0.5 : ℝ) < |x| := by rw [half_le_abs]; exact not_lt.mpr hx
  unfold getSample
  simp [this]

end ReciprocalSaturator

namespace QuadraticSineSaturator

lemma quadSine_getSample_outside {x : ℝ} (hx : 1 ≤ |x|) : getSample x = signum x := by
  unfold getSample
  simp [hx]

lemma quadSine_getSample_inside {x : ℝ} (hx : |x| ≤ 1) :
    getSample x = |Real.sin (M_PI_2 * x)| * Real.sin (M_PI_2 * x) := by
  unfold getSample M_PI_2
  split_ifs with h
  · rcases eq_or_eq_neg_of_abs_le_of_le hx h with rfl | rfl <;> simp [signum]
  · rfl

/-- The inside form `signum z * 0.5 * (z - sin (π z) / π)` has slope
`|sin (π/2 y)| * sin (π/2 y)` at every `y` with `|y| ≤ 1`. -/
lemma hasDerivAt_inside {y : ℝ} (hy : |y| ≤ 1) :
    HasDerivAt (fun z : ℝ => signum z * 0.5 * (z - Real.sin (M_PI * z) / M_PI))
      (|Real.sin (M_PI_2 * y)| * Real.sin (M_PI_2 * y)) y := by
  have hasDerivAt_branch : ∀ y : ℝ,
      HasDerivAt (fun z : ℝ => 0.5 * (z - Real.sin (M_PI * z) / M_PI))
        (Real.sin (M_PI_2 * y) ^ 2) y := by
    intro y
    have hpi : M_PI ≠ 0 := Real.pi_ne_zero
    have h := ((hasDerivAt_id' y).sub
      ((((hasDerivAt_id' y).const_mul M_PI).sin).div_const M_PI)).const_mul 0.5
    refine h.congr_deriv ?_
    have e : M_PI * y = 2 * (M_PI_2 * y) := by unfold M_PI M_PI_2; ring
    rw [Real.sin_sq_eq_half_sub, ← e]
    field_simp
    ring
  obtain ⟨hy1, hy2⟩ := abs_le.mp hy
  have hpi := Real.pi_pos
  rcases lt_trichotomy y 0 with h0 | h0 | h0
  · have hs : Real.sin (M_PI_2 * y) ≤ 0 := by
      apply Real.sin_nonpos_of_nonnpos_of_neg_pi_le <;> unfold M_PI_2 <;> nlinarith
    have hb := (hasDerivAt_branch y).neg
    rw [abs_of_nonpos hs]
    have e : -Real.sin (M_PI_2 * y) * Real.sin (M_PI_2 * y) = -(Real.sin (M_PI_2 * y) ^ 2) := by
      ring
    rw [e]
    refine hasDerivAt_glue (y - 1) 0 (by linarith) h0 hb hb ?_ ?_
    · intro z _ hz
      rw [signum_of_neg (lt_of_le_of_lt hz h0)]; ring
    · intro z _ hz
      rw [signum_of_neg hz]; ring
  · subst h0
    have hb := hasDerivAt_branch 0
    have hl : HasDerivAt (fun z : ℝ => -(0.5 * (z - Real.sin (M_PI * z) / M_PI)))
        (|Real.sin (M_PI_2 * 0)| * Real.sin (M_PI_2 * 0)) 0 := by
      refine hb.neg.congr_deriv ?_
      simp
    have hr : HasDerivAt (fun z : ℝ => 0.5 * (z - Real.sin (M_PI * z) / M_PI))
        (|Real.sin (M_PI_2 * 0)| * Real.sin (M_PI_2 * 0)) 0 := by
      refine hb.congr_deriv ?_
      simp
    refine hasDerivAt_glue (-1) 1 (by norm_num) (by norm_num) hl hr ?_ ?_
    · intro z _ hz
      rcases hz.lt_or_eq with hz | hz
      · rw [signum_of_neg hz]; ring
      · subst hz; simp [signum]
    · intro z hz _
      rcases hz.lt_or_eq with hz | hz
      · rw [signum_of_pos hz]; ring
      · subst hz; simp [signum]
  · have hs : 0 ≤ Real.sin (M_PI_2 * y) := by
      apply Real.sin_nonneg_of_nonneg_of_le_pi <;> unfold M_PI_2 <;> nlinarith
    have hb := hasDerivAt_branch y
    rw [abs_of_nonneg hs]
    have e : Real.sin (M_PI_2 * y) * Real.sin (M_PI_2 * y) = Real.sin (M_PI_2 * y) ^ 2 := by
      ring
    rw [e]
    refine hasDerivAt_glue 0 (y + 1) h0 (by linarith) hb hb ?_ ?_
    · intro z hz _
      rw [signum_of_pos hz]; ring
    · intro z hz _
      rw [signum_of_pos (lt_of_lt_of_le h0 hz)]; ring

end QuadraticSineSaturator

/-- A function equal to `signum` beyond the threshold and to a continuous `Si`
within it is continuous. -/
lemma continuous_of_saturating {S Si : ℝ → ℝ} {T : ℝ} (hT : 0 < T)
    (hSo : ∀ x, T ≤ |x| → S x = signum x) (hSi : ∀ x, |x| ≤ T → S x = Si x)
    (hc : Continuous Si) : Continuous S := by
  have hTT : |T| = T := abs_of_pos hT
  have hTn : |(-T)| = T := by rw [abs_neg, hTT]
  have key : S = fun x => Si (max (-T) (min T x)) := by
    funext x
    rcases le_total |x| T with h | h
    · obtain ⟨h1, h2⟩ := abs_le.mp h
      rw [min_eq_right h2, max_eq_right h1]
      exact hSi x h
    · rcases signum_of_le_abs hT h with ⟨h1, h2⟩ | ⟨h1, h2⟩
      · rw [min_eq_left h1, max_eq_right (by linarith), ← hSi T hTT.le, hSo T hTT.ge, hSo x h, h2,
          signum_of_pos hT]
      · rw [min_eq_right (by linarith), max_eq_left h1, ← hSi (-T) hTn.le, hSo (-T) hTn.ge,
          hSo x h, h2, signum_of_neg (by linarith)]
  rw [key]
  exact hc.comp (continuous_const.max (continuous_const.min continuous_id))

namespace CubicSineSaturator

lemma cubicSine_getSample_outside {x : ℝ} (hx : 1 ≤ |x|) : getSample x = signum x := by
  unfold getSample
  simp [hx]

lemma cubicSine_getSample_inside {x : ℝ} (hx : |x| ≤ 1) :
    getSample x = Real.sin (M_PI_2 * x) * Real.sin (M_PI_2 * x) * Real.sin (M_PI_2 * x) := by
  unfold getSample M_PI_2
  split_ifs with h
  · rcases eq_or_eq_neg_of_abs_le_of_le hx h with rfl | rfl <;> simp [signum]
  · rfl

end CubicSineSaturator

lemma Variant.variant_continuous_getSample (v : Variant) : Continuous v.getSample := by
  cases v
  · show Continuous (HardClip.getSample : ℝ → ℝ)
    unfold HardClip.getSample
    fun_prop
  · exact continuous_of_saturating one_pos (fun _ h => CubicSaturator.cubic_getSample_outside h)
      (fun _ h => CubicSaturator.cubic_getSample_inside h) (by fun_prop)
  · exact continuous_of_saturating one_pos
      (fun _ h => SecondOrderPolynomial.secondOrder_getSample_outside h)
      (fun _ h => SecondOrderPolynomial.secondOrder_getSample_inside h) (by fun_prop)
  · exact continuous_of_saturating (by norm_num : (0 : ℝ) < 3 / 2)
      (fun _ h => ThirdOrderPolynomial.thirdOrder_getSample_outside h)
      (fun _ h => ThirdOrderPolynomial.thirdOrder_getSample_inside h) (by fun_prop)
  · exact continuous_of_saturating one_pos
      (fun _ h => FourthOrderPolynomial.fourthOrder_getSample_outside h)
      (fun _ h => FourthOrderPolynomial.fourthOrder_getSample_inside h) (by fun_prop)
  · show Continuous AlgebraicSaturator.getSample
    unfold AlgebraicSaturator.getSample
    refine continuous_id.div (by fun_prop) (fun x => ?_)
    exact (Real.sqrt_pos.mpr (by nlinarith [mul_self_nonneg x])).ne'
  · show Continuous TanhSaturator.getSample
    have : TanhSaturator.getSample = fun x => Real.sinh x / Real.cosh x := by
      funext x; exact Real.tanh_eq_sinh_div_cosh x
    rw [this]
    exact Real.continuous_sinh.div Real.continuous_cosh (fun x => (Real.cosh_pos x).ne')
  · show Continuous ArctanSaturator.getSample
    unfold ArctanSaturator.getSample
    exact Real.continuous_arctan.div_const _
  · exact continuous_of_saturating one_pos (fun _ h => SineSaturator.sine_getSample_outside h)
      (fun _ h => SineSaturator.sine_getSample_inside h) (by fun_prop)
  · exact continuous_of_saturating one_pos
      (fun _ h => QuadraticSineSaturator.quadSine_getSample_outside h)
      (fun _ h => QuadraticSineSaturator.quadSine_getSample_inside h) (by fun_prop)
  · exact continuous_of_saturating one_pos
      (fun _ h => CubicSineSaturator.cubicSine_getSample_outside h)
      (fun _ h => CubicSineSaturator.cubicSine_getSample_inside h) (by fun_prop)
  · show Continuous ReciprocalSaturator.getSample
    have e : ∀ x : ℝ, ReciprocalSaturator.getSample x =
        x / max |x| (1 / 2) - 1 / 4 * x / max (x * x) (1 / 4) := by
      intro x
      rcases le_total |x| (1 / 2) with h | h
      · rw [ReciprocalSaturator.reciprocal_getSample_inside h, max_eq_right h]
        have : x * x ≤ 1 / 4 := by
          have := abs_le.mp h
          nlinarith
        rw [max_eq_right this]
        ring
      · rw [ReciprocalSaturator.reciprocal_getSample_outside h, max_eq_left h]
        have hx2 : 1 / 4 ≤ x * x := by
          have h2 : |x| * |x| = x * x := abs_mul_abs_self x
          nlinarith [abs_nonneg x]
        rw [max_eq_left hx2]
        rcases signum_of_le_abs (by norm_num : (0 : ℝ) < 1 / 2) h with ⟨h1, h2⟩ | ⟨h1, h2⟩
        · have hx0 : x ≠ 0 := by linarith
          rw [h2, abs_of_pos (by linarith)]
          field_simp
          ring
        · have hx0 : x ≠ 0 := by linarith
          rw [h2, abs_of_neg (by linarith)]
          field_simp
          ring
    have : ReciprocalSaturator.getSample =
        fun x => x / max |x| (1 / 2) - 1 / 4 * x / max (x * x) (1 / 4) := funext e
    rw [this]
    refine Continuous.sub (continuous_id.div (by fun_prop) fun x => ?_)
      (Continuous.div (by fun_prop) (by fun_prop) fun x => ?_)
    · exact (lt_of_lt_of_le (by norm_num) (le_max_right _ _)).ne'
    · exact (lt_of_lt_of_le (by norm_num) (le_max_right _ _)).ne'

namespace DattorroStereoReverb

section
variable {α : Type} [LinearOrderedField α] [FloorRing α] {P : Type}

end

section
variable {α : Type} [LinearOrderedField α]

end

end DattorroStereoReverb

/-! ### Binary32 rounding -/

lemma log2_eq_of_bounds {q : ℚ} {k : ℤ} (hq : 0 < q) (h1 : (2 : ℚ) ^ k ≤ q)
    (h2 : q < (2 : ℚ) ^ (k + 1)) : Int.log 2 q = k := by
  have hb : 1 < 2 := by norm_num
  have a1 : k ≤ Int.log 2 q := (Int.zpow_le_iff_le_log hb hq).mp (by exact_mod_cast h1)
  have a2 : Int.log 2 q < k + 1 := (Int.lt_zpow_iff_log_lt hb hq).mp (by exact_mod_cast h2)
  omega

lemma roundHalfEven_eq {m : ℚ} {f r : ℤ} (h1 : (f : ℚ) ≤ m) (h2 : m < f + 1)
    (hr : (if m - f < 1 / 2 then f else if 1 / 2 < m - f then f + 1
      else if f % 2 = 0 then f else f + 1) = r) : roundHalfEven m = r := by
  have hf : ⌊m⌋ = f := Int.floor_eq_iff.mpr ⟨h1, h2⟩
  unfold roundHalfEven
  simp only [hf]
  exact hr

/-- The rounding of a positive `q` with `2 ^ k ≤ q < 2 ^ (k + 1)`, from the floor
`f` of `q / 2 ^ (k - 23)`. -/
lemma roundBinary32_eval {q : ℚ} (k f r : ℤ) (hq : 0 < q) (h1 : (2 : ℚ) ^ k ≤ q)
    (h2 : q < (2 : ℚ) ^ (k + 1)) (hf1 : (f : ℚ) ≤ q / 2 ^ (k - 23))
    (hf2 : q / 2 ^ (k - 23) < f + 1)
    (hr : (if q / 2 ^ (k - 23) - f < 1 / 2 then f
      else if 1 / 2 < q / 2 ^ (k - 23) - f then f + 1
      else if f % 2 = 0 then f else f + 1) = r) :
    roundBinary32 q = r * 2 ^ (k - 23) := by
  unfold roundBinary32 roundMagnitude
  rw [if_neg (not_lt.mpr hq.le), if_neg hq.ne']
  simp only [log2_eq_of_bounds hq h1 h2, roundHalfEven_eq hf1 hf2 hr]

/-- The binary32 roundings met when `HardClip::getSample` is evaluated at `2`,
`-2`, `2^24`, `2^24 + 2`, `2^25` and `1.1f`. -/
lemma roundBinary32_hardClip_values :
    roundBinary32 0 = 0 ∧
    roundBinary32 1 = 1 ∧ roundBinary32 2 = 2 ∧ roundBinary32 3 = 3 ∧ roundBinary32 4 = 4 ∧
    roundBinary32 (1 / 2) = 1 / 2 ∧
    roundBinary32 16777215 = 16777215 ∧ roundBinary32 16777216 = 16777216 ∧
    roundBinary32 16777217 = 16777216 ∧ roundBinary32 16777219 = 16777220 ∧
    roundBinary32 33554431 = 33554432 ∧ roundBinary32 33554433 = 33554432 ∧
    roundBinary32 (17616077 / 8388608) = 4404019 / 2097152 ∧
    roundBinary32 (838861 / 8388608) = 838861 / 8388608 ∧
    roundBinary32 (16777215 / 8388608) = 16777215 / 8388608 ∧
    roundBinary32 (16777215 / 16777216) = 16777215 / 16777216 ∧
    roundBinary32 (11 / 10) = 9227469 / 8388608 := by
  refine ⟨?_, ?_, ?_, ?_, ?_, ?_, ?_, ?_, ?_, ?_, ?_, ?_, ?_, ?_, ?_, ?_, ?_⟩
  · simp [roundBinary32, roundMagnitude]
  · rw [roundBinary32_eval 0 8388608 8388608 (by norm_num) (by norm_num) (by norm_num)
      (by norm_num) (by norm_num) (by norm_num)]
    norm_num
  · rw [roundBinary32_eval 1 8388608 8388608 (by norm_num) (by norm_num) (by norm_num)
      (by norm_num) (by norm_num) (by norm_num)]
    norm_num
  · rw [roundBinary32_eval 1 12582912 12582912 (by norm_num) (by norm_num) (by norm_num)
      (by norm_num) (by norm_num) (by norm_num)]
    norm_num
  · rw [roundBinary32_eval 2 8388608 8388608 (by norm_num) (by norm_num) (by norm_num)
      (by norm_num) (by norm_num) (by norm_num)]
    norm_num
  · rw [roundBinary32_eval (-1) 8388608 8388608 (by norm_num) (by norm_num) (by norm_num)
      (by norm_num) (by norm_num) (by norm_num)]
    norm_num
  · rw [roundBinary32_eval 23 16777215 16777215 (by norm_num) (by norm_num) (by norm_num)
      (by norm_num) (by norm_num) (by norm_num)]
    norm_num
  · rw [roundBinary32_eval 24 8388608 8388608 (by norm_num) (by norm_num) (by norm_num)
      (by norm_num) (by norm_num) (by norm_num)]
    norm_num
  · rw [roundBinary32_eval 24 8388608 8388608 (by norm_num) (by norm_num) (by norm_num)
      (by norm_num) (by norm_num) (by norm_num)]
    norm_num
  · rw [roundBinary32_eval 24 8388609 8388610 (by norm_num) (by norm_num) (by norm_num)
      (by norm_num) (by norm_num) (by norm_num)]
    norm_num
  · rw [roundBinary32_eval 24 16777215 16777216 (by norm_num) (by norm_num) (by norm_num)
      (by norm_num) (by norm_num) (by norm_num)]
    norm_num
  · rw [roundBinary32_eval 25 8388608 8388608 (by norm_num) (by norm_num) (by norm_num)
      (by norm_num) (by norm_num) (by norm_num)]
    norm_num
  · rw [roundBinary32_eval 1 8808038 8808038 (by norm_num) (by norm_num) (by norm_num)
      (by norm_num) (by norm_num) (by norm_num)]
    norm_num
  · rw [roundBinary32_eval (-4) 13421776 13421776 (by norm_num) (by norm_num) (by norm_num)
      (by norm_num) (by norm_num) (by norm_num)]
    norm_num
  · rw [roundBinary32_eval 0 16777215 16777215 (by norm_num) (by norm_num) (by norm_num)
      (by norm_num) (by norm_num) (by norm_num)]
    norm_num
  · rw [roundBinary32_eval (-1) 16777215 16777215 (by norm_num) (by norm_num) (by norm_num)
      (by norm_num) (by norm_num) (by norm_num)]
    norm_num
  · rw [roundBinary32_eval 0 9227468 9227469 (by norm_num) (by norm_num) (by norm_num)
      (by norm_num) (by norm_num) (by norm_num)]
    norm_num

lemma roundBinary32_neg_of_pos {q : ℚ} (hq : 0 < q) :
    roundBinary32 (-q) = -roundBinary32 q := by
  unfold roundBinary32
  rw [if_pos (by linarith), if_neg (not_lt.mpr hq.le), neg_neg]

/-- Where `x + 1` and `x - 1` are binary32 values, the binary32 hard clipper
returns `1` for `x ≥ 1` and `-1` for `x ≤ -1`. -/
lemma hardClip_rounded_of_exact (x : ℚ) (h1 : roundBinary32 (x + 1) = x + 1)
    (h2 : roundBinary32 (x - 1) = x - 1) :
    (1 ≤ x → HardClip.getSampleRounded roundBinary32 x = 1) ∧
    (x ≤ -1 → HardClip.getSampleRounded roundBinary32 x = -1) := by
  obtain ⟨-, r1, r2, -⟩ := roundBinary32_hardClip_values
  have e1 : x + 1.0 = x + 1 := by norm_num
  have e2 : x - 1.0 = x - 1 := by norm_num
  constructor
  · intro hx
    unfold HardClip.getSampleRounded
    rw [e1, e2, h1, h2, abs_of_nonneg (by linarith), abs_of_nonneg (by linarith)]
    have e3 : x + 1 - (x - 1) = 2 := by ring
    rw [e3, r2]
    norm_num
    exact r1
  · intro hx
    unfold HardClip.getSampleRounded
    rw [e1, e2, h1, h2, abs_of_nonpos (by linarith), abs_of_nonpos (by linarith)]
    have e3 : -(x + 1) - -(x - 1) = -2 := by ring
    rw [e3, roundBinary32_neg_of_pos (by norm_num), r2]
    norm_num
    rw [roundBinary32_neg_of_pos (by norm_num), r1]

/-- The binary32 roundings met when the third-order waveshaper processes
`1048577.125` and then `1048577.25` from the reset state. -/
lemma roundBinary32_thirdOrder_values :
    roundBinary32 (9 / 16) = 9 / 16 ∧
    roundBinary32 (1 / 10) = 13421773 / 134217728 ∧
    roundBinary32 (1 / 8) = 1 / 8 ∧
    roundBinary32 (1 / 4) = 1 / 4 ∧
    roundBinary32 2 = 2 ∧
    roundBinary32 (16777225 / 16) = 2097153 / 2 ∧
    roundBinary32 (16777227 / 16) = 4194307 / 4 ∧
    roundBinary32 (8388617 / 8) = 8388617 / 8 ∧
    roundBinary32 (2097153 / 2) = 2097153 / 2 ∧
    roundBinary32 (8388612 / 8388617) = 8388603 / 8388608 ∧
    roundBinary32 (4194309 / 4) = 4194309 / 4 := by
  refine ⟨?_, ?_, ?_, ?_, ?_, ?_, ?_, ?_, ?_, ?_, ?_⟩
  · rw [roundBinary32_eval (-1) 9437184 9437184 (by norm_num) (by norm_num) (by norm_num)
      (by norm_num) (by norm_num) (by norm_num)]
    norm_num
  · rw [roundBinary32_eval (-4) 13421772 13421773 (by norm_num) (by norm_num) (by norm_num)
      (by norm_num) (by norm_num) (by norm_num)]
    norm_num
  · rw [roundBinary32_eval (-3) 8388608 8388608 (by norm_num) (by norm_num) (by norm_num)
      (by norm_num) (by norm_num) (by norm_num)]
    norm_num
  · rw [roundBinary32_eval (-2) 8388608 8388608 (by norm_num) (by norm_num) (by norm_num)
      (by norm_num) (by norm_num) (by norm_num)]
    norm_num
  · rw [roundBinary32_eval 1 8388608 8388608 (by norm_num) (by norm_num) (by norm_num)
      (by norm_num) (by norm_num) (by norm_num)]
    norm_num
  · rw [roundBinary32_eval 20 8388612 8388612 (by norm_num) (by norm_num) (by norm_num)
      (by norm_num) (by norm_num) (by norm_num)]
    norm_num
  · rw [roundBinary32_eval 20 8388613 8388614 (by norm_num) (by norm_num) (by norm_num)
      (by norm_num) (by norm_num) (by norm_num)]
    norm_num
  · rw [roundBinary32_eval 20 8388617 8388617 (by norm_num) (by norm_num) (by norm_num)
      (by norm_num) (by norm_num) (by norm_num)]
    norm_num
  · rw [roundBinary32_eval 20 8388612 8388612 (by norm_num) (by norm_num) (by norm_num)
      (by norm_num) (by norm_num) (by norm_num)]
    norm_num
  · rw [roundBinary32_eval (-1) 16777206 16777206 (by norm_num) (by norm_num) (by norm_num)
      (by norm_num) (by norm_num) (by norm_num)]
    norm_num
  · rw [roundBinary32_eval 20 8388618 8388618 (by norm_num) (by norm_num) (by norm_num)
      (by norm_num) (by norm_num) (by norm_num)]
    norm_num

/-- The two calls of the binary32 third-order waveshaper on `1048577.125` and
`1048577.25`, from the reset state. -/
lemma thirdOrder_rounded_steps :
    AntialiasedWaveshaperTemplate.antialiasedClipN1Rounded roundBinary32
        (ThirdOrderPolynomial.rounded roundBinary32) AntialiasedWaveshaperTemplate.reset
        (8388617 / 8) =
      some (8388603 / 8388608,
        { xn1 := 8388617 / 8, Fn := 2097153 / 2, Fn1 := 2097153 / 2 }) ∧
    AntialiasedWaveshaperTemplate.antialiasedClipN1Rounded roundBinary32
        (ThirdOrderPolynomial.rounded roundBinary32)
        { xn1 := 8388617 / 8, Fn := 2097153 / 2, Fn1 := 2097153 / 2 } (4194309 / 4) =
      some (2, { xn1 := 4194309 / 4, Fn := 4194307 / 4, Fn1 := 4194307 / 4 }) := by
  obtain ⟨s1, s2, s3, s4, s5, s6, s7, s8, s9, s10, s11⟩ := roundBinary32_thirdOrder_values
  have a0 : |(8388617 / 8 : ℚ)| = 8388617 / 8 := abs_of_pos (by norm_num)
  have a1 : |(4194309 / 4 : ℚ)| = 4194309 / 4 := abs_of_pos (by norm_num)
  have a2 : |(1 / 8 : ℚ)| = 1 / 8 := abs_of_pos (by norm_num)
  constructor
  · norm_num [a0, AntialiasedWaveshaperTemplate.antialiasedClipN1Rounded,
      AntialiasedWaveshaperTemplate.reset, AntialiasedWaveshaperTemplate.thresh,
      ThirdOrderPolynomial.rounded, ThirdOrderPolynomial.getAntiderivative1Rounded, checkedDiv,
      s1, s6, s8, s2, s9, s10]
  · norm_num [a1, a2, AntialiasedWaveshaperTemplate.antialiasedClipN1Rounded,
      AntialiasedWaveshaperTemplate.thresh,
      ThirdOrderPolynomial.rounded, ThirdOrderPolynomial.getAntiderivative1Rounded, checkedDiv,
      s1, s7, s3, s2, s4, s5]

/-! ## The claims -/

open DattorroStereoReverb

/-- Claim C1. For every variant, every stored state and every input `x`, with
`F = getAntiderivative1 x`: `process` returns `getSample ((x + xPrev) / 2)` when
`|x - xPrev| < 0.1` and `(F - FPrev) / (x - xPrev)` otherwise, and the state
after the call is `xPrev = x`, `FPrev = F` (with `Fn = F`). -/
theorem antialiasedClipN1_spec (v : Variant) (s : AntialiasedWaveshaperTemplate ℝ) (x : ℝ) :
    AntialiasedWaveshaperTemplate.process v.toNonlinearity s x =
      some (if |x - s.xn1| < 0.1 then v.getSample ((x + s.xn1) / 2)
            else (v.getAntiderivative1 x - s.Fn1) / (x - s.xn1),
            { xn1 := x, Fn := v.getAntiderivative1 x, Fn1 := v.getAntiderivative1 x }) := by
  have e : (0.1 : ℝ) = 1 / 10 := by norm_num
  rw [e]
  exact antialiasedClipN1_eq v.toNonlinearity s x

/-- Claim C2. For each piecewise-polynomial variant `getAntiderivative1` is
differentiable at every real `x`, thresholds included, with derivative
`getSample x`, and `getAntiderivative1 b - getAntiderivative1 a` is the integral
of `getSample` over `[a, b]`. -/
theorem polynomial_getAntiderivative1_isPrimitive :
    IsPrimitiveOf HardClip.getAntiderivative1 HardClip.getSample ∧
    IsPrimitiveOf CubicSaturator.getAntiderivative1 CubicSaturator.getSample ∧
    IsPrimitiveOf SecondOrderPolynomial.getAntiderivative1 SecondOrderPolynomial.getSample ∧
    IsPrimitiveOf ThirdOrderPolynomial.getAntiderivative1 ThirdOrderPolynomial.getSample ∧
    IsPrimitiveOf FourthOrderPolynomial.getAntiderivative1 FourthOrderPolynomial.getSample := by
  have prim : ∀ {F f : ℝ → ℝ}, (∀ x : ℝ, HasDerivAt F (f x) x) → Continuous f →
      IsPrimitiveOf F f := by
    intro F f hd hc
    refine ⟨hd, fun a b _ => ?_⟩
    exact (intervalIntegral.integral_eq_sub_of_hasDerivAt (fun x _ => hd x)
      (hc.intervalIntegrable a b)).symm
  have hHard : ∀ x : ℝ, HasDerivAt HardClip.getAntiderivative1 (HardClip.getSample x) x := by
    intro x
    have ha : HasDerivAt (fun y : ℝ => |y + 1.0| * (y + 1.0)) (2 * |x + 1.0|) x :=
      HasDerivAt.comp_add_const x 1.0 (hasDerivAt_abs_mul_self (x + 1.0))
    have hb : HasDerivAt (fun y : ℝ => |y - 1.0| * (y - 1.0)) (2 * |x - 1.0|) x :=
      HasDerivAt.comp_sub_const x 1.0 (hasDerivAt_abs_mul_self (x - 1.0))
    have h := ((ha.sub hb).sub_const 2.0).const_mul 0.25
    unfold HardClip.getSample
    refine (h.congr_deriv ?_)
    norm_num; ring
  have hCubic : ∀ x : ℝ,
      HasDerivAt CubicSaturator.getAntiderivative1 (CubicSaturator.getSample x) x := by
    intro x
    refine hasDerivAt_of_pieces one_pos
      (fun y hy => CubicSaturator.cubic_getAntiderivative1_outside hy)
      (fun y hy => CubicSaturator.cubic_getAntiderivative1_inside hy) ?_ ?_ x
    · intro y hy
      rw [CubicSaturator.cubic_getSample_outside hy]
      exact hasDerivAt_abs_sub_const _ one_pos hy
    · intro y hy
      rw [CubicSaturator.cubic_getSample_inside hy]
      have h := (((hasDerivAt_pow 2 y).const_mul 3).div_const 4).sub
        ((hasDerivAt_pow 4 y).div_const 8)
      refine h.congr_deriv ?_
      norm_num; ring
  have hSecond : ∀ x : ℝ, HasDerivAt SecondOrderPolynomial.getAntiderivative1
      (SecondOrderPolynomial.getSample x) x := by
    intro x
    refine hasDerivAt_of_pieces one_pos
      (fun y hy => SecondOrderPolynomial.secondOrder_getAntiderivative1_outside hy)
      (fun y hy => SecondOrderPolynomial.secondOrder_getAntiderivative1_inside hy) ?_ ?_ x
    · intro y hy
      rw [SecondOrderPolynomial.secondOrder_getSample_outside hy]
      exact hasDerivAt_abs_sub_const _ one_pos hy
    · intro y hy
      rw [SecondOrderPolynomial.secondOrder_getSample_inside hy]
      have h := (hasDerivAt_pow 2 y).sub
        (((hasDerivAt_abs_mul_self y).mul (hasDerivAt_id' y)).div_const 3)
      refine h.congr_deriv ?_
      norm_num; ring
  have hFourth : ∀ x : ℝ, HasDerivAt FourthOrderPolynomial.getAntiderivative1
      (FourthOrderPolynomial.getSample x) x := by
    intro x
    refine hasDerivAt_of_pieces one_pos
      (fun y hy => FourthOrderPolynomial.fourthOrder_getAntiderivative1_outside hy)
      (fun y hy => FourthOrderPolynomial.fourthOrder_getAntiderivative1_inside hy) ?_ ?_ x
    · intro y hy
      rw [FourthOrderPolynomial.fourthOrder_getSample_outside hy]
      exact hasDerivAt_abs_sub_const _ one_pos hy
    · intro y hy
      rw [FourthOrderPolynomial.fourthOrder_getSample_inside hy]
      have hA := hasDerivAt_abs_mul_self y
      have h := (((hasDerivAt_pow 4 y).add ((hasDerivAt_pow 2 y).const_mul 2)).sub
        ((hA.mul (hasDerivAt_pow 3 y)).div_const 5)).sub
        ((hA.mul (hasDerivAt_id' y)).const_mul 2)
      refine h.congr_deriv ?_
      norm_num; ring
  exact ⟨prim hHard (Variant.variant_continuous_getSample Variant.HardClip),
    prim hCubic (Variant.variant_continuous_getSample Variant.CubicSaturator),
    prim hSecond (Variant.variant_continuous_getSample Variant.SecondOrderPolynomial),
    prim ThirdOrderPolynomial.thirdOrder_hasDerivAt_getAntiderivative1
      (Variant.variant_continuous_getSample Variant.ThirdOrderPolynomial),
    prim hFourth (Variant.variant_continuous_getSample Variant.FourthOrderPolynomial)⟩

/-- Claim C3. With `fast_logf`, `fast_expf` read as the exact `log`, `exp`: for the
algebraic, tanh, arctan, sine, quadratic-sine and reciprocal saturators
`getAntiderivative1` is differentiable at every real `x` (the thresholds
`|x| = 1` and `|x| = 0.5` included) with derivative `getSample x`. -/
theorem transcendental_getAntiderivative1_hasDerivAt (x : ℝ) :
    HasDerivAt AlgebraicSaturator.getAntiderivative1 (AlgebraicSaturator.getSample x) x ∧
    HasDerivAt TanhSaturator.getAntiderivative1 (TanhSaturator.getSample x) x ∧
    HasDerivAt ArctanSaturator.getAntiderivative1 (ArctanSaturator.getSample x) x ∧
    HasDerivAt SineSaturator.getAntiderivative1 (SineSaturator.getSample x) x ∧
    HasDerivAt QuadraticSineSaturator.getAntiderivative1
      (QuadraticSineSaturator.getSample x) x ∧
    HasDerivAt ReciprocalSaturator.getAntiderivative1 (ReciprocalSaturator.getSample x) x := by
  refine ⟨?_, ?_, ?_, ?_, ?_, ?_⟩
  · have hpos : (0 : ℝ) < 1 + x * x := by nlinarith [mul_self_nonneg x]
    have hf : HasDerivAt (fun y : ℝ => 1 + y * y) (2 * x) x := by
      have := ((hasDerivAt_id' x).mul (hasDerivAt_id' x)).const_add 1
      refine this.congr_deriv ?_
      ring
    have h := (hf.sqrt hpos.ne').sub_const 1
    unfold AlgebraicSaturator.getSample
    refine h.congr_deriv ?_
    have hs : Real.sqrt (1 + x * x) ≠ 0 := (Real.sqrt_pos.mpr hpos).ne'
    field_simp
    ring
  · have hpos : (0 : ℝ) < (Real.exp x + Real.exp (-x)) * 0.5 := by
      have h1 := Real.exp_pos x
      have h2 := Real.exp_pos (-x)
      norm_num
      linarith
    have hf : HasDerivAt (fun y : ℝ => (Real.exp y + Real.exp (-y)) * 0.5)
        ((Real.exp x + Real.exp (-x) * -1) * 0.5) x :=
      ((Real.hasDerivAt_exp x).add (hasDerivAt_neg' x).exp).mul_const 0.5
    have h := hf.log hpos.ne'
    unfold TanhSaturator.getSample
    refine h.congr_deriv ?_
    rw [Real.tanh_eq_sinh_div_cosh, Real.sinh_eq, Real.cosh_eq]
    have h1 := Real.exp_pos x
    have h2 := Real.exp_pos (-x)
    have h3 : Real.exp x + Real.exp (-x) ≠ 0 := by linarith
    field_simp
    ring
  · have hpos : (0 : ℝ) < x * x + 1 := by nlinarith [mul_self_nonneg x]
    have hf : HasDerivAt (fun y : ℝ => y * y + 1) (2 * x) x := by
      have := ((hasDerivAt_id' x).mul (hasDerivAt_id' x)).add_const 1
      refine this.congr_deriv ?_
      ring
    have hlog : HasDerivAt (fun y : ℝ => fast_logf |y * y + 1|) (2 * x / (x * x + 1)) x := by
      have := hf.log hpos.ne'
      refine this.congr_of_eventuallyEq (Eventually.of_forall fun y => ?_)
      unfold fast_logf
      simp only [Real.log_abs]
    have h := ((((hasDerivAt_id' x).const_mul 2).mul (Real.hasDerivAt_arctan x)).sub hlog).div_const
      (2 * M_PI)
    unfold ArctanSaturator.getSample
    refine h.congr_deriv ?_
    have hpi : M_PI ≠ 0 := Real.pi_ne_zero
    have h1 : (1 : ℝ) + x ^ 2 ≠ 0 := by nlinarith [sq_nonneg x]
    have h2 : x * x + 1 ≠ 0 := hpos.ne'
    field_simp
    ring
  · have hout : ∀ y : ℝ, 1 ≤ |y| →
        SineSaturator.getAntiderivative1 y = |y| - (1 - M_2_PI) := by
      intro y hy
      unfold SineSaturator.getAntiderivative1
      simp [hy]; ring
    have hin : ∀ y : ℝ, |y| ≤ 1 →
        SineSaturator.getAntiderivative1 y = M_2_PI - M_2_PI * Real.cos (y * M_PI_2) := by
      intro y hy
      unfold SineSaturator.getAntiderivative1 M_PI_2
      split_ifs with h
      · rcases eq_or_eq_neg_of_abs_le_of_le hy h with rfl | rfl <;> simp
      · rfl
    refine hasDerivAt_of_pieces one_pos hout hin ?_ ?_ x
    · intro y hy
      rw [SineSaturator.sine_getSample_outside hy]
      exact hasDerivAt_abs_sub_const _ one_pos hy
    · intro y hy
      rw [SineSaturator.sine_getSample_inside hy]
      have h := (((hasDerivAt_id' y).mul_const M_PI_2).cos.const_mul M_2_PI).const_sub M_2_PI
      refine h.congr_deriv ?_
      have e : M_2_PI * M_PI_2 = 1 := by
        unfold M_2_PI M_PI_2
        field_simp
      linear_combination (Real.sin (y * M_PI_2)) * e
  · have hout : ∀ y : ℝ, 1 ≤ |y| → QuadraticSineSaturator.getAntiderivative1 y = |y| - 0.5 := by
      intro y hy
      unfold QuadraticSineSaturator.getAntiderivative1
      simp [hy]
    have hin : ∀ y : ℝ, |y| ≤ 1 → QuadraticSineSaturator.getAntiderivative1 y =
        signum y * 0.5 * (y - Real.sin (M_PI * y) / M_PI) := by
      intro y hy
      unfold QuadraticSineSaturator.getAntiderivative1 M_PI
      split_ifs with h
      · rcases eq_or_eq_neg_of_abs_le_of_le hy h with rfl | rfl <;> norm_num [signum]
      · rfl
    refine hasDerivAt_of_pieces one_pos hout hin ?_ ?_ x
    · intro y hy
      rw [QuadraticSineSaturator.quadSine_getSample_outside hy]
      exact hasDerivAt_abs_sub_const _ one_pos hy
    · intro y hy
      rw [QuadraticSineSaturator.quadSine_getSample_inside hy]
      exact QuadraticSineSaturator.hasDerivAt_inside hy
  · have hT : (0 : ℝ) < 1 / 2 := by norm_num
    have hout : ∀ y : ℝ, 1 / 2 ≤ |y| → ReciprocalSaturator.getAntiderivative1 y =
        |y| - 0.25 * Real.log y - 0.5 - M_LN2 / 4 + 0.125 := by
      intro y hy
      unfold ReciprocalSaturator.getAntiderivative1 fast_logf
      simp only [Real.log_abs]
      split_ifs with h
      · rfl
      · have h' : |y| ≤ 1 / 2 := by
          rw [gt_iff_lt, ReciprocalSaturator.half_le_abs] at h; exact not_lt.mp h
        have hl : Real.log (1 / 2) = -Real.log 2 := by
          rw [one_div, Real.log_inv]
        rcases eq_or_eq_neg_of_abs_le_of_le h' hy with rfl | rfl
        · rw [hl, abs_of_pos (by norm_num : (0:ℝ) < 1 / 2)]
          unfold M_LN2
          norm_num
          ring
        · rw [Real.log_neg_eq_log, hl, abs_neg, abs_of_pos (by norm_num : (0:ℝ) < 1 / 2)]
          unfold M_LN2
          norm_num
          ring
    have hin : ∀ y : ℝ, |y| ≤ 1 / 2 → ReciprocalSaturator.getAntiderivative1 y = y * y / 2 := by
      intro y hy
      have : ¬ (0.5 : ℝ) < |y| := by
        rw [ReciprocalSaturator.half_le_abs]; exact not_lt.mpr hy
      unfold ReciprocalSaturator.getAntiderivative1
      simp [this]
    refine hasDerivAt_of_pieces hT hout hin ?_ ?_ x
    · intro y hy
      rw [ReciprocalSaturator.reciprocal_getSample_outside hy]
      have hy0 : y ≠ 0 := by
        intro h0; rw [h0, abs_zero] at hy; linarith
      have h := ((((hasDerivAt_abs_sub_const 0 hT hy).sub
        ((Real.hasDerivAt_log hy0).const_mul 0.25)).sub_const 0.5).sub_const (M_LN2 / 4)).add_const
        0.125
      refine (h.congr_of_eventuallyEq (Eventually.of_forall fun z => ?_)).congr_deriv ?_
      · simp
      · simp [div_eq_mul_inv]
    · intro y hy
      rw [ReciprocalSaturator.reciprocal_getSample_inside hy]
      have h := ((hasDerivAt_id' y).mul (hasDerivAt_id' y)).div_const 2
      refine h.congr_deriv ?_
      ring

/-- Claim C4, the code evaluated. At the threshold `x = 1` the outside form of
`CubicSineSaturator.getAntiderivative1` has the value `4π/3`, while the inside
form tends to `4/(3π)` as `x` tends to `1` from below; the two differ and
`getAntiderivative1` is not continuous at `1`. -/
theorem cubicSine_getAntiderivative1_jump :
    CubicSineSaturator.getAntiderivative1 1 = 4 * Real.pi / 3 ∧
    Tendsto CubicSineSaturator.getAntiderivative1 (𝓝[<] 1) (𝓝 (4 / (3 * Real.pi))) ∧
    4 / (3 * Real.pi) ≠ 4 * Real.pi / 3 ∧
    ¬ ContinuousAt CubicSineSaturator.getAntiderivative1 1 := by
  have hne : 4 / (3 * Real.pi) ≠ 4 * Real.pi / 3 := by
    have hpi := Real.pi_gt_three
    intro h
    have hp : Real.pi ≠ 0 := Real.pi_ne_zero
    field_simp at h
    nlinarith
  have hone : CubicSineSaturator.getAntiderivative1 1 = 4 * Real.pi / 3 := by
    unfold CubicSineSaturator.getAntiderivative1 M_PI
    norm_num
  have hin : ∀ y : ℝ, |y| < 1 → CubicSineSaturator.getAntiderivative1 y =
      M_2_PI / 3 * (Real.cos (M_PI_2 * y) * Real.cos (M_PI_2 * y) * Real.cos (M_PI_2 * y)
        - Real.cos (M_PI_2 * y) * 3 + 2) := by
    intro y hy
    unfold CubicSineSaturator.getAntiderivative1
    simp [not_le.mpr hy]
  have hleft : Tendsto CubicSineSaturator.getAntiderivative1 (𝓝[<] 1)
      (𝓝 (4 / (3 * Real.pi))) := by
    have hc : Continuous fun x : ℝ =>
        M_2_PI / 3 * (Real.cos (M_PI_2 * x) * Real.cos (M_PI_2 * x) * Real.cos (M_PI_2 * x)
          - Real.cos (M_PI_2 * x) * 3 + 2) := by fun_prop
    have h1 := (hc.tendsto 1).mono_left (@nhdsWithin_le_nhds ℝ _ 1 (Iio 1))
    have hv : M_2_PI / 3 * (Real.cos (M_PI_2 * 1) * Real.cos (M_PI_2 * 1) * Real.cos (M_PI_2 * 1)
          - Real.cos (M_PI_2 * 1) * 3 + 2) = 4 / (3 * Real.pi) := by
      unfold M_2_PI M_PI_2
      rw [mul_one, Real.cos_pi_div_two]
      field_simp
      ring
    rw [hv] at h1
    refine h1.congr' ?_
    have e1 : ∀ᶠ y in 𝓝[<] (1 : ℝ), (-1 : ℝ) < y :=
      eventually_nhdsWithin_of_eventually_nhds (Ioi_mem_nhds (by norm_num))
    have e2 : ∀ᶠ y in 𝓝[<] (1 : ℝ), y ∈ Iio (1 : ℝ) := self_mem_nhdsWithin
    filter_upwards [e1, e2] with y hy1 hy2
    exact (hin y (abs_lt.mpr ⟨hy1, hy2⟩)).symm
  refine ⟨hone, hleft, hne, fun hc => hne ?_⟩
  have h1 : Tendsto CubicSineSaturator.getAntiderivative1 (𝓝[<] 1)
      (𝓝 (CubicSineSaturator.getAntiderivative1 1)) :=
    hc.tendsto.mono_left nhdsWithin_le_nhds
  rw [hone] at h1
  exact tendsto_nhds_unique hleft h1

/-- Claim C5. Every one of the twelve variants has an odd `getSample`:
`getSample (-x) = -getSample x` for every real `x`, and so `getSample 0 = 0`. -/
theorem getSample_odd (v : Variant) (x : ℝ) :
    v.getSample (-x) = -v.getSample x ∧ v.getSample 0 = 0 := by
  have signum_neg : ∀ z : ℝ, signum (-z) = -signum z := by
    intro z
    rcases lt_trichotomy z 0 with h | h | h
    · rw [signum_of_neg h, signum_of_pos (neg_pos.mpr h)]; simp
    · subst h; simp [signum]
    · rw [signum_of_pos h, signum_of_neg (neg_neg_of_pos h)]
  have h : ∀ y : ℝ, v.getSample (-y) = -v.getSample y := by
    intro y
    cases v
    · show HardClip.getSample (-y) = -HardClip.getSample y
      unfold HardClip.getSample
      have e1 : |(-y) + 1.0| = |y - 1.0| := by rw [← abs_neg]; congr 1; ring
      have e2 : |(-y) - 1.0| = |y + 1.0| := by rw [← abs_neg]; congr 1; ring
      rw [e1, e2]; ring
    · show CubicSaturator.getSample (-y) = -CubicSaturator.getSample y
      unfold CubicSaturator.getSample
      rw [abs_neg, signum_neg]
      split_ifs <;> ring
    · show SecondOrderPolynomial.getSample (-y) = -SecondOrderPolynomial.getSample y
      unfold SecondOrderPolynomial.getSample
      rw [abs_neg, signum_neg]
      split_ifs <;> ring
    · show ThirdOrderPolynomial.getSample (-y) = -ThirdOrderPolynomial.getSample y
      unfold ThirdOrderPolynomial.getSample
      rw [abs_neg, signum_neg]
      split_ifs <;> ring
    · show FourthOrderPolynomial.getSample (-y) = -FourthOrderPolynomial.getSample y
      unfold FourthOrderPolynomial.getSample
      rw [abs_neg, signum_neg]
      split_ifs <;> ring
    · show AlgebraicSaturator.getSample (-y) = -AlgebraicSaturator.getSample y
      unfold AlgebraicSaturator.getSample
      rw [neg_mul_neg, neg_div]
    · exact Real.tanh_neg y
    · show ArctanSaturator.getSample (-y) = -ArctanSaturator.getSample y
      unfold ArctanSaturator.getSample
      rw [Real.arctan_neg, neg_div]
    · show SineSaturator.getSample (-y) = -SineSaturator.getSample y
      unfold SineSaturator.getSample
      rw [abs_neg, signum_neg, neg_mul, Real.sin_neg]
      split_ifs <;> rfl
    · show QuadraticSineSaturator.getSample (-y) = -QuadraticSineSaturator.getSample y
      unfold QuadraticSineSaturator.getSample
      simp only [abs_neg, signum_neg, mul_neg, Real.sin_neg]
      split_ifs <;> ring
    · show CubicSineSaturator.getSample (-y) = -CubicSineSaturator.getSample y
      unfold CubicSineSaturator.getSample
      simp only [abs_neg, signum_neg, mul_neg, Real.sin_neg]
      split_ifs <;> ring
    · show ReciprocalSaturator.getSample (-y) = -ReciprocalSaturator.getSample y
      unfold ReciprocalSaturator.getSample
      rw [abs_neg, signum_neg, div_neg]
      split_ifs <;> ring
  refine ⟨h x, ?_⟩
  have h0 := h 0
  rw [neg_zero] at h0
  linarith

/-- Claim C6, amended. The seven variants that return `signum x` beyond their
threshold saturate exactly: for `|x| ≥ T` the sample is `signum x`, `1` for
`x ≥ T` and `-1` for `x ≤ -T` (`T = 1`, and `T = 1.5` for
`ThirdOrderPolynomial`).  `HardClip` returns the value of
`0.5f * (|x + 1| - |x - 1|)`: with exact arithmetic (the rounded form with `id`)
this is `signum x` for `|x| ≥ 1`; in binary32 arithmetic it is `1` for `x ≥ 1` and
`-1` for `x ≤ -1` whenever `x + 1` and `x - 1` are binary32 values, as at
`x = 2` and `x = -2`. -/
theorem getSample_saturates :
    SaturatesFrom HardClip.getSample 1 ∧
    SaturatesFrom CubicSaturator.getSample 1 ∧
    SaturatesFrom SecondOrderPolynomial.getSample 1 ∧
    SaturatesFrom FourthOrderPolynomial.getSample 1 ∧
    SaturatesFrom SineSaturator.getSample 1 ∧
    SaturatesFrom QuadraticSineSaturator.getSample 1 ∧
    SaturatesFrom CubicSineSaturator.getSample 1 ∧
    SaturatesFrom ThirdOrderPolynomial.getSample 1.5 ∧
    (∀ x : ℝ, HardClip.getSampleRounded id x = HardClip.getSample x) ∧
    (∀ x : ℚ, roundBinary32 (x + 1) = x + 1 → roundBinary32 (x - 1) = x - 1 →
      (1 ≤ x → HardClip.getSampleRounded roundBinary32 x = 1) ∧
      (x ≤ -1 → HardClip.getSampleRounded roundBinary32 x = -1)) ∧
    HardClip.getSampleRounded roundBinary32 2 = 1 ∧
    HardClip.getSampleRounded roundBinary32 (-2) = -1 := by
  have e : (1.5 : ℝ) = 3 / 2 := by norm_num
  rw [e]
  have sat : ∀ {f : ℝ → ℝ} {T : ℝ}, 0 < T → (∀ x, T ≤ |x| → f x = signum x) →
      SaturatesFrom f T := by
    intro f T hT h x
    refine ⟨h x, fun hx => ?_, fun hx => ?_⟩
    · rw [h x (le_trans hx (le_abs_self x)), signum_of_pos (by linarith)]
    · rw [h x (le_trans (by linarith) (neg_le_abs x)), signum_of_neg (by linarith)]
  have hardOut : ∀ x : ℝ, 1 ≤ |x| → HardClip.getSample x = signum x := by
    intro x hx
    unfold HardClip.getSample
    rcases signum_of_le_abs one_pos hx with ⟨h1, h2⟩ | ⟨h1, h2⟩
    · rw [h2, abs_of_nonneg (by linarith), abs_of_nonneg (by linarith)]; ring
    · rw [h2, abs_of_nonpos (by linarith), abs_of_nonpos (by linarith)]; ring
  obtain ⟨-, r1, -, r3, -⟩ := roundBinary32_hardClip_values
  have t1 : HardClip.getSampleRounded roundBinary32 2 = 1 := by
    refine (hardClip_rounded_of_exact 2 ?_ ?_).1 (by norm_num)
    · norm_num [r3]
    · norm_num [r1]
  have t2 : HardClip.getSampleRounded roundBinary32 (-2) = -1 := by
    refine (hardClip_rounded_of_exact (-2) ?_ ?_).2 (by norm_num)
    · have e : (-2 : ℚ) + 1 = -1 := by norm_num
      rw [e, roundBinary32_neg_of_pos (by norm_num), r1]
    · have e : (-2 : ℚ) - 1 = -3 := by norm_num
      rw [e, roundBinary32_neg_of_pos (by norm_num), r3]
  exact ⟨sat one_pos hardOut,
    sat one_pos fun _ h => CubicSaturator.cubic_getSample_outside h,
    sat one_pos fun _ h => SecondOrderPolynomial.secondOrder_getSample_outside h,
    sat one_pos fun _ h => FourthOrderPolynomial.fourthOrder_getSample_outside h,
    sat one_pos fun _ h => SineSaturator.sine_getSample_outside h,
    sat one_pos fun _ h => QuadraticSineSaturator.quadSine_getSample_outside h,
    sat one_pos fun _ h => CubicSineSaturator.cubicSine_getSample_outside h,
    sat (by norm_num) fun _ h => ThirdOrderPolynomial.thirdOrder_getSample_outside h,
    fun _ => rfl, hardClip_rounded_of_exact, t1, t2⟩

/-- Claim C6, counterexample. In binary32 arithmetic `HardClip::getSample`
returns `0.5` at `x = 2^24`, `2` at `2^24 + 2` and `0` at `2^25`, and
`16777215/16777216` at `1.1f = 9227469/8388608`; all four inputs have
`|x| ≥ 1`. -/
theorem hardClip_binary32_not_sign :
    roundBinary32 16777216 = 16777216 ∧
    (1 : ℚ) ≤ 16777216 ∧
    HardClip.getSampleRounded roundBinary32 16777216 = 1 / 2 ∧
    HardClip.getSampleRounded roundBinary32 16777218 = 2 ∧
    HardClip.getSampleRounded roundBinary32 33554432 = 0 ∧
    roundBinary32 (11 / 10) = 9227469 / 8388608 ∧
    HardClip.getSampleRounded roundBinary32 (9227469 / 8388608) = 16777215 / 16777216 ∧
    HardClip.getSampleRounded roundBinary32 16777216 ≠ 1 := by
  obtain ⟨r0, r1, r2, -, r4, rh, ra, rb, rc, rd, re, rf, rg, ri, rj, rk, rl⟩ :=
    roundBinary32_hardClip_values
  have a1 : |(4404019 / 2097152 : ℚ)| = 4404019 / 2097152 := abs_of_pos (by norm_num)
  have a2 : |(838861 / 8388608 : ℚ)| = 838861 / 8388608 := abs_of_pos (by norm_num)
  have t1 : HardClip.getSampleRounded roundBinary32 16777216 = 1 / 2 := by
    norm_num [HardClip.getSampleRounded, rc, ra, r1, rh]
  have t2 : HardClip.getSampleRounded roundBinary32 16777218 = 2 := by
    norm_num [HardClip.getSampleRounded, rc, rd, r4, r2]
  have t3 : HardClip.getSampleRounded roundBinary32 33554432 = 0 := by
    norm_num [HardClip.getSampleRounded, re, rf, r0]
  have t4 : HardClip.getSampleRounded roundBinary32 (9227469 / 8388608) =
      16777215 / 16777216 := by
    norm_num [HardClip.getSampleRounded, rg, ri, rj, rk, a1, a2]
  exact ⟨rb, by norm_num, t1, t2, t3, rl, t4, by rw [t1]; norm_num⟩

/-- Claim C7. In `process`, the quotient `(F - FPrev) / (x - xPrev)` is evaluated only
when `|x - xPrev| ≥ 0.1`, so that its divisor is not zero and the call always
returns a value; when `|x - xPrev| < 0.1` (so also when `x = xPrev`) the result
is `getSample ((x + xPrev) / 2)` whatever the division operator does: no
division takes place. -/
theorem adaa_division_guarded {α : Type} [LinearOrderedField α] (f : Nonlinearity α)
    (s : AntialiasedWaveshaperTemplate α) (x : α) :
    (¬ |x - s.xn1| < 0.1 →
      0.1 ≤ |x - s.xn1| ∧ x - s.xn1 ≠ 0 ∧
      ∀ fdiv : α → α → Option α,
        AntialiasedWaveshaperTemplate.antialiasedClipN1Core fdiv f s x =
          (fdiv (f.getAntiderivative1 x - s.Fn1) (x - s.xn1)).map fun t =>
            (t, { xn1 := x, Fn := f.getAntiderivative1 x, Fn1 := f.getAntiderivative1 x })) ∧
    (|x - s.xn1| < 0.1 →
      ∀ fdiv : α → α → Option α,
        AntialiasedWaveshaperTemplate.antialiasedClipN1Core fdiv f s x =
          some (f.getSample ((x + s.xn1) / 2),
            { xn1 := x, Fn := f.getAntiderivative1 x, Fn1 := f.getAntiderivative1 x })) ∧
    (x = s.xn1 → |x - s.xn1| < 0.1) ∧
    (AntialiasedWaveshaperTemplate.process f s x).isSome = true := by
  have e : (0.1 : α) = AntialiasedWaveshaperTemplate.thresh := by
    unfold AntialiasedWaveshaperTemplate.thresh; norm_num
  rw [e]
  refine ⟨fun h => ⟨not_lt.mp h, divisor_ne_zero h, fun fdiv => ?_⟩, fun h fdiv => ?_,
    fun h => ?_, ?_⟩
  · simp only [AntialiasedWaveshaperTemplate.antialiasedClipN1Core, h, if_false]
  · have e2 : (0.5 : α) * (x + s.xn1) = (x + s.xn1) / 2 := by norm_num; ring
    simp only [AntialiasedWaveshaperTemplate.antialiasedClipN1Core, h, if_true,
      Option.map_some', e2]
  · rw [h, sub_self, abs_zero]; exact thresh_pos
  · unfold AntialiasedWaveshaperTemplate.process
    rw [antialiasedClipN1_eq]
    rfl

/-- Claim C8. ADAA convergence: for every variant, every real `x` and every `ε > 0`
there is a `δ > 0` such that from every state with `|x - xPrev| < δ` the call
`process x` returns an output within `ε` of `getSample x`. -/
theorem adaa_converges (v : Variant) (x ε : ℝ) (hε : 0 < ε) :
    ∃ δ : ℝ, 0 < δ ∧ ∀ s : AntialiasedWaveshaperTemplate ℝ, |x - s.xn1| < δ →
      ∃ out s', AntialiasedWaveshaperTemplate.process v.toNonlinearity s x = some (out, s') ∧
        |out - v.getSample x| < ε := by
  have hc : ContinuousAt v.getSample x := (Variant.variant_continuous_getSample v).continuousAt
  rw [Metric.continuousAt_iff] at hc
  obtain ⟨δ, hδ, h⟩ := hc ε hε
  refine ⟨min δ (1 / 10), lt_min hδ (by norm_num), fun s hs => ?_⟩
  have h1 : |x - s.xn1| < δ := lt_of_lt_of_le hs (min_le_left _ _)
  have h2 : |x - s.xn1| < 1 / 10 := lt_of_lt_of_le hs (min_le_right _ _)
  refine ⟨_, _, antialiasedClipN1_eq v.toNonlinearity s x, ?_⟩
  rw [if_pos h2]
  have hd : dist ((x + s.xn1) / 2) x < δ := by
    rw [Real.dist_eq]
    have e : (x + s.xn1) / 2 - x = -((x - s.xn1) / 2) := by ring
    rw [e, abs_neg, abs_div, abs_two]
    have := abs_nonneg (x - s.xn1)
    linarith
  have := h hd
  rwa [Real.dist_eq] at this

/-- Claim C8 at the hard clipper, `x = 0` and `ε = 1`. -/
theorem adaa_converges_witness :
    (0 : ℝ) < 1 ∧ ∃ δ : ℝ, 0 < δ ∧ ∀ s : AntialiasedWaveshaperTemplate ℝ, |0 - s.xn1| < δ →
      ∃ out s', AntialiasedWaveshaperTemplate.process
          (Variant.toNonlinearity Variant.HardClip) s 0 = some (out, s') ∧
        |out - Variant.getSample Variant.HardClip 0| < 1 :=
  ⟨one_pos, adaa_converges Variant.HardClip 0 1 one_pos⟩

/-- Claim C10, amended. After `clear()`, for every prior engine state, each of the
14 delay lines holds only zeros (capacity kept, cursor at 0), and `diffusion`,
`decay`, `damping`, `amount`, the modulation parameters and the oscillators are
unchanged; the four filter states `lp1_state`, `lp2_state`, `hp1_state`,
`hp2_state` are left as they were. -/
theorem clear_spec {α : Type} [LinearOrderedField α] [FloorRing α] {P : Type}
    (e : DattorroStereoReverb α P) :
    (∀ i : Fin 14, (∀ v ∈ (e.clear.delays i).data, v = 0) ∧
      (e.clear.delays i).getSize = (e.delays i).getSize ∧ (e.clear.delays i).writeIndex = 0) ∧
    e.clear.diffusion = e.diffusion ∧ e.clear.decay = e.decay ∧
    e.clear.damping = e.damping ∧ e.clear.amount = e.amount ∧
    e.clear.lfo_offset1 = e.lfo_offset1 ∧ e.clear.lfo_amount1 = e.lfo_amount1 ∧
    e.clear.lfo_offset2 = e.lfo_offset2 ∧ e.clear.lfo_amount2 = e.lfo_amount2 ∧
    e.clear.lfo1 = e.lfo1 ∧ e.clear.lfo2 = e.lfo2 ∧
    e.clear.lp1_state = e.lp1_state ∧ e.clear.lp2_state = e.lp2_state ∧
    e.clear.hp1_state = e.hp1_state ∧ e.clear.hp2_state = e.hp2_state := by
  refine ⟨fun i => ⟨fun v hv => ?_, ?_, rfl⟩, rfl, rfl, rfl, rfl, rfl, rfl, rfl, rfl, rfl, rfl,
    rfl, rfl, rfl, rfl⟩
  · exact List.eq_of_mem_replicate hv
  · simp [DattorroStereoReverb.clear, DelayLine.clear, DelayLine.getSize]

/-- Claim C10, counterexample. The engine `exampleEngineAfterBlock` has processed one
sample pair and holds `lp1_state = 1/16`; `clear()` zeroes its delays and leaves
`lp1_state = 1/16`, so not all four filter states are zero after `clear()`. -/
theorem clear_keeps_filter_state :
    exampleEngineAfterBlock.lp1_state = 1 / 16 ∧
    (∀ i : Fin 14, ∀ v ∈ (exampleEngineAfterBlock.clear.delays i).data, v = 0) ∧
    exampleEngineAfterBlock.clear.lp1_state = 1 / 16 ∧
    ¬ (exampleEngineAfterBlock.clear.lp1_state = 0 ∧ exampleEngineAfterBlock.clear.lp2_state = 0 ∧
      exampleEngineAfterBlock.clear.hp1_state = 0 ∧ exampleEngineAfterBlock.clear.hp2_state = 0) := by
  have h : exampleEngineAfterBlock.lp1_state = 1 / 16 := by
    simp [exampleEngineAfterBlock, exampleEngine, exampleInstantiation, process, processLoop,
      sampleStep, leftAcc, rightAcc, applyAPF, processAPF, processLPF, processHPF, create,
      setDiffusion, setDamping, DelayLine.create, DelayLine.read, DelayLine.write,
      DelayLine.readAt, DelayLine.getSize, Oscillator.generate, applyProcessor]
    norm_num
  have h' : exampleEngineAfterBlock.clear.lp1_state = 1 / 16 := h
  refine ⟨h, fun i v hv => List.eq_of_mem_replicate hv, h', fun hc => ?_⟩
  rw [h'] at hc
  norm_num at hc

/-! ## Delay lines, allpass traces and settings -/

section Fifo
variable {α : Type}

lemma wellFormed_split (d : DelayLine α) (h : d.WellFormed) :
    ∃ (L R : List α) (s : α), d.data = L ++ s :: R ∧ L.length = d.writeIndex := by
  refine ⟨d.data.take d.writeIndex, d.data.drop (d.writeIndex + 1), d.data[d.writeIndex], ?_, ?_⟩
  · rw [← List.drop_eq_getElem_cons h, List.take_append_drop]
  · exact List.length_take_of_le (le_of_lt h)

lemma set_length_append (L R : List α) (s x : α) :
    (L ++ s :: R).set L.length x = L ++ x :: R := by
  induction L with
  | nil => rfl
  | cons a L ih => simp [ih]

lemma pending_of_split [LinearOrderedField α] (d : DelayLine α) (L R : List α) (s : α) (hd : d.data = L ++ s :: R)
    (hL : L.length = d.writeIndex) :
    d.pending = s :: (R ++ L) ∧ d.read = s := by
  unfold DelayLine.pending DelayLine.read
  rw [hd, ← hL]
  refine ⟨by simp, ?_⟩
  rw [List.getD_append_right _ _ _ _ (le_refl _)]
  simp

lemma write_of_split (d : DelayLine α) (L R : List α) (s x : α)
    (hd : d.data = L ++ s :: R) (hL : L.length = d.writeIndex) :
    (d.write x).pending = R ++ L ++ [x] ∧ (d.write x).WellFormed ∧
      (d.write x).data.length = d.data.length := by
  have hset : (d.write x).data = L ++ x :: R := by
    unfold DelayLine.write
    simp only
    rw [hd, ← hL, set_length_append]
  have hlen : d.getSize = L.length + (R.length + 1) := by
    unfold DelayLine.getSize; rw [hd]; simp
  have hidx : (d.write x).writeIndex = (L.length + 1) % (L.length + (R.length + 1)) := by
    unfold DelayLine.write
    simp only
    rw [hlen, hL]
  refine ⟨?_, ?_, ?_⟩
  · unfold DelayLine.pending
    rw [hidx, hset]
    cases R with
    | nil => simp
    | cons r R =>
      have : (L.length + 1) % (L.length + ((r :: R).length + 1)) = L.length + 1 :=
        Nat.mod_eq_of_lt (by simp)
      rw [this]
      have e1 : L ++ x :: r :: R = (L ++ [x]) ++ r :: R := by simp
      have e2 : L.length + 1 = (L ++ [x]).length := by simp
      rw [e1, e2, List.drop_left, List.take_left]
      simp
  · unfold DelayLine.WellFormed
    rw [hidx, hset]
    have : 0 < L.length + (R.length + 1) := by omega
    have := Nat.mod_lt (L.length + 1) this
    simpa using this
  · rw [hset, hd]; simp

lemma pending_write [LinearOrderedField α] (d : DelayLine α) (h : d.WellFormed) (x : α) :
    (d.write x).pending = d.pending.tail ++ [x] ∧ (d.write x).WellFormed ∧
      (d.write x).data.length = d.data.length := by
  obtain ⟨L, R, s, hd, hL⟩ := wellFormed_split d h
  obtain ⟨h1, h2, h3⟩ := write_of_split d L R s x hd hL
  obtain ⟨hp, _⟩ := pending_of_split d L R s hd hL
  refine ⟨?_, h2, h3⟩
  rw [h1, hp]
  simp

lemma pending_eq_read_cons [LinearOrderedField α] (d : DelayLine α) (h : d.WellFormed) :
    d.pending = d.read :: d.pending.tail := by
  obtain ⟨L, R, s, hd, hL⟩ := wellFormed_split d h
  obtain ⟨hp, hr⟩ := pending_of_split d L R s hd hL
  rw [hp, hr]
  rfl

lemma pending_length (d : DelayLine α) (h : d.WellFormed) :
    d.pending.length = d.data.length := by
  unfold DelayLine.pending
  have := le_of_lt h
  simp [List.length_take, List.length_drop]
  omega

end Fifo

section Trace
variable {α : Type} [LinearOrderedField α]

lemma energy_nil : energy ([] : List α) = 0 := rfl

lemma energy_cons (x : α) (xs : List α) : energy (x :: xs) = x * x + energy xs := by
  simp [energy]

lemma energy_append (xs ys : List α) : energy (xs ++ ys) = energy xs + energy ys := by
  simp [energy]

lemma energy_nonneg (xs : List α) : 0 ≤ energy xs := by
  induction xs with
  | nil => exact le_refl _
  | cons x xs ih => rw [energy_cons]; exact add_nonneg (mul_self_nonneg x) ih

lemma energy_replicate_zero (n : Nat) : energy (List.replicate n (0 : α)) = 0 := by
  induction n with
  | zero => rfl
  | succ n ih => rw [List.replicate_succ, energy_cons, ih]; simp

lemma energy_eq_zero_of_forall (xs : List α) (h : ∀ v ∈ xs, v = 0) : energy xs = 0 := by
  induction xs with
  | nil => rfl
  | cons x xs ih =>
    rw [energy_cons, ih (fun v hv => h v (List.mem_cons_of_mem _ hv)),
      h x (List.mem_cons_self _ _)]
    simp

lemma apfTrace_cons (k : α) (d : DelayLine α) (x : α) (xs : List α) :
    apfTrace k d (x :: xs) =
      ((x + d.read * k, d.read - k * (x + d.read * k)) ::
          (apfTrace k (d.write (x + d.read * k)) xs).1,
        (apfTrace k (d.write (x + d.read * k)) xs).2) := by
  have h : (processAPF d x k).2 = d.read - k * (x + d.read * k) := by
    simp only [processAPF]; ring
  simp only [apfTrace, h]
  rfl

lemma apfTrace_length (k : α) (xs : List α) :
    ∀ d : DelayLine α, (apfTrace k d xs).1.length = xs.length := by
  induction xs with
  | nil => intro d; rfl
  | cons x xs ih => intro d; rw [apfTrace_cons]; simp [ih]

lemma apfTrace_take (k : α) (xs : List α) :
    ∀ (d : DelayLine α) (M : Nat),
      (apfTrace k d (xs.take M)).1 = (apfTrace k d xs).1.take M := by
  induction xs with
  | nil => intro d M; simp [apfTrace]
  | cons x xs ih =>
    intro d M
    cases M with
    | zero => simp [apfTrace]
    | succ M => rw [List.take_succ_cons, apfTrace_cons, apfTrace_cons, List.take_succ_cons, ih]

lemma apfTrace_pending (k : α) (xs : List α) :
    ∀ d : DelayLine α, d.WellFormed →
      (apfTrace k d xs).2.pending =
        (d.pending ++ writtenOf (apfTrace k d xs).1).drop xs.length ∧
      (apfTrace k d xs).2.WellFormed ∧
      (apfTrace k d xs).2.data.length = d.data.length := by
  induction xs with
  | nil => intro d h; simp [apfTrace, writtenOf, h]
  | cons x xs ih =>
    intro d h
    obtain ⟨hp, hw, hl⟩ := pending_write d h (x + d.read * k)
    obtain ⟨i1, i2, i3⟩ := ih _ hw
    rw [apfTrace_cons]
    refine ⟨?_, i2, i3.trans hl⟩
    simp only [writtenOf, List.map_cons, List.length_cons]
    rw [i1, hp, pending_eq_read_cons d h]
    simp [writtenOf]

lemma apfTrace_recurrence (k : α) (xs : List α) :
    ∀ (d : DelayLine α), d.WellFormed → ∀ n : Nat, n < xs.length →
      (writtenOf (apfTrace k d xs).1).getD n 0 =
        xs.getD n 0 + k * (d.pending ++ writtenOf (apfTrace k d xs).1).getD n 0 ∧
      (returnedOf (apfTrace k d xs).1).getD n 0 =
        (d.pending ++ writtenOf (apfTrace k d xs).1).getD n 0 -
          k * (writtenOf (apfTrace k d xs).1).getD n 0 := by
  induction xs with
  | nil => intro d h n hn; simp at hn
  | cons x xs ih =>
    intro d h n hn
    obtain ⟨hp, hw, hl⟩ := pending_write d h (x + d.read * k)
    rw [apfTrace_cons]
    cases n with
    | zero =>
      rw [pending_eq_read_cons d h]
      simp [writtenOf, returnedOf]
      ring
    | succ n =>
      have hn' : n < xs.length := by simpa using hn
      obtain ⟨i1, i2⟩ := ih _ hw n hn'
      rw [hp] at i1 i2
      rw [pending_eq_read_cons d h]
      simp only [writtenOf, returnedOf, List.map_cons, List.cons_append, List.getD_cons_succ]
      simp only [writtenOf, returnedOf, List.append_assoc, List.singleton_append] at i1 i2
      exact ⟨i1, i2⟩

lemma apfTrace_energy (k : α) (xs : List α) :
    ∀ (d : DelayLine α), d.WellFormed →
      energy xs + (1 - k ^ 2) * energy d.pending =
        energy (returnedOf (apfTrace k d xs).1) +
          (1 - k ^ 2) * energy (apfTrace k d xs).2.pending := by
  induction xs with
  | nil => intro d h; simp [apfTrace, returnedOf, energy_nil]
  | cons x xs ih =>
    intro d h
    obtain ⟨hp, hw, hl⟩ := pending_write d h (x + d.read * k)
    have i := ih _ hw
    rw [hp, energy_append, energy_cons, energy_nil] at i
    have hq : energy d.pending = d.read * d.read + energy d.pending.tail := by
      conv_lhs => rw [pending_eq_read_cons d h]
      rw [energy_cons]
    rw [apfTrace_cons]
    simp only [returnedOf, List.map_cons]
    rw [energy_cons, energy_cons, hq]
    simp only [returnedOf] at i
    linear_combination i

end Trace

section Final
variable {α : Type} [LinearOrderedField α]

lemma clear_pending (d : DelayLine α) :
    d.clear.pending = List.replicate d.getSize 0 := by
  simp [DelayLine.clear, DelayLine.pending]

lemma clear_wellFormed (d : DelayLine α) (h : 1 ≤ d.getSize) : d.clear.WellFormed := by
  simp only [DelayLine.clear, DelayLine.WellFormed, List.length_replicate]
  exact h

lemma getD_replicate_append (N n : Nat) (vs : List α) :
    (List.replicate N (0 : α) ++ vs).getD n 0 = if N ≤ n then vs.getD (n - N) 0 else 0 := by
  split_ifs with h
  · rw [List.getD_append_right _ _ _ _ (by simpa using h)]
    simp
  · have h' : n < (List.replicate N (0 : α)).length := by simpa using h
    rw [List.getD_append _ _ _ _ h']
    rw [List.getD_eq_getElem _ _ h']
    simp

lemma energy_drop_replicate_append (N M : Nat) (vs : List α) :
    energy ((List.replicate N (0 : α) ++ vs).drop M) = energy (vs.drop (M - N)) := by
  rw [List.drop_append_eq_append_drop, energy_append, List.drop_replicate,
    energy_replicate_zero, zero_add, List.length_replicate]

lemma foldl_write_pending (ws : List α) :
    ∀ d : DelayLine α, d.WellFormed →
      (ws.foldl DelayLine.write d).pending = (d.pending ++ ws).drop ws.length ∧
      (ws.foldl DelayLine.write d).WellFormed := by
  induction ws with
  | nil => intro d h; simp [h]
  | cons w ws ih =>
    intro d h
    obtain ⟨hp, hw, _⟩ := pending_write d h w
    obtain ⟨i1, i2⟩ := ih _ hw
    refine ⟨?_, i2⟩
    rw [List.foldl_cons, i1, hp]
    conv_rhs => rw [pending_eq_read_cons d h]
    simp

end Final

section
variable {α P : Type}

lemma getSize_write (d : DelayLine α) (x : α) : (d.write x).getSize = d.getSize := by
  simp [DelayLine.write, DelayLine.getSize]

lemma getSize_update (f : Fin 14 → DelayLine α) (i j : Fin 14) (d : DelayLine α)
    (h : d.getSize = (f i).getSize) : (Function.update f i d j).getSize = (f j).getSize := by
  by_cases hji : j = i
  · subst hji; simp [h]
  · simp [Function.update_noteq hji]

end

section
variable {α : Type} [LinearOrderedField α] {P : Type}

lemma sameSettings_applyAPF (e : DattorroStereoReverb α P) (i : Fin 14) (acc k : α) :
    SameSettings e (applyAPF e i acc k).1 :=
  ⟨rfl, rfl, rfl, rfl, rfl, rfl, rfl, rfl, rfl, fun j =>
    getSize_update e.delays i j _ (getSize_write _ _)⟩

end

section
variable {α : Type} [LinearOrderedField α] [FloorRing α] {P : Type}

end

section
variable {α : Type} [LinearOrderedField α] [FloorRing α] {P : Type}

end

section
variable {α : Type} [LinearOrderedField α] [FloorRing α] {P : Type}

lemma leftAcc_lp1_state (c : Instantiation α P) (e : DattorroStereoReverb α P) (o : Offsets)
    (x : α) :
    (leftAcc c e o x).2.1.lp1_state =
      (processLPF e.damping e.lp1_state ((leftDiffuse e x).2 + leftTap c e o * e.decay)).1 := by
  simp [leftAcc, leftDiffuse, leftTap, applyAPF, Function.update]

lemma rightAcc_lp2_state (c : Instantiation α P) (e : DattorroStereoReverb α P) (o : Offsets)
    (x : α) :
    (rightAcc c e o x).2.1.lp2_state =
      (processLPF e.damping e.lp2_state ((rightDiffuse e x).2 + rightTap c e o * e.decay)).1 := by
  cases h : c.with_smear <;>
    simp [rightAcc, rightDiffuse, rightTap, applyAPF, Function.update, h]

lemma sampleStep_left_stages (c : Instantiation α P) (e : DattorroStereoReverb α P)
    (o : Offsets) (x : α × α) :
    ∃ y : α, TwoAllpassStages (e.delays 8) (e.delays 9) ((sampleStep c e o x).engine.delays 8)
        ((sampleStep c e o x).engine.delays 9) (sampleStep c e o x).engine.lp1_state
        (-e.diffusion) e.diffusion y ∧
      (c.processor = none →
        (sampleStep c e o x).left_acc = (processHPF e.damping e.hp1_state y).2) := by
  refine ⟨_, ⟨?_, ?_, rfl⟩, ?_⟩
  · unfold sampleStep
    cases h : c.with_smear <;>
      simp [rightAcc, leftAcc, applyAPF, smearStep, h, Function.update, processLPF]
  · unfold sampleStep
    cases h : c.with_smear <;>
      simp [rightAcc, leftAcc, applyAPF, smearStep, h, Function.update, processLPF]
  · intro hp
    unfold sampleStep
    cases h : c.with_smear <;>
      simp [rightAcc, leftAcc, applyAPF, smearStep, h, Function.update, processLPF,
        applyProcessor, hp]

lemma sampleStep_right_stages (c : Instantiation α P) (e : DattorroStereoReverb α P)
    (o : Offsets) (x : α × α) :
    ∃ y : α, TwoAllpassStages (e.delays 11) (e.delays 12)
        ((sampleStep c e o x).engine.delays 11) ((sampleStep c e o x).engine.delays 12)
        (sampleStep c e o x).engine.lp2_state e.diffusion (-e.diffusion) y ∧
      (c.processor = none →
        (sampleStep c e o x).right_acc = (processHPF e.damping e.hp2_state y).2) := by
  refine ⟨_, ⟨?_, ?_, rfl⟩, ?_⟩
  · unfold sampleStep
    cases h : c.with_smear <;>
      simp [rightAcc, leftAcc, applyAPF, smearStep, h, Function.update, processLPF]
  · unfold sampleStep
    cases h : c.with_smear <;>
      simp [rightAcc, leftAcc, applyAPF, smearStep, h, Function.update, processLPF]
  · intro hp
    unfold sampleStep
    cases h : c.with_smear <;>
      simp [rightAcc, leftAcc, applyAPF, smearStep, h, Function.update, processLPF,
        applyProcessor, hp]

end

/-! ## The claims on the reverb engine and the patch -/

/-- Claim C12. An allpass stage on a cleared delay line of capacity `N ≥ 1` with a
coefficient `|k| < 1`, fed the inputs `x[0], x[1], ...` through `processAPF`:
the written values satisfy `v[n] = x[n] + k * v[n-N]` and the outputs
`y[n] = v[n-N] - k * v[n]` (with `v[m] = 0` for `m < 0`), and for every `M` the
sum of `x[n]^2` over `n < M` equals the sum of `y[n]^2` over `n < M` plus
`(1 - k^2)` times the sum of `v[n]^2` over the `N` most recent writes; so the
output energy never exceeds the input energy and equals it when the delay holds
only zeros. -/
theorem allpass_lossless {α : Type} [LinearOrderedField α] (d : DelayLine α)
    (hN : 1 ≤ d.getSize) (k : α) (hk : |k| < 1) (xs : List α) (M : Nat) (hM : M ≤ xs.length) :
    (writtenOf (apfTrace k d.clear xs).1).length = xs.length ∧
    (returnedOf (apfTrace k d.clear xs).1).length = xs.length ∧
    (∀ n : Nat, n < xs.length →
      (writtenOf (apfTrace k d.clear xs).1).getD n 0 =
        xs.getD n 0 + k * (if d.getSize ≤ n then
          (writtenOf (apfTrace k d.clear xs).1).getD (n - d.getSize) 0 else 0) ∧
      (returnedOf (apfTrace k d.clear xs).1).getD n 0 =
        (if d.getSize ≤ n then
          (writtenOf (apfTrace k d.clear xs).1).getD (n - d.getSize) 0 else 0) -
          k * (writtenOf (apfTrace k d.clear xs).1).getD n 0) ∧
    energy (xs.take M) =
      energy ((returnedOf (apfTrace k d.clear xs).1).take M) +
        (1 - k ^ 2) *
          energy (((writtenOf (apfTrace k d.clear xs).1).take M).drop (M - d.getSize)) ∧
    energy ((returnedOf (apfTrace k d.clear xs).1).take M) ≤ energy (xs.take M) ∧
    ((∀ v ∈ ((writtenOf (apfTrace k d.clear xs).1).take M).drop (M - d.getSize), v = 0) →
      energy ((returnedOf (apfTrace k d.clear xs).1).take M) = energy (xs.take M)) := by
  have hw := clear_wellFormed d hN
  have hlen := apfTrace_length k xs d.clear
  have hk2 : 0 ≤ 1 - k ^ 2 := by
    have := abs_lt.mp hk
    nlinarith
  -- the trace of the first `M` inputs is the first `M` entries of the trace
  have htake := apfTrace_take k xs d.clear M
  have hlenM : (xs.take M).length = M := List.length_take_of_le hM
  have hE := apfTrace_energy k (xs.take M) d.clear hw
  obtain ⟨hp, _, _⟩ := apfTrace_pending k (xs.take M) d.clear hw
  rw [hp, clear_pending, energy_replicate_zero, mul_zero, add_zero, hlenM,
    energy_drop_replicate_append, htake] at hE
  have hE' : energy (xs.take M) =
      energy ((returnedOf (apfTrace k d.clear xs).1).take M) +
        (1 - k ^ 2) *
          energy (((writtenOf (apfTrace k d.clear xs).1).take M).drop (M - d.getSize)) := by
    simpa only [writtenOf, returnedOf, List.map_take] using hE
  refine ⟨by simp [writtenOf, hlen], by simp [returnedOf, hlen], fun n hn => ?_, hE', ?_, ?_⟩
  · have := apfTrace_recurrence k xs d.clear hw n hn
    rw [clear_pending, getD_replicate_append] at this
    exact this
  · rw [hE']
    have := mul_nonneg hk2
      (energy_nonneg (((writtenOf (apfTrace k d.clear xs).1).take M).drop (M - d.getSize)))
    linarith
  · intro h0
    rw [hE', energy_eq_zero_of_forall _ h0]
    ring

/-- Claim C12 on a delay of capacity 2 with `k = 1/2` and the inputs `1, 0, 0`. -/
theorem allpass_lossless_witness :
    energy (([1, 0, 0] : List ℚ).take 3) =
      energy ((returnedOf (apfTrace (1 / 2) (DelayLine.create 2).clear [1, 0, 0]).1).take 3) +
        (1 - (1 / 2 : ℚ) ^ 2) *
          energy (((writtenOf (apfTrace (1 / 2) (DelayLine.create 2).clear
            [1, 0, 0]).1).take 3).drop (3 - (DelayLine.create 2 : DelayLine ℚ).getSize)) :=
  (allpass_lossless (DelayLine.create 2) (by simp [DelayLine.create, DelayLine.getSize])
    (1 / 2) (by rw [abs_of_pos] <;> norm_num) [1, 0, 0] 3 (by simp)).2.2.2.1

/-- Claim C13. Round trip of a delay line of capacity `N ≥ 1` in any state its
operations produce: `write(s)`, then `N - 1` further writes of arbitrary values,
then `read()` returns `s`. -/
theorem delayLine_round_trip {α : Type} [LinearOrderedField α] (d : DelayLine α)
    (hd : d.WellFormed) (s : α) (ws : List α) (hws : ws.length = d.getSize - 1) :
    (ws.foldl DelayLine.write (d.write s)).read = s := by
  obtain ⟨hp, hw, _⟩ := pending_write d hd s
  obtain ⟨h1, h2⟩ := foldl_write_pending ws _ hw
  have hlen : d.pending.tail.length = ws.length := by
    rw [List.length_tail, pending_length d hd, hws]
    rfl
  have h3 := pending_eq_read_cons _ h2
  rw [h1, hp, List.append_assoc, ← hlen, List.drop_left] at h3
  simp only [List.singleton_append, List.cons.injEq] at h3
  exact h3.1.symm

/-- Claim C13 on a delay of capacity 3: `write(7)`, `write(8)`, `write(9)`, `read()`. -/
theorem delayLine_round_trip_witness :
    ((DelayLine.create 3 : DelayLine ℚ)).WellFormed ∧
    ([8, 9] : List ℚ).length = (DelayLine.create 3 : DelayLine ℚ).getSize - 1 ∧
    (([8, 9] : List ℚ).foldl DelayLine.write ((DelayLine.create 3).write 7)).read = 7 :=
  ⟨by simp [DelayLine.WellFormed, DelayLine.create],
    by simp [DelayLine.create, DelayLine.getSize],
    delayLine_round_trip (DelayLine.create 3)
      (by simp [DelayLine.WellFormed, DelayLine.create]) 7 [8, 9]
      (by simp [DelayLine.create, DelayLine.getSize])⟩

/-- Claim C14. After `setModulation(offset1, depth1, offset2, depth2)`, for all
non-negative integer arguments, `lfo_offset1 = offset1` and
`lfo_offset2 = offset2` verbatim, the stored depths are `depth1 / 2` and
`depth2 / 2` (the integer quotient: twice the stored depth is the supplied depth,
or one less when that is odd), and `amount`, `decay`, `diffusion`, `damping`,
the filter states, the delays and the oscillators are unchanged. -/
theorem setModulation_spec {α : Type} [LinearOrderedField α] [FloorRing α] {P : Type}
    (e : DattorroStereoReverb α P) (offset1 depth1 offset2 depth2 : Nat) :
    (e.setModulation offset1 depth1 offset2 depth2).lfo_offset1 = offset1 ∧
    (e.setModulation offset1 depth1 offset2 depth2).lfo_offset2 = offset2 ∧
    (e.setModulation offset1 depth1 offset2 depth2).lfo_amount1 = depth1 / 2 ∧
    (e.setModulation offset1 depth1 offset2 depth2).lfo_amount2 = depth2 / 2 ∧
    2 * (e.setModulation offset1 depth1 offset2 depth2).lfo_amount1 + depth1 % 2 = depth1 ∧
    2 * (e.setModulation offset1 depth1 offset2 depth2).lfo_amount2 + depth2 % 2 = depth2 ∧
    (e.setModulation offset1 depth1 offset2 depth2).amount = e.amount ∧
    (e.setModulation offset1 depth1 offset2 depth2).decay = e.decay ∧
    (e.setModulation offset1 depth1 offset2 depth2).diffusion = e.diffusion ∧
    (e.setModulation offset1 depth1 offset2 depth2).damping = e.damping ∧
    (e.setModulation offset1 depth1 offset2 depth2).lp1_state = e.lp1_state ∧
    (e.setModulation offset1 depth1 offset2 depth2).lp2_state = e.lp2_state ∧
    (e.setModulation offset1 depth1 offset2 depth2).hp1_state = e.hp1_state ∧
    (e.setModulation offset1 depth1 offset2 depth2).hp2_state = e.hp2_state ∧
    (e.setModulation offset1 depth1 offset2 depth2).delays = e.delays ∧
    (e.setModulation offset1 depth1 offset2 depth2).lfo1 = e.lfo1 ∧
    (e.setModulation offset1 depth1 offset2 depth2).lfo2 = e.lfo2 :=
  ⟨rfl, rfl, rfl, rfl, Nat.div_add_mod depth1 2, Nat.div_add_mod depth2 2,
    rfl, rfl, rfl, rfl, rfl, rfl, rfl, rfl, rfl, rfl, rfl⟩

/-- Claim C15. On a block of length 0, for every engine state, `process` writes
no output sample and returns the engine as it was: delay contents and cursors,
oscillator phases, filter states and coefficients are unchanged. -/
theorem process_nil {α : Type} [LinearOrderedField α] [FloorRing α] {P : Type}
    (c : Instantiation α P) (e : DattorroStereoReverb α P) :
    (process c e []).output = [] ∧ (process c e []).written = [] ∧
    (process c e []).engine = e :=
  ⟨rfl, rfl, rfl⟩

/-- Claim C17. A press of `BUTTON_A` (`value ≠ 0`) moves the looper from
`ST_RECORDING` to `ST_PLAYBACK` with `is_record = false`, from `ST_NONE` to
`ST_RECORDING`, from `ST_PLAYBACK` to `ST_OVERDUB` and from `ST_OVERDUB` to
`ST_PLAYBACK`. -/
theorem buttonChanged_record_press (p : FrippertronicsPatch) (value samples : Nat)
    (hv : value ≠ 0) :
    (p.state = LooperState.ST_RECORDING →
      (p.buttonChanged PatchButtonId.BUTTON_A value samples).state = LooperState.ST_PLAYBACK ∧
      (p.buttonChanged PatchButtonId.BUTTON_A value samples).is_record = false) ∧
    (p.state = LooperState.ST_NONE →
      (p.buttonChanged PatchButtonId.BUTTON_A value samples).state = LooperState.ST_RECORDING) ∧
    (p.state = LooperState.ST_PLAYBACK →
      (p.buttonChanged PatchButtonId.BUTTON_A value samples).state = LooperState.ST_OVERDUB) ∧
    (p.state = LooperState.ST_OVERDUB →
      (p.buttonChanged PatchButtonId.BUTTON_A value samples).state = LooperState.ST_PLAYBACK) := by
  refine ⟨fun h => ?_, fun h => ?_, fun h => ?_, fun h => ?_⟩ <;>
    simp [FrippertronicsPatch.buttonChanged, FrippertronicsPatch.pressRecord,
      FrippertronicsPatch.callLooper, hv, h]

/-- Claim C17 at a patch that is recording: a press of `BUTTON_A` leaves it in
`ST_PLAYBACK` with `is_record = false`. -/
theorem buttonChanged_record_press_witness :
    (1 : Nat) ≠ 0 ∧ exampleRecordingPatch.state = LooperState.ST_RECORDING ∧
    (exampleRecordingPatch.buttonChanged PatchButtonId.BUTTON_A 1 0).state =
      LooperState.ST_PLAYBACK ∧
    (exampleRecordingPatch.buttonChanged PatchButtonId.BUTTON_A 1 0).is_record = false :=
  ⟨by decide, by decide,
    (buttonChanged_record_press exampleRecordingPatch 1 0 (by decide)).1 (by decide)⟩

/-- Claim C18. One call of `processAPF`: with `sample = delay.read()`, the value
written to the delay is `acc + sample * k` and the accumulator on return is
`sample - k * (acc + sample * k)`. -/
theorem processAPF_spec {α : Type} [LinearOrderedField α] (delay : DelayLine α) (acc k : α) :
    (processAPF delay acc k).1 = delay.write (acc + delay.read * k) ∧
    (processAPF delay acc k).2 = delay.read - k * (acc + delay.read * k) := by
  refine ⟨rfl, ?_⟩
  simp only [processAPF]
  ring

/-- Claim C20, amended. In every iteration, after the damping filter, the
accumulator of the left channel passes through the allpass stage on delay 8 with
coefficient `-diffusion` and then the stage on delay 9 with `+diffusion`; the
accumulator of the right channel passes through the stage on delay 11 with
`+diffusion` and then the stage on delay 12 with `-diffusion`.  With the `bypass`
processor the value leaving the second stage is the input of the second
filter. -/
theorem post_filter_allpass_order {α : Type} [LinearOrderedField α] [FloorRing α] {P : Type}
    (c : Instantiation α P) (e : DattorroStereoReverb α P)
    (o : Offsets) (x : α × α) :
    (∃ y : α, TwoAllpassStages (e.delays 8) (e.delays 9) ((sampleStep c e o x).engine.delays 8)
        ((sampleStep c e o x).engine.delays 9) (sampleStep c e o x).engine.lp1_state
        (-e.diffusion) e.diffusion y ∧
      (c.processor = none →
        (sampleStep c e o x).left_acc = (processHPF e.damping e.hp1_state y).2)) ∧
    (∃ y : α, TwoAllpassStages (e.delays 11) (e.delays 12)
        ((sampleStep c e o x).engine.delays 11) ((sampleStep c e o x).engine.delays 12)
        (sampleStep c e o x).engine.lp2_state e.diffusion (-e.diffusion) y ∧
      (c.processor = none →
        (sampleStep c e o x).right_acc = (processHPF e.damping e.hp2_state y).2)) :=
  ⟨sampleStep_left_stages c e o x, sampleStep_right_stages c e o x⟩

/-- Claim C20, counterexample. On the fresh engine `exampleEngine` and the sample
pair `(1, 1)` the damping filter of the left channel returns `1/16`; the stages
leave `1/32` in delay 9, whereas the order `+diffusion`, `-diffusion` would leave
`-1/32` there. -/
theorem left_stages_order_example :
    (sampleStep exampleInstantiation exampleEngine
      (initOffsets exampleInstantiation exampleEngine) (1, 1)).engine.lp1_state = 1 / 16 ∧
    ((sampleStep exampleInstantiation exampleEngine
      (initOffsets exampleInstantiation exampleEngine) (1, 1)).engine.delays 9).data = [1 / 32] ∧
    (processAPF (exampleEngine.delays 9)
      (processAPF (exampleEngine.delays 8) (1 / 16) exampleEngine.diffusion).2
      (-exampleEngine.diffusion)).1.data = [-(1 / 32)] ∧
    ¬ ∃ y : ℚ, TwoAllpassStages (exampleEngine.delays 8) (exampleEngine.delays 9)
      ((sampleStep exampleInstantiation exampleEngine
        (initOffsets exampleInstantiation exampleEngine) (1, 1)).engine.delays 8)
      ((sampleStep exampleInstantiation exampleEngine
        (initOffsets exampleInstantiation exampleEngine) (1, 1)).engine.delays 9)
      (sampleStep exampleInstantiation exampleEngine
        (initOffsets exampleInstantiation exampleEngine) (1, 1)).engine.lp1_state
      exampleEngine.diffusion (-exampleEngine.diffusion) y := by
  have h1 : (sampleStep exampleInstantiation exampleEngine
      (initOffsets exampleInstantiation exampleEngine) (1, 1)).engine.lp1_state = 1 / 16 := by
    simp [exampleEngine, exampleInstantiation, sampleStep, leftAcc, rightAcc, applyAPF,
      processAPF, processLPF, processHPF, create, setDiffusion, setDamping, DelayLine.create,
      DelayLine.read, DelayLine.write, DelayLine.readAt, DelayLine.getSize, Oscillator.generate,
      applyProcessor]
    norm_num
  have h2 : ((sampleStep exampleInstantiation exampleEngine
      (initOffsets exampleInstantiation exampleEngine) (1, 1)).engine.delays 9).data =
      [1 / 32] := by
    simp [exampleEngine, exampleInstantiation, sampleStep, leftAcc, rightAcc, applyAPF,
      processAPF, processLPF, processHPF, create, setDiffusion, setDamping, DelayLine.create,
      DelayLine.read, DelayLine.write, DelayLine.readAt, DelayLine.getSize, Oscillator.generate,
      applyProcessor, Function.update]
    norm_num
  have h3 : (processAPF (exampleEngine.delays 9)
      (processAPF (exampleEngine.delays 8) (1 / 16) exampleEngine.diffusion).2
      (-exampleEngine.diffusion)).1.data = [-(1 / 32)] := by
    simp [exampleEngine, processAPF, create, setDiffusion, setDamping, DelayLine.create,
      DelayLine.read, DelayLine.write, DelayLine.getSize]
    norm_num
  refine ⟨h1, h2, h3, ?_⟩
  rintro ⟨y, -, hd9, -⟩
  rw [h1] at hd9
  have := congrArg DelayLine.data hd9
  rw [h2, h3] at this
  norm_num at this

/-! ## Second antiderivatives, the waveshaper state and the tank taps -/

lemma variant_getAntiderivative1_zero (v : Variant) : v.getAntiderivative1 0 = 0 := by
  cases v
  · show HardClip.getAntiderivative1 (0 : ℝ) = 0
    unfold HardClip.getAntiderivative1
    simp; norm_num
  · show CubicSaturator.getAntiderivative1 (0 : ℝ) = 0
    unfold CubicSaturator.getAntiderivative1
    simp
  · show SecondOrderPolynomial.getAntiderivative1 (0 : ℝ) = 0
    unfold SecondOrderPolynomial.getAntiderivative1
    simp
  · show ThirdOrderPolynomial.getAntiderivative1 (0 : ℝ) = 0
    unfold ThirdOrderPolynomial.getAntiderivative1
    simp
    norm_num
  · show FourthOrderPolynomial.getAntiderivative1 (0 : ℝ) = 0
    unfold FourthOrderPolynomial.getAntiderivative1
    simp
  · show AlgebraicSaturator.getAntiderivative1 0 = 0
    unfold AlgebraicSaturator.getAntiderivative1
    simp
  · show TanhSaturator.getAntiderivative1 0 = 0
    unfold TanhSaturator.getAntiderivative1 fast_logf fast_expf
    simp
    norm_num
  · show ArctanSaturator.getAntiderivative1 0 = 0
    unfold ArctanSaturator.getAntiderivative1 fast_logf
    simp
  · show SineSaturator.getAntiderivative1 0 = 0
    unfold SineSaturator.getAntiderivative1
    simp
  · show QuadraticSineSaturator.getAntiderivative1 0 = 0
    unfold QuadraticSineSaturator.getAntiderivative1
    simp [signum]
  · show CubicSineSaturator.getAntiderivative1 0 = 0
    unfold CubicSineSaturator.getAntiderivative1
    simp
    norm_num
  · show ReciprocalSaturator.getAntiderivative1 0 = 0
    unfold ReciprocalSaturator.getAntiderivative1
    simp
    intro h
    norm_num at h

section
variable {α : Type} [LinearOrderedField α]

lemma process_eq (f : Nonlinearity α) (s : AntialiasedWaveshaperTemplate α) (x : α) :
    AntialiasedWaveshaperTemplate.process f s x =
      some (if |x - s.xn1| < 1 / 10 then f.getSample ((x + s.xn1) / 2)
            else (f.getAntiderivative1 x - s.Fn1) / (x - s.xn1),
            { xn1 := x, Fn := f.getAntiderivative1 x, Fn1 := f.getAntiderivative1 x }) :=
  antialiasedClipN1_eq f s x

lemma reachable_invariant (f : Nonlinearity α) (h0 : f.getAntiderivative1 0 = 0)
    (s : AntialiasedWaveshaperTemplate α) (hs : AntialiasedWaveshaperTemplate.Reachable f s) :
    s.Fn1 = f.getAntiderivative1 s.xn1 ∧ s.Fn = s.Fn1 := by
  induction hs with
  | init => exact ⟨by simp [AntialiasedWaveshaperTemplate.reset, h0], rfl⟩
  | step s s' x y _ hp _ =>
    rw [process_eq] at hp
    have := (Prod.mk.inj (Option.some.inj hp)).2
    subst this
    exact ⟨rfl, rfl⟩

end

section
variable {α : Type} [LinearOrderedField α] [FloorRing α] {P : Type}

lemma sampleStep_hpf_amount (c : Instantiation α P) (e : DattorroStereoReverb α P)
    (o : Offsets) (x : α × α) (h : α) :
    sampleStep c { e with hpf_amount := h } o x =
      { sampleStep c e o x with
        engine := { (sampleStep c e o x).engine with hpf_amount := h } } := by
  cases hc : c.with_smear <;> cases hp : c.processor <;>
    simp [sampleStep, smearStep, leftAcc, rightAcc, applyAPF, applyProcessor, hc, hp]

lemma processLoop_hpf_amount (c : Instantiation α P) (h : α) (input : List (α × α)) :
    ∀ (e : DattorroStereoReverb α P) (o : Offsets),
      processLoop c { e with hpf_amount := h } o input =
        { processLoop c e o input with
          engine := { (processLoop c e o input).engine with hpf_amount := h } } := by
  induction input with
  | nil => intro e o; rfl
  | cons x xs ih =>
    intro e o
    simp only [processLoop, sampleStep_hpf_amount, ih]

lemma initOffsets_hpf_amount {α P : Type} (c : Instantiation α P) (e : DattorroStereoReverb α P) (h : α) :
    initOffsets c { e with hpf_amount := h } = initOffsets c e := rfl

lemma sampleStep_hp_states (c : Instantiation α P) (e : DattorroStereoReverb α P)
    (o : Offsets) (x : α × α) :
    (sampleStep c e o x).engine.hp1_state = (sampleStep c e o x).left_acc ∧
    (sampleStep c e o x).engine.hp2_state = (sampleStep c e o x).right_acc := by
  cases hc : c.with_smear <;>
    simp [sampleStep, smearStep, leftAcc, rightAcc, applyAPF, processHPF, hc]

lemma sampleStep_default_lfo (c : Instantiation α P) (hc : c.with_smear = false)
    (e : DattorroStereoReverb α P) (o : Offsets) (x : α × α) :
    (sampleStep c e o x).engine.lfo1 = (e.lfo1.generate c.wave).2 ∧
    (sampleStep c e o x).engine.lfo2 = (e.lfo2.generate c.wave).2 ∧
    (sampleStep c e o x).offsets.lfo1_read_offset = sizeAdd c.sizeBits o.lfo1_read_offset 1 ∧
    (sampleStep c e o x).offsets.lfo2_read_offset = sizeAdd c.sizeBits o.lfo2_read_offset 1 := by
  simp [sampleStep, leftAcc, rightAcc, applyAPF, hc]

lemma sampleStep_lfo2 (c : Instantiation α P)
    (e : DattorroStereoReverb α P) (o : Offsets) (x : α × α) :
    (sampleStep c e o x).engine.lfo2 = (e.lfo2.generate c.wave).2 ∧
    (sampleStep c e o x).offsets.lfo2_read_offset = sizeAdd c.sizeBits o.lfo2_read_offset 1 := by
  cases hc : c.with_smear <;> simp [sampleStep, smearStep, leftAcc, rightAcc, applyAPF, hc]

lemma initOffsets_lfo2 {α P : Type} (c : Instantiation α P) (e : DattorroStereoReverb α P) :
    (initOffsets c e).lfo2_read_offset =
      sizeSub c.sizeBits
        (sizeAdd c.sizeBits (e.delays 13).getWriteIndex (e.delays 13).getSize) e.lfo_offset2 := by
  cases hc : c.with_smear <;> simp [initOffsets, hc]

lemma initOffsets_default_lfo1 {α P : Type} (c : Instantiation α P) (hc : c.with_smear = false)
    (e : DattorroStereoReverb α P) :
    (initOffsets c e).lfo1_read_offset =
      sizeSub c.sizeBits
        (sizeAdd c.sizeBits (e.delays 10).getWriteIndex (e.delays 10).getSize) e.lfo_offset1 := by
  simp [initOffsets, hc]

end

lemma exampleSmear_output_plain :
    (process exampleSmearInstantiation (exampleTankEngine 0 0 0 0) [(0, 1), (0, 0)]).output =
      [(0, -(1 / 64)), (0, 3 / 32)] := by
  simp [exampleSmearStep, leftTap, exampleTankEngine, exampleTankLengths,
    exampleSmearInstantiation, freshEngine, process,
    processLoop, initOffsets, sizeAdd, sizeSub, sampleStep, smearStep, fmodf, leftAcc, rightAcc,
    applyAPF, processAPF, processLPF, processHPF, create, setAmount, setDecay, setDiffusion,
    setDamping, setModulation, DelayLine.create, DelayLine.read, DelayLine.write,
    DelayLine.writeAt, DelayLine.readAt, DelayLine.getSize, DelayLine.getWriteIndex,
    Oscillator.generate, Oscillator.create, Oscillator.setFrequency, applyProcessor,
    Function.update]
  norm_num

lemma exampleSmear_output_offset2 :
    (process exampleSmearInstantiation (exampleTankEngine 0 0 1 0) [(0, 1), (0, 0)]).output =
      [(0, -(1 / 64)), (1 / 256, 3 / 32)] := by
  simp [exampleSmearStep, leftTap, exampleTankEngine, exampleTankLengths,
    exampleSmearInstantiation, freshEngine, process,
    processLoop, initOffsets, sizeAdd, sizeSub, sampleStep, smearStep, fmodf, leftAcc, rightAcc,
    applyAPF, processAPF, processLPF, processHPF, create, setAmount, setDecay, setDiffusion,
    setDamping, setModulation, DelayLine.create, DelayLine.read, DelayLine.write,
    DelayLine.writeAt, DelayLine.readAt, DelayLine.getSize, DelayLine.getWriteIndex,
    Oscillator.generate, Oscillator.create, Oscillator.setFrequency, applyProcessor,
    Function.update]
  norm_num

lemma exampleSmear_output_depth2 :
    (process exampleSmearInstantiation (exampleTankEngine 0 0 0 2) [(0, 1), (0, 0)]).output =
      [(0, -(1 / 64)), (1 / 256, 3 / 32)] := by
  simp [exampleSmearStep, leftTap, exampleTankEngine, exampleTankLengths,
    exampleSmearInstantiation, freshEngine, process,
    processLoop, initOffsets, sizeAdd, sizeSub, sampleStep, smearStep, fmodf, leftAcc, rightAcc,
    applyAPF, processAPF, processLPF, processHPF, create, setAmount, setDecay, setDiffusion,
    setDamping, setModulation, DelayLine.create, DelayLine.read, DelayLine.write,
    DelayLine.writeAt, DelayLine.readAt, DelayLine.getSize, DelayLine.getWriteIndex,
    Oscillator.generate, Oscillator.create, Oscillator.setFrequency, applyProcessor,
    Function.update]
  norm_num

lemma exampleSmearStep_read :
    ((exampleSmearStep 1).engine.delays 13).read = 0 := by
  simp [exampleSmearStep, leftTap, exampleTankEngine, exampleTankLengths,
    exampleSmearInstantiation, freshEngine, process,
    processLoop, initOffsets, sizeAdd, sizeSub, sampleStep, smearStep, fmodf, leftAcc, rightAcc,
    applyAPF, processAPF, processLPF, processHPF, create, setAmount, setDecay, setDiffusion,
    setDamping, setModulation, DelayLine.create, DelayLine.read, DelayLine.write,
    DelayLine.writeAt, DelayLine.readAt, DelayLine.getSize, DelayLine.getWriteIndex,
    Oscillator.generate, Oscillator.create, Oscillator.setFrequency, applyProcessor,
    Function.update]

lemma exampleSmearStep_leftTap :
    leftTap exampleSmearInstantiation (exampleSmearStep 1).engine (exampleSmearStep 1).offsets =
      -(1 / 64) := by
  simp [exampleSmearStep, leftTap, exampleTankEngine, exampleTankLengths,
    exampleSmearInstantiation, freshEngine, process,
    processLoop, initOffsets, sizeAdd, sizeSub, sampleStep, smearStep, fmodf, leftAcc, rightAcc,
    applyAPF, processAPF, processLPF, processHPF, create, setAmount, setDecay, setDiffusion,
    setDamping, setModulation, DelayLine.create, DelayLine.read, DelayLine.write,
    DelayLine.writeAt, DelayLine.readAt, DelayLine.getSize, DelayLine.getWriteIndex,
    Oscillator.generate, Oscillator.create, Oscillator.setFrequency, applyProcessor,
    Function.update]
  norm_num

/-! ## The claims on the taps, the filters and the waveshaper -/

/-- Claim C21, amended. Smear variant (`with_smear = true`).  The right channel
adds to `acc`, before the damping filter, `decay` times the plain read
`delays[10]->read()` of the left channel's tank delay; this tap is the same for
every waveform, every state of the two oscillators, every value of the four
modulation parameters and every value of the read offsets.  The left channel
adds, as in the default variant, `decay` times the fractional read
`delays[13]->readAt((lfo2 + 1) * lfo_amount2 + lfo2_read_offset)` of the right
channel's tank delay: its position is set by oscillator 2 and the stored half
depth 2, the read offset starts a block at
`writeIndex + size - lfo_offset2` and grows by one with every sample, and
oscillator 2 is advanced once per sample. -/
theorem smear_cross_feed {α : Type} [LinearOrderedField α] [FloorRing α] {P : Type}
    (c : Instantiation α P) (hc : c.with_smear = true) (e : DattorroStereoReverb α P)
    (o : Offsets) (x : α × α) :
    ((rightAcc c e o x.2).2.1.lp2_state =
        (processLPF e.damping e.lp2_state
          ((rightDiffuse e x.2).2 + (e.delays 10).read * e.decay)).1 ∧
      rightTap c e o = (e.delays 10).read ∧
      ∀ (wave : α → α) (lfo1 lfo2 : Oscillator α) (offset1 amount1 offset2 amount2 : Nat)
        (o' : Offsets),
        rightTap { c with wave := wave }
          { e with lfo1 := lfo1, lfo2 := lfo2, lfo_offset1 := offset1, lfo_amount1 := amount1,
                   lfo_offset2 := offset2, lfo_amount2 := amount2 } o' = rightTap c e o) ∧
    ((leftAcc c e o x.1).2.1.lp1_state =
        (processLPF e.damping e.lp1_state
          ((leftDiffuse e x.1).2 +
            (e.delays 13).readAt
              (((e.lfo2.generate c.wave).1 + 1) * (e.lfo_amount2 : α) +
                (o.lfo2_read_offset : α)) * e.decay)).1 ∧
      (initOffsets c e).lfo2_read_offset =
        sizeSub c.sizeBits
          (sizeAdd c.sizeBits (e.delays 13).getWriteIndex (e.delays 13).getSize) e.lfo_offset2 ∧
      (sampleStep c e o x).engine.lfo2 = (e.lfo2.generate c.wave).2 ∧
      (sampleStep c e o x).offsets.lfo2_read_offset = sizeAdd c.sizeBits o.lfo2_read_offset 1) := by
  have hr : rightTap c e o = (e.delays 10).read := by simp [rightTap, hc]
  refine ⟨⟨?_, hr, ?_⟩, ⟨leftAcc_lp1_state c e o x.1, initOffsets_lfo2 c e,
    (sampleStep_lfo2 c e o x).1, (sampleStep_lfo2 c e o x).2⟩⟩
  · rw [← hr]; exact rightAcc_lp2_state c e o x.2
  · intro wave lfo1 lfo2 offset1 amount1 offset2 amount2 o'
    simp [rightTap, hc]

/-- Claim C21 at the smear instantiation over the rationals: the right tap of
the engine `exampleTankEngine 0 0 1 0` is the plain read of delay 10. -/
theorem smear_cross_feed_witness :
    rightTap exampleSmearInstantiation (exampleTankEngine 0 0 1 0)
        (initOffsets exampleSmearInstantiation (exampleTankEngine 0 0 1 0)) =
      ((exampleTankEngine 0 0 1 0).delays 10).read :=
  (smear_cross_feed exampleSmearInstantiation rfl (exampleTankEngine 0 0 1 0)
    (initOffsets exampleSmearInstantiation (exampleTankEngine 0 0 1 0)) (0, 1)).1.2.1

/-- Claim C21, counterexample. On the smear instantiation a fresh engine with
`setModulation(0, 0, 0, 0)` answers the block `[(0, 1), (0, 0)]` with the left
samples `0, 0`; with `setModulation(0, 0, 1, 0)` or `setModulation(0, 0, 0, 2)`
the second left sample is `1/256`.  After the first sample, with offset 2 equal
to 1, `delays[13]->read()` is `0` while the tap taken by the left channel is
`-1/64`. -/
theorem smear_left_tap_modulated :
    exampleSmearInstantiation.with_smear = true ∧
    (process exampleSmearInstantiation (exampleTankEngine 0 0 0 0) [(0, 1), (0, 0)]).output =
      [(0, -(1 / 64)), (0, 3 / 32)] ∧
    (process exampleSmearInstantiation (exampleTankEngine 0 0 1 0) [(0, 1), (0, 0)]).output =
      [(0, -(1 / 64)), (1 / 256, 3 / 32)] ∧
    (process exampleSmearInstantiation (exampleTankEngine 0 0 0 2) [(0, 1), (0, 0)]).output =
      [(0, -(1 / 64)), (1 / 256, 3 / 32)] ∧
    ((exampleSmearStep 1).engine.delays 13).read = 0 ∧
    leftTap exampleSmearInstantiation (exampleSmearStep 1).engine (exampleSmearStep 1).offsets =
      -(1 / 64) ∧
    leftTap exampleSmearInstantiation (exampleSmearStep 1).engine (exampleSmearStep 1).offsets ≠
      ((exampleSmearStep 1).engine.delays 13).read :=
  ⟨rfl, exampleSmear_output_plain, exampleSmear_output_offset2, exampleSmear_output_depth2,
    exampleSmearStep_read, exampleSmearStep_leftTap, by
      rw [exampleSmearStep_read, exampleSmearStep_leftTap]; norm_num⟩

/-- Claim C22, amended. Default variant (`with_smear = false`).  The left channel
adds to `acc`, before the damping filter, `decay` times the fractional read
`delays[13]->readAt((lfo2 + 1) * lfo_amount2 + lfo2_read_offset)`, whose read
offset starts a block at `writeIndex + size - lfo_offset2` of delay 13: it is
modulated by oscillator 2 with offset 2 and depth 2.  The right channel adds
`decay` times the fractional read
`delays[10]->readAt((lfo1 + 1) * lfo_amount1 + lfo1_read_offset)`, whose read
offset starts a block at `writeIndex + size - lfo_offset1` of delay 10: it is
modulated by oscillator 1 with offset 1 and depth 1.  Each oscillator is
advanced once per sample and each read offset grows by one per sample. -/
theorem default_cross_feed {α : Type} [LinearOrderedField α] [FloorRing α] {P : Type}
    (c : Instantiation α P) (hc : c.with_smear = false) (e : DattorroStereoReverb α P)
    (o : Offsets) (x : α × α) :
    ((leftAcc c e o x.1).2.1.lp1_state =
        (processLPF e.damping e.lp1_state
          ((leftDiffuse e x.1).2 +
            (e.delays 13).readAt
              (((e.lfo2.generate c.wave).1 + 1) * (e.lfo_amount2 : α) +
                (o.lfo2_read_offset : α)) * e.decay)).1 ∧
      (initOffsets c e).lfo2_read_offset =
        sizeSub c.sizeBits
          (sizeAdd c.sizeBits (e.delays 13).getWriteIndex (e.delays 13).getSize) e.lfo_offset2 ∧
      (sampleStep c e o x).engine.lfo2 = (e.lfo2.generate c.wave).2 ∧
      (sampleStep c e o x).offsets.lfo2_read_offset = sizeAdd c.sizeBits o.lfo2_read_offset 1) ∧
    ((rightAcc c e o x.2).2.1.lp2_state =
        (processLPF e.damping e.lp2_state
          ((rightDiffuse e x.2).2 +
            (e.delays 10).readAt
              (((e.lfo1.generate c.wave).1 + 1) * (e.lfo_amount1 : α) +
                (o.lfo1_read_offset : α)) * e.decay)).1 ∧
      (initOffsets c e).lfo1_read_offset =
        sizeSub c.sizeBits
          (sizeAdd c.sizeBits (e.delays 10).getWriteIndex (e.delays 10).getSize) e.lfo_offset1 ∧
      (sampleStep c e o x).engine.lfo1 = (e.lfo1.generate c.wave).2 ∧
      (sampleStep c e o x).offsets.lfo1_read_offset = sizeAdd c.sizeBits o.lfo1_read_offset 1) := by
  have hr : rightTap c e o = (e.delays 10).readAt
      (((e.lfo1.generate c.wave).1 + 1) * (e.lfo_amount1 : α) + (o.lfo1_read_offset : α)) := by
    simp [rightTap, hc]
  have hs := sampleStep_default_lfo c hc e o x
  refine ⟨⟨leftAcc_lp1_state c e o x.1, initOffsets_lfo2 c e, hs.2.1, hs.2.2.2⟩,
    ⟨?_, initOffsets_default_lfo1 c hc e, hs.1, hs.2.2.1⟩⟩
  rw [← hr]; exact rightAcc_lp2_state c e o x.2

/-- Claim C22 at the default instantiation over the rationals: the read offset
of the right tap of `exampleTankEngine 0 2 0 0` at the start of a block. -/
theorem default_cross_feed_witness :
    (initOffsets exampleInstantiation (exampleTankEngine 0 2 0 0)).lfo1_read_offset =
      sizeSub exampleInstantiation.sizeBits
        (sizeAdd exampleInstantiation.sizeBits
          ((exampleTankEngine 0 2 0 0).delays 10).getWriteIndex
          ((exampleTankEngine 0 2 0 0).delays 10).getSize)
        (exampleTankEngine 0 2 0 0).lfo_offset1 :=
  (default_cross_feed exampleInstantiation rfl (exampleTankEngine 0 2 0 0)
    (initOffsets exampleInstantiation (exampleTankEngine 0 2 0 0)) (1, 0)).2.2.1

/-- Claim C22, counterexample. On the default instantiation a fresh engine
answers the block `[(1, 0)]` with the right sample `1/256` after
`setModulation(0, 0, 0, 0)`, with `0` after `setModulation(0, 2, 0, 0)` or
`setModulation(1, 0, 0, 0)`, and again with `1/256` after
`setModulation(0, 0, 1, 2)`: offset 1 and depth 1 move the right tap, offset 2
and depth 2 do not.  With `setModulation(0, 2, 0, 0)`, where depth 2 is zero,
oscillators returning `1` instead of `0` change the right sample from `0` to
`1/256`: oscillator 1 affects the output. -/
theorem default_right_tap_uses_lfo1 :
    exampleInstantiation.with_smear = false ∧
    examplePeakInstantiation.with_smear = false ∧
    (process exampleInstantiation (exampleTankEngine 0 0 0 0) [(1, 0)]).output =
      [(-(1 / 64), 1 / 256)] ∧
    (process exampleInstantiation (exampleTankEngine 0 2 0 0) [(1, 0)]).output =
      [(-(1 / 64), 0)] ∧
    (process exampleInstantiation (exampleTankEngine 1 0 0 0) [(1, 0)]).output =
      [(-(1 / 64), 0)] ∧
    (process exampleInstantiation (exampleTankEngine 0 0 1 2) [(1, 0)]).output =
      [(-(1 / 64), 1 / 256)] ∧
    (process examplePeakInstantiation (exampleTankEngine 0 2 0 0) [(1, 0)]).output =
      [(-(1 / 64), 1 / 256)] := by
  refine ⟨rfl, rfl, ?_, ?_, ?_, ?_, ?_⟩
  all_goals
    simp [exampleTankEngine, exampleTankLengths, exampleInstantiation, examplePeakInstantiation,
      freshEngine, process,
      processLoop, initOffsets, sizeAdd, sizeSub, sampleStep, smearStep, fmodf, leftAcc, rightAcc,
      applyAPF, processAPF, processLPF, processHPF, create, setAmount, setDecay, setDiffusion,
      setDamping, setModulation, DelayLine.create, DelayLine.read, DelayLine.write,
      DelayLine.writeAt, DelayLine.readAt, DelayLine.getSize, DelayLine.getWriteIndex,
      Oscillator.generate, Oscillator.create, Oscillator.setFrequency, applyProcessor,
      Function.update]
  all_goals norm_num

/-- Claim C23. For every damping `d`, state `s` and value `v`, `processLPF` and
`processHPF` both leave the state `s + d * (v - s)` and return it as the value:
they are the same function, the operation `apply(state, value, coefficient)` of
the specification with the damping coefficient, and no term `v - state` is
formed.  After every iteration of `process` the state of each second filter is
the value written to the tank delay of its channel.  The member `hpf_amount` is
never read: changing it changes neither the output nor the values written, and
leaves every other member of the engine after `process` as it was. -/
theorem processHPF_eq_processLPF {α : Type} [LinearOrderedField α] [FloorRing α] {P : Type} :
    (∀ d s v : α,
      processLPF d s v = (s + d * (v - s), s + d * (v - s)) ∧
      processHPF d s v = (s + d * (v - s), s + d * (v - s)) ∧
      processHPF d s v = processLPF d s v ∧
      processLPF d s v = specOnePoleApply s v d ∧
      processHPF d s v = specOnePoleApply s v d) ∧
    (∀ (c : Instantiation α P) (e : DattorroStereoReverb α P) (o : Offsets) (x : α × α),
      (sampleStep c e o x).engine.hp1_state = (sampleStep c e o x).left_acc ∧
      (sampleStep c e o x).engine.hp2_state = (sampleStep c e o x).right_acc) ∧
    (∀ (c : Instantiation α P) (e : DattorroStereoReverb α P) (h : α) (input : List (α × α)),
      (process c { e with hpf_amount := h } input).output = (process c e input).output ∧
      (process c { e with hpf_amount := h } input).written = (process c e input).written ∧
      (process c { e with hpf_amount := h } input).engine =
        { (process c e input).engine with hpf_amount := h }) := by
  refine ⟨fun d s v => ⟨rfl, rfl, rfl, rfl, rfl⟩, sampleStep_hp_states, fun c e h input => ?_⟩
  have hp : process c { e with hpf_amount := h } input =
      { process c e input with engine := { (process c e input).engine with hpf_amount := h } } := by
    unfold process
    rw [initOffsets_hpf_amount, processLoop_hpf_amount]
  rw [hp]
  exact ⟨rfl, rfl, rfl⟩

/-- Claim C24. For each of the twelve variants `getAntiderivative1 0 = 0`.  In
every state reachable from the constructor or `reset()` by calls of `process`
the stored pair satisfies `Fn1 = getAntiderivative1 xn1` (and `Fn = Fn1`); every
call of `process` returns and leaves `xn1 = x`, `Fn1 = getAntiderivative1 x`; and
the state after processing the input `0`, from any state, is the reset state. -/
theorem adaa_state_invariant (v : Variant) :
    v.getAntiderivative1 0 = 0 ∧
    (∀ s : AntialiasedWaveshaperTemplate ℝ, AntialiasedWaveshaperTemplate.Reachable v.toNonlinearity s →
      s.Fn1 = v.getAntiderivative1 s.xn1 ∧ s.Fn = s.Fn1) ∧
    (∀ (s : AntialiasedWaveshaperTemplate ℝ) (x : ℝ), ∃ y s',
      AntialiasedWaveshaperTemplate.process v.toNonlinearity s x = some (y, s') ∧
      s'.xn1 = x ∧ s'.Fn1 = v.getAntiderivative1 x) ∧
    (∀ s : AntialiasedWaveshaperTemplate ℝ, ∃ y,
      AntialiasedWaveshaperTemplate.process v.toNonlinearity s 0 =
        some (y, AntialiasedWaveshaperTemplate.reset)) := by
  have h0 := variant_getAntiderivative1_zero v
  refine ⟨h0, fun s hs => reachable_invariant v.toNonlinearity h0 s hs, fun s x => ?_, fun s => ?_⟩
  · exact ⟨_, _, process_eq _ s x, rfl, rfl⟩
  · have hp := process_eq v.toNonlinearity s 0
    have hF : v.toNonlinearity.getAntiderivative1 0 = 0 := h0
    rw [hF] at hp
    exact ⟨_, hp⟩

/-- Claim C25, amended. `AntialiasedThirdOrderPolynomial` with exact arithmetic
over the reals, which is `antialiasedClipN1Rounded` with `id` for the rounding.
Starting from the constructor or `reset()`, `process` on any finite list of
inputs returns, one output per input, and every output lies in `[-1, 1]`.  In
every reachable state a call of `process` returns a value in `[-1, 1]`, which is
`getSample (0.5 * (x + xn1))` when `|x - xn1| < thresh` and
`(getAntiderivative1 x - Fn1) / (x - xn1)` otherwise. -/
theorem thirdOrder_process_bounded :
    (∀ xs : List ℝ, ∃ ys s',
      AntialiasedWaveshaperTemplate.processBlock Variant.ThirdOrderPolynomial.toNonlinearity
        AntialiasedWaveshaperTemplate.reset xs = some (ys, s') ∧
      ys.length = xs.length ∧ ∀ y ∈ ys, -1 ≤ y ∧ y ≤ 1) ∧
    (∀ s : AntialiasedWaveshaperTemplate ℝ,
      AntialiasedWaveshaperTemplate.Reachable Variant.ThirdOrderPolynomial.toNonlinearity s → ∀ x : ℝ, ∃ y s',
        AntialiasedWaveshaperTemplate.process Variant.ThirdOrderPolynomial.toNonlinearity s x =
          some (y, s') ∧
        -1 ≤ y ∧ y ≤ 1 ∧
        (|x - s.xn1| < AntialiasedWaveshaperTemplate.thresh →
          y = ThirdOrderPolynomial.getSample (0.5 * (x + s.xn1))) ∧
        (¬ |x - s.xn1| < AntialiasedWaveshaperTemplate.thresh →
          y = (ThirdOrderPolynomial.getAntiderivative1 x - s.Fn1) / (x - s.xn1))) ∧
    (∀ (s : AntialiasedWaveshaperTemplate ℝ) (x : ℝ),
      AntialiasedWaveshaperTemplate.antialiasedClipN1Rounded id
          (ThirdOrderPolynomial.rounded id) s x =
        AntialiasedWaveshaperTemplate.process Variant.ThirdOrderPolynomial.toNonlinearity
          s x) := by
  have hd : ∀ x : ℝ, HasDerivAt Variant.ThirdOrderPolynomial.toNonlinearity.getAntiderivative1
      (Variant.ThirdOrderPolynomial.toNonlinearity.getSample x) x :=
    ThirdOrderPolynomial.thirdOrder_hasDerivAt_getAntiderivative1
  have hb : ∀ x : ℝ, -1 ≤ Variant.ThirdOrderPolynomial.toNonlinearity.getSample x ∧
      Variant.ThirdOrderPolynomial.toNonlinearity.getSample x ≤ 1 := by
    intro x
    show -1 ≤ ThirdOrderPolynomial.getSample x ∧ ThirdOrderPolynomial.getSample x ≤ 1
    rcases le_total |x| (3 / 2) with h | h
    · rw [ThirdOrderPolynomial.thirdOrder_getSample_inside h]
      obtain ⟨h1, h2⟩ := abs_le.mp h
      constructor
      · nlinarith [mul_nonneg (show (0:ℝ) ≤ 3 - x by linarith) (sq_nonneg (2 * x + 3))]
      · nlinarith [mul_nonneg (show (0:ℝ) ≤ x + 3 by linarith) (sq_nonneg (2 * x - 3))]
    · rw [ThirdOrderPolynomial.thirdOrder_getSample_outside h]
      rcases signum_of_le_abs (by norm_num : (0:ℝ) < 3 / 2) h with ⟨_, h2⟩ | ⟨_, h2⟩ <;>
        rw [h2] <;> norm_num
  have h0 := variant_getAntiderivative1_zero Variant.ThirdOrderPolynomial
  have quot : ∀ x y : ℝ, x - y ≠ 0 →
      -1 ≤ (Variant.ThirdOrderPolynomial.toNonlinearity.getAntiderivative1 x -
          Variant.ThirdOrderPolynomial.toNonlinearity.getAntiderivative1 y) / (x - y) ∧
      (Variant.ThirdOrderPolynomial.toNonlinearity.getAntiderivative1 x -
          Variant.ThirdOrderPolynomial.toNonlinearity.getAntiderivative1 y) / (x - y) ≤ 1 := by
    intro x y hxy
    have hl : ‖Variant.ThirdOrderPolynomial.toNonlinearity.getAntiderivative1 x -
        Variant.ThirdOrderPolynomial.toNonlinearity.getAntiderivative1 y‖ ≤ 1 * ‖x - y‖ :=
      Convex.norm_image_sub_le_of_norm_hasDerivWithin_le
        (fun z _ => (hd z).hasDerivWithinAt)
        (fun z _ => by rw [Real.norm_eq_abs]; exact abs_le.mpr (hb z))
        convex_univ (mem_univ y) (mem_univ x)
    rw [one_mul, Real.norm_eq_abs, Real.norm_eq_abs] at hl
    have hpos : 0 < |x - y| := abs_pos.mpr hxy
    have : |(Variant.ThirdOrderPolynomial.toNonlinearity.getAntiderivative1 x -
        Variant.ThirdOrderPolynomial.toNonlinearity.getAntiderivative1 y) / (x - y)| ≤ 1 := by
      rw [abs_div]
      exact (div_le_one hpos).mpr hl
    exact abs_le.mp this
  have one : ∀ (s : AntialiasedWaveshaperTemplate ℝ),
      s.Fn1 = Variant.ThirdOrderPolynomial.toNonlinearity.getAntiderivative1 s.xn1 → ∀ x : ℝ,
      ∃ y s', AntialiasedWaveshaperTemplate.process Variant.ThirdOrderPolynomial.toNonlinearity
          s x = some (y, s') ∧
        s'.Fn1 = Variant.ThirdOrderPolynomial.toNonlinearity.getAntiderivative1 s'.xn1 ∧
        -1 ≤ y ∧ y ≤ 1 ∧
        (|x - s.xn1| < AntialiasedWaveshaperTemplate.thresh →
          y = Variant.ThirdOrderPolynomial.toNonlinearity.getSample (0.5 * (x + s.xn1))) ∧
        (¬ |x - s.xn1| < AntialiasedWaveshaperTemplate.thresh →
          y = (Variant.ThirdOrderPolynomial.toNonlinearity.getAntiderivative1 x - s.Fn1) /
            (x - s.xn1)) := by
    intro s hs x
    have e : (0.5 : ℝ) * (x + s.xn1) = (x + s.xn1) / 2 := by norm_num; ring
    refine ⟨_, _, process_eq Variant.ThirdOrderPolynomial.toNonlinearity s x, rfl, ?_⟩
    rw [thresh_eq, e]
    by_cases h : |x - s.xn1| < 1 / 10
    · exact ⟨by rw [if_pos h]; exact (hb _).1, by rw [if_pos h]; exact (hb _).2,
        fun _ => by rw [if_pos h], fun h' => absurd h h'⟩
    · have hd0 : x - s.xn1 ≠ 0 := by
        intro h0
        apply h
        rw [h0, abs_zero]
        norm_num
      have := quot x s.xn1 hd0
      exact ⟨by rw [if_neg h, hs]; exact this.1, by rw [if_neg h, hs]; exact this.2,
        fun h' => absurd h' h, fun _ => by rw [if_neg h]⟩
  have blk : ∀ (xs : List ℝ) (s : AntialiasedWaveshaperTemplate ℝ),
      s.Fn1 = Variant.ThirdOrderPolynomial.toNonlinearity.getAntiderivative1 s.xn1 →
      ∃ ys s', AntialiasedWaveshaperTemplate.processBlock
          Variant.ThirdOrderPolynomial.toNonlinearity s xs = some (ys, s') ∧
        ys.length = xs.length ∧ ∀ y ∈ ys, -1 ≤ y ∧ y ≤ 1 := by
    intro xs
    induction xs with
    | nil => intro s _; exact ⟨[], s, rfl, rfl, by simp⟩
    | cons x xs ih =>
      intro s hs
      obtain ⟨y, s', hp, hs', hy1, hy2, -⟩ := one s hs x
      obtain ⟨ys, s'', hq, hl, hys⟩ := ih s' hs'
      refine ⟨y :: ys, s'', ?_, by simp [hl], ?_⟩
      · have hp' : AntialiasedWaveshaperTemplate.antialiasedClipN1
            Variant.ThirdOrderPolynomial.toNonlinearity s x = some (y, s') := hp
        simp only [AntialiasedWaveshaperTemplate.processBlock, hp', hq]
      · intro z hz
        rcases List.mem_cons.mp hz with h | h
        · rw [h]; exact ⟨hy1, hy2⟩
        · exact hys z h
  refine ⟨fun xs => blk xs _ ?_, fun s hs x => ?_, fun s x => ?_⟩
  · exact h0.symm
  · obtain ⟨y, s', hp, -, h1, h2, h3, h4⟩ := one s (reachable_invariant _ h0 s hs).1 x
    exact ⟨y, s', hp, h1, h2, h3, h4⟩
  · unfold AntialiasedWaveshaperTemplate.process AntialiasedWaveshaperTemplate.antialiasedClipN1
      AntialiasedWaveshaperTemplate.antialiasedClipN1Core
      AntialiasedWaveshaperTemplate.antialiasedClipN1Rounded
    have e1 : (ThirdOrderPolynomial.rounded id : Nonlinearity ℝ).getSample =
        Variant.ThirdOrderPolynomial.toNonlinearity.getSample := rfl
    have e2 : (ThirdOrderPolynomial.rounded id : Nonlinearity ℝ).getAntiderivative1 =
        Variant.ThirdOrderPolynomial.toNonlinearity.getAntiderivative1 := rfl
    simp [e1, e2]

/-- Claim C25, counterexample. In binary32 arithmetic, from `reset()`, the
inputs `1048577.125 = 8388617/8` and `1048577.25 = 4194309/4` (both binary32
values) give the outputs `8388603/8388608` and `2`: `getAntiderivative1` rounds
to `1048576.5` and `1048576.75`, and the difference quotient is `0.25 / 0.125`. -/
theorem thirdOrder_binary32_output_two :
    roundBinary32 (8388617 / 8) = 8388617 / 8 ∧
    roundBinary32 (4194309 / 4) = 4194309 / 4 ∧
    AntialiasedWaveshaperTemplate.processBlockRounded roundBinary32
        (ThirdOrderPolynomial.rounded roundBinary32) AntialiasedWaveshaperTemplate.reset
        [8388617 / 8, 4194309 / 4] =
      some ([8388603 / 8388608, 2],
        { xn1 := 4194309 / 4, Fn := 4194307 / 4, Fn1 := 4194307 / 4 }) ∧
    ¬ ((2 : ℚ) ≤ 1) := by
  refine ⟨roundBinary32_thirdOrder_values.2.2.2.2.2.2.2.1,
    roundBinary32_thirdOrder_values.2.2.2.2.2.2.2.2.2.2, ?_, by norm_num⟩
  rw [AntialiasedWaveshaperTemplate.processBlockRounded, thirdOrder_rounded_steps.1]
  simp only []
  rw [AntialiasedWaveshaperTemplate.processBlockRounded, thirdOrder_rounded_steps.2]
  simp only []
  rw [AntialiasedWaveshaperTemplate.processBlockRounded]

/-- Claim C26. `AntialiasedHardClipper` in the unclipped region: in a state with
`|xn1| ≤ 1` and `Fn1 = getAntiderivative1 xn1`, on an input with `|x| ≤ 1`,
`process` returns exactly `(x + xn1) / 2`; the midpoint fallback
`getSample (0.5 * (x + xn1))` has this value, and so has the difference
quotient whenever `x ≠ xn1`. -/
theorem hardClip_unclipped_midpoint (s : AntialiasedWaveshaperTemplate ℝ) (x : ℝ)
    (hs : |s.xn1| ≤ 1) (hF : s.Fn1 = HardClip.getAntiderivative1 s.xn1) (hx : |x| ≤ 1) :
    AntialiasedWaveshaperTemplate.process Variant.HardClip.toNonlinearity s x =
      some ((x + s.xn1) / 2,
        { xn1 := x, Fn := HardClip.getAntiderivative1 x, Fn1 := HardClip.getAntiderivative1 x }) ∧
    HardClip.getSample (0.5 * (x + s.xn1)) = (x + s.xn1) / 2 ∧
    (x - s.xn1 ≠ 0 →
      (HardClip.getAntiderivative1 x - s.Fn1) / (x - s.xn1) = (x + s.xn1) / 2) := by
  have sampleIn : ∀ y : ℝ, |y| ≤ 1 → HardClip.getSample y = y := by
    intro y hy
    obtain ⟨h1, h2⟩ := abs_le.mp hy
    unfold HardClip.getSample
    rw [abs_of_nonneg (by norm_num; linarith : (0:ℝ) ≤ y + 1.0),
      abs_of_nonpos (by norm_num; linarith : y - 1.0 ≤ (0:ℝ))]
    norm_num
    ring
  have primIn : ∀ y : ℝ, |y| ≤ 1 → HardClip.getAntiderivative1 y = y ^ 2 / 2 := by
    intro y hy
    obtain ⟨h1, h2⟩ := abs_le.mp hy
    unfold HardClip.getAntiderivative1
    simp only []
    rw [abs_of_nonneg (by norm_num; linarith : (0:ℝ) ≤ y + 1.0),
      abs_of_nonpos (by norm_num; linarith : y - 1.0 ≤ (0:ℝ))]
    norm_num
    ring
  have hm : |(x + s.xn1) / 2| ≤ 1 := by
    obtain ⟨h1, h2⟩ := abs_le.mp hx
    obtain ⟨h3, h4⟩ := abs_le.mp hs
    exact abs_le.mpr ⟨by linarith, by linarith⟩
  have hq : x - s.xn1 ≠ 0 →
      (HardClip.getAntiderivative1 x - s.Fn1) / (x - s.xn1) = (x + s.xn1) / 2 := by
    intro hd
    rw [hF, primIn x hx, primIn s.xn1 hs]
    field_simp
    ring
  have hmid : HardClip.getSample (0.5 * (x + s.xn1)) = (x + s.xn1) / 2 := by
    have e : (0.5 : ℝ) * (x + s.xn1) = (x + s.xn1) / 2 := by norm_num; ring
    rw [e, sampleIn _ hm]
  refine ⟨?_, hmid, hq⟩
  rw [process_eq]
  show some (if |x - s.xn1| < 1 / 10 then HardClip.getSample ((x + s.xn1) / 2)
      else (HardClip.getAntiderivative1 x - s.Fn1) / (x - s.xn1),
      ({ xn1 := x, Fn := HardClip.getAntiderivative1 x,
         Fn1 := HardClip.getAntiderivative1 x } : AntialiasedWaveshaperTemplate ℝ)) = _
  by_cases h : |x - s.xn1| < 1 / 10
  · rw [if_pos h, sampleIn _ hm]
  · have hd : x - s.xn1 ≠ 0 := by
      intro h0
      apply h
      rw [h0, abs_zero]
      norm_num
    rw [if_neg h, hq hd]

/-- Claim C26 at the state `xn1 = 0`, `Fn1 = getAntiderivative1 0` and the
input `1/2`. -/
theorem hardClip_unclipped_midpoint_witness :
    AntialiasedWaveshaperTemplate.process Variant.HardClip.toNonlinearity
        { xn1 := 0, Fn := 0, Fn1 := HardClip.getAntiderivative1 0 } (1 / 2) =
      some ((1 / 2 + 0) / 2,
        { xn1 := 1 / 2, Fn := HardClip.getAntiderivative1 (1 / 2),
          Fn1 := HardClip.getAntiderivative1 (1 / 2) }) :=
  (hardClip_unclipped_midpoint { xn1 := 0, Fn := 0, Fn1 := HardClip.getAntiderivative1 0 } (1 / 2)
    (by norm_num) rfl (by norm_num [abs_le])).1

/-- Claim C27, the code evaluated. For `HardClip`, `CubicSaturator`,
`SecondOrderPolynomial` and `ThirdOrderPolynomial`, `getAntiderivative2` has
derivative `getAntiderivative1 x` at every real `x`.  For
`FourthOrderPolynomial` this holds for `|x| > 1`; for `|x| < 1`, where the
operand `1 / 5` is the integer quotient `0`, the derivative of
`getAntiderivative2` is `getAntiderivative1 x - x ^ 4`, which is
`getAntiderivative1 x` only at `x = 0`.  At `x = 1/2` the code returns `33/640`
with slope `39/160`, while `getAntiderivative1 (1/2) = 49/160`; at the threshold
`x = 1` the value is `1/3` while the inside form tends to `2/15`, so
`getAntiderivative2` is not continuous there. -/
theorem fourthOrder_getAntiderivative2_slip :
    (∀ x : ℝ, HasDerivAt HardClip.getAntiderivative2 (HardClip.getAntiderivative1 x) x) ∧
    (∀ x : ℝ,
      HasDerivAt CubicSaturator.getAntiderivative2 (CubicSaturator.getAntiderivative1 x) x) ∧
    (∀ x : ℝ, HasDerivAt SecondOrderPolynomial.getAntiderivative2
      (SecondOrderPolynomial.getAntiderivative1 x) x) ∧
    (∀ x : ℝ, HasDerivAt ThirdOrderPolynomial.getAntiderivative2
      (ThirdOrderPolynomial.getAntiderivative1 x) x) ∧
    (∀ x : ℝ, 1 < |x| → HasDerivAt FourthOrderPolynomial.getAntiderivative2
      (FourthOrderPolynomial.getAntiderivative1 x) x) ∧
    (∀ x : ℝ, |x| < 1 → HasDerivAt FourthOrderPolynomial.getAntiderivative2
      (FourthOrderPolynomial.getAntiderivative1 x - x ^ 4) x) ∧
    (∀ x : ℝ, |x| < 1 → x ≠ 0 → ¬ HasDerivAt FourthOrderPolynomial.getAntiderivative2
      (FourthOrderPolynomial.getAntiderivative1 x) x) ∧
    FourthOrderPolynomial.getAntiderivative2 (1 / 2 : ℝ) = 33 / 640 ∧
    FourthOrderPolynomial.getAntiderivative1 (1 / 2 : ℝ) = 49 / 160 ∧
    HasDerivAt FourthOrderPolynomial.getAntiderivative2 (39 / 160) (1 / 2 : ℝ) ∧
    FourthOrderPolynomial.getAntiderivative2 (1 : ℝ) = 1 / 3 ∧
    Tendsto FourthOrderPolynomial.getAntiderivative2 (𝓝[<] (1 : ℝ)) (𝓝 (2 / 15)) ∧
    ¬ ContinuousAt FourthOrderPolynomial.getAntiderivative2 (1 : ℝ) := by
  have habs : |(1 / 2 : ℝ)| = 1 / 2 := abs_of_pos (by norm_num)
  have hlt : |(1 / 2 : ℝ)| < 1 := by rw [habs]; norm_num
  have hAD1 : FourthOrderPolynomial.getAntiderivative1 (1 / 2 : ℝ) = 49 / 160 := by
    rw [FourthOrderPolynomial.fourthOrder_getAntiderivative1_inside hlt.le, habs]
    norm_num
  have absSq : ∀ x : ℝ, HasDerivAt (fun y : ℝ => |y| * y * y) (3 * |x| * x) x := by
    intro x
    have h := (hasDerivAt_abs_mul_self x).mul (hasDerivAt_id' x)
    refine h.congr_deriv ?_
    ring
  have outPrim : ∀ (T x k c : ℝ), 0 < T → T ≤ |x| →
      HasDerivAt (fun y : ℝ => |y| * y / 2 - k * y + signum y * c) (|x| - k) x := by
    intro T x k c hT hx
    have hs : HasDerivAt (fun y : ℝ => signum y * c) 0 x := by
      rcases signum_of_le_abs hT hx with ⟨h1, _⟩ | ⟨h1, _⟩
      · refine (hasDerivAt_const x c).congr_of_eventuallyEq ?_
        filter_upwards [Ioi_mem_nhds (show (0 : ℝ) < x by linarith)] with y hy
        rw [signum_of_pos hy, one_mul]
      · refine (hasDerivAt_const x (-c)).congr_of_eventuallyEq ?_
        filter_upwards [Iio_mem_nhds (show x < (0 : ℝ) by linarith)] with y hy
        rw [signum_of_neg hy]
        ring
    have h := (((hasDerivAt_abs_mul_self x).div_const 2).sub
      ((hasDerivAt_id' x).const_mul k)).add hs
    refine h.congr_deriv ?_
    ring
  have hHard : ∀ x : ℝ,
      HasDerivAt HardClip.getAntiderivative2 (HardClip.getAntiderivative1 x) x := by
    intro x
    have ha : HasDerivAt (fun y : ℝ => |y + 1.0| * (y + 1.0) * (y + 1.0))
        (3 * |x + 1.0| * (x + 1.0)) x :=
      HasDerivAt.comp_add_const x 1.0 (absSq (x + 1.0))
    have hb : HasDerivAt (fun y : ℝ => |y - 1.0| * (y - 1.0) * (y - 1.0))
        (3 * |x - 1.0| * (x - 1.0)) x :=
      HasDerivAt.comp_sub_const x 1.0 (absSq (x - 1.0))
    have h := ((ha.sub hb).sub ((hasDerivAt_id' x).const_mul 6.0)).div_const 12
    unfold HardClip.getAntiderivative1
    refine (h.congr_deriv ?_)
    norm_num; ring
  have hCubic : ∀ x : ℝ,
      HasDerivAt CubicSaturator.getAntiderivative2 (CubicSaturator.getAntiderivative1 x) x := by
    intro x
    have hout : ∀ y : ℝ, 1 ≤ |y| → CubicSaturator.getAntiderivative2 y =
        |y| * y / 2 - 3 / 8 * y + signum y * (1 / 10) := by
      intro y hy
      simp [CubicSaturator.getAntiderivative2, hy]; ring
    have hin : ∀ y : ℝ, |y| ≤ 1 → CubicSaturator.getAntiderivative2 y =
        y ^ 3 / 4 - y ^ 5 / 40 := by
      intro y hy
      unfold CubicSaturator.getAntiderivative2
      simp only
      split_ifs with h
      · rcases eq_or_eq_neg_of_abs_le_of_le hy h with rfl | rfl <;> norm_num [signum]
      · ring
    refine hasDerivAt_of_pieces one_pos hout hin ?_ ?_ x
    · intro y hy
      rw [CubicSaturator.cubic_getAntiderivative1_outside hy]
      exact outPrim 1 y _ _ one_pos hy
    · intro y hy
      rw [CubicSaturator.cubic_getAntiderivative1_inside hy]
      have h := ((hasDerivAt_pow 3 y).div_const 4).sub ((hasDerivAt_pow 5 y).div_const 40)
      refine h.congr_deriv ?_
      norm_num; ring
  have hSecond : ∀ x : ℝ, HasDerivAt SecondOrderPolynomial.getAntiderivative2
      (SecondOrderPolynomial.getAntiderivative1 x) x := by
    intro x
    have hout : ∀ y : ℝ, 1 ≤ |y| → SecondOrderPolynomial.getAntiderivative2 y =
        |y| * y / 2 - 1 / 3 * y + signum y * (1 / 12) := by
      intro y hy
      unfold SecondOrderPolynomial.getAntiderivative2
      simp only
      split_ifs with h
      · ring
      · rcases eq_or_eq_neg_of_abs_le_of_le (not_lt.mp h) hy with rfl | rfl <;>
          norm_num [signum]
    have hin : ∀ y : ℝ, |y| ≤ 1 → SecondOrderPolynomial.getAntiderivative2 y =
        y ^ 3 / 3 - |y| * y * y ^ 2 / 12 := by
      intro y hy
      unfold SecondOrderPolynomial.getAntiderivative2
      simp only [gt_iff_lt, not_lt.mpr hy, if_false]
      ring
    refine hasDerivAt_of_pieces one_pos hout hin ?_ ?_ x
    · intro y hy
      rw [SecondOrderPolynomial.secondOrder_getAntiderivative1_outside hy]
      exact outPrim 1 y _ _ one_pos hy
    · intro y hy
      rw [SecondOrderPolynomial.secondOrder_getAntiderivative1_inside hy]
      have h := ((hasDerivAt_pow 3 y).div_const 3).sub
        (((hasDerivAt_abs_mul_self y).mul (hasDerivAt_pow 2 y)).div_const 12)
      refine h.congr_deriv ?_
      norm_num; ring
  have hThird : ∀ x : ℝ, HasDerivAt ThirdOrderPolynomial.getAntiderivative2
      (ThirdOrderPolynomial.getAntiderivative1 x) x := by
    intro x
    have hT : (0 : ℝ) < 3 / 2 := by norm_num
    have hout : ∀ y : ℝ, 3 / 2 ≤ |y| → ThirdOrderPolynomial.getAntiderivative2 y =
        |y| * y / 2 - 9 / 16 * y + signum y * (9 / 40) := by
      intro y hy
      have : (1.5 : ℝ) ≤ |y| := by norm_num; exact hy
      simp [ThirdOrderPolynomial.getAntiderivative2, this]; ring
    have hin : ∀ y : ℝ, |y| ≤ 3 / 2 → ThirdOrderPolynomial.getAntiderivative2 y =
        y ^ 3 / 6 - y ^ 5 / 135 := by
      intro y hy
      unfold ThirdOrderPolynomial.getAntiderivative2
      simp only
      split_ifs with h
      · have h' : (3 / 2 : ℝ) ≤ |y| := by norm_num at h; linarith
        rcases eq_or_eq_neg_of_abs_le_of_le hy h' with rfl | rfl <;>
          norm_num [abs_of_pos (show (0 : ℝ) < 3 / 2 by norm_num), signum]
      · have e : |y| * |y| = y * y := abs_mul_abs_self y
        rw [e]
        ring
    refine hasDerivAt_of_pieces hT hout hin ?_ ?_ x
    · intro y hy
      rw [ThirdOrderPolynomial.thirdOrder_getAntiderivative1_outside hy]
      exact outPrim (3 / 2) y _ _ hT hy
    · intro y hy
      rw [ThirdOrderPolynomial.thirdOrder_getAntiderivative1_inside hy]
      have h := ((hasDerivAt_pow 3 y).div_const 6).sub ((hasDerivAt_pow 5 y).div_const 135)
      refine h.congr_deriv ?_
      norm_num; ring
  have fOut : ∀ y : ℝ, 1 ≤ |y| → FourthOrderPolynomial.getAntiderivative2 y =
      |y| * y / 2 - 1 / 5 * y + signum y * (1 / 30) := by
    intro y hy
    simp [FourthOrderPolynomial.getAntiderivative2, hy]; ring
  have fIn : ∀ y : ℝ, |y| < 1 → FourthOrderPolynomial.getAntiderivative2 y =
      2 * y ^ 3 / 3 - |y| * y * y ^ 4 / 30 - |y| * y * y ^ 2 / 2 := by
    intro y hy
    unfold FourthOrderPolynomial.getAntiderivative2
    simp only [ge_iff_le, not_le.mpr hy, if_false]
    have e : |y| * |y| = y * y := abs_mul_abs_self y
    rw [e]
    norm_num
    ring
  have fDerivIn : ∀ x : ℝ, |x| < 1 → HasDerivAt FourthOrderPolynomial.getAntiderivative2
      (FourthOrderPolynomial.getAntiderivative1 x - x ^ 4) x := by
    intro x hx
    obtain ⟨h1, h2⟩ := abs_lt.mp hx
    have hA := hasDerivAt_abs_mul_self x
    have h := ((((hasDerivAt_pow 3 x).const_mul 2).div_const 3).sub
      ((hA.mul (hasDerivAt_pow 4 x)).div_const 30)).sub
      ((hA.mul (hasDerivAt_pow 2 x)).div_const 2)
    have h' : HasDerivAt
        (fun y : ℝ => 2 * y ^ 3 / 3 - |y| * y * y ^ 4 / 30 - |y| * y * y ^ 2 / 2)
        (FourthOrderPolynomial.getAntiderivative1 x - x ^ 4) x := by
      refine h.congr_deriv ?_
      rw [FourthOrderPolynomial.fourthOrder_getAntiderivative1_inside hx.le]
      norm_num; ring
    refine hasDerivAt_glue (-1) 1 h1 h2 h' h' ?_ ?_
    · intro y hy1 hy2
      exact fIn y (abs_lt.mpr ⟨hy1, by linarith⟩)
    · intro y hy1 hy2
      exact fIn y (abs_lt.mpr ⟨by linarith, hy2⟩)
  have fDerivOut : ∀ x : ℝ, 1 < |x| → HasDerivAt FourthOrderPolynomial.getAntiderivative2
      (FourthOrderPolynomial.getAntiderivative1 x) x := by
    intro x hx
    rw [FourthOrderPolynomial.fourthOrder_getAntiderivative1_outside hx.le]
    have h := outPrim 1 x (1 / 5) (1 / 30) one_pos hx.le
    rcases lt_abs.mp hx with h1 | h1
    · refine hasDerivAt_glue 1 (x + 1) h1 (by linarith) h h ?_ ?_
      · intro y hy1 _
        exact fOut y (le_trans hy1.le (le_abs_self y))
      · intro y hy1 _
        exact fOut y (le_trans (by linarith) (le_abs_self y))
    · refine hasDerivAt_glue (x - 1) (-1) (by linarith) (by linarith) h h ?_ ?_
      · intro y _ hy2
        exact fOut y (le_trans (by linarith) (neg_le_abs y))
      · intro y _ hy2
        exact fOut y (le_trans (by linarith) (neg_le_abs y))
  have fOne : FourthOrderPolynomial.getAntiderivative2 (1 : ℝ) = 1 / 3 := by
    rw [fOut 1 (by norm_num)]
    norm_num [signum]
  have fLeft : Tendsto FourthOrderPolynomial.getAntiderivative2 (𝓝[<] (1 : ℝ))
      (𝓝 (2 / 15)) := by
    have hc : Continuous fun x : ℝ =>
        2 * x ^ 3 / 3 - |x| * x * x ^ 4 / 30 - |x| * x * x ^ 2 / 2 := by fun_prop
    have h1 := (hc.tendsto 1).mono_left (@nhdsWithin_le_nhds ℝ _ 1 (Iio 1))
    have hv : (2 * (1 : ℝ) ^ 3 / 3 - |(1 : ℝ)| * 1 * 1 ^ 4 / 30 - |(1 : ℝ)| * 1 * 1 ^ 2 / 2) =
        2 / 15 := by norm_num
    rw [hv] at h1
    refine h1.congr' ?_
    have e1 : ∀ᶠ y in 𝓝[<] (1 : ℝ), (-1 : ℝ) < y :=
      eventually_nhdsWithin_of_eventually_nhds (Ioi_mem_nhds (by norm_num))
    have e2 : ∀ᶠ y in 𝓝[<] (1 : ℝ), y ∈ Iio (1 : ℝ) := self_mem_nhdsWithin
    filter_upwards [e1, e2] with y hy1 hy2
    exact (fIn y (abs_lt.mpr ⟨hy1, hy2⟩)).symm
  refine ⟨hHard, hCubic, hSecond, hThird, fDerivOut, fDerivIn, ?_, ?_, hAD1, ?_, fOne, fLeft, ?_⟩
  · intro x hx h0 hd
    have hu := hd.unique (fDerivIn x hx)
    have : x ^ 4 = 0 := by linarith
    exact h0 (pow_eq_zero_iff (by norm_num) |>.mp this)
  · rw [fIn _ hlt, habs]
    norm_num
  · have h := fDerivIn _ hlt
    rw [hAD1] at h
    refine h.congr_deriv ?_
    norm_num
  · intro hc
    have h1 : Tendsto FourthOrderPolynomial.getAntiderivative2 (𝓝[<] (1 : ℝ))
        (𝓝 (FourthOrderPolynomial.getAntiderivative2 1)) :=
      hc.tendsto.mono_left nhdsWithin_le_nhds
    rw [fOne] at h1
    have := tendsto_nhds_unique fLeft h1
    norm_num at this

end OwlLich
